import Mathlib

/-!
Shallow embedding of the hierarchical height-field intersection core of the
peaks renderer (src/math.rs, src/textures.rs, src/ops.rs,
src/primitives/aabb.rs, src/primitives/bilinear_patch.rs,
src/primitives/height_map.rs).

Floating point numbers are modelled as exact real numbers.  The places where
the Rust code can produce non-finite values (IEEE division by zero and the
NaN-ignoring f64 min/max) are modelled explicitly with the type F below,
which extends the reals with positive/negative infinity and NaN, following
IEEE semantics on real (finite) inputs.  Rust usize values are modelled as
Nat.  Vec indexing and texture buffer indexing, which panic when out of
bounds, are modelled with Option-returning lookups where a claim depends on
panic-freedom.
-/

set_option maxHeartbeats 1600000

set_option autoImplicit false

/-- Extended floating-point value: a real number, an infinity or NaN.
Models the results of f64 arithmetic whose inputs are (exact) reals. -/
inductive F where
  | nan : F
  | ninf : F
  | pinf : F
  | fin : ℝ → F

noncomputable instance : DecidableEq F := fun a b => by
  cases a <;> cases b
  case fin.fin x y => exact decidable_of_iff (x = y) (by simp)
  all_goals first
    | exact isTrue rfl
    | exact isFalse (fun h => by cases h)

/-- Result of the f64 division num / den for real num, den.  Division by
zero yields a signed infinity (or NaN for 0/0), as in IEEE with den = +0. -/
noncomputable def F.ofDiv (num den : ℝ) : F :=
  if den = 0 then
    (if num = 0 then F.nan else if 0 < num then F.pinf else F.ninf)
  else F.fin (num / den)

/-- The f64 product of a finite real with an extended value. -/
noncomputable def F.smul (r : ℝ) : F → F
  | F.nan => F.nan
  | F.ninf => if 0 < r then F.ninf else if r < 0 then F.pinf else F.nan
  | F.pinf => if 0 < r then F.pinf else if r < 0 then F.ninf else F.nan
  | F.fin x => F.fin (r * x)

/-- Rust f64::min: NaN operands are ignored. -/
noncomputable def F.min : F → F → F
  | F.nan, b => b
  | a, F.nan => a
  | F.ninf, _ => F.ninf
  | _, F.ninf => F.ninf
  | F.pinf, b => b
  | a, F.pinf => a
  | F.fin x, F.fin y => F.fin (Min.min x y)

/-- Rust f64::max: NaN operands are ignored. -/
noncomputable def F.max : F → F → F
  | F.nan, b => b
  | a, F.nan => a
  | F.pinf, _ => F.pinf
  | _, F.pinf => F.pinf
  | F.ninf, b => b
  | a, F.ninf => a
  | F.fin x, F.fin y => F.fin (Max.max x y)

/-- IEEE strict comparison: any comparison with NaN is false. -/
def F.lt : F → F → Prop
  | F.nan, _ => False
  | _, F.nan => False
  | F.ninf, F.ninf => False
  | F.ninf, _ => True
  | F.fin _, F.ninf => False
  | F.fin x, F.fin y => x < y
  | F.fin _, F.pinf => True
  | F.pinf, _ => False

noncomputable instance (a b : F) : Decidable (F.lt a b) := by
  unfold F.lt
  cases a <;> cases b <;> simp only <;> infer_instance

/-- The finite value carried by an F, with junk value 0 otherwise. -/
def F.val : F → ℝ
  | F.fin x => x
  | _ => 0

/-- Three-dimensional vector of f64 (math.rs, struct Vec3). -/
structure Vec3 where
  x : ℝ
  y : ℝ
  z : ℝ

noncomputable instance : DecidableEq Vec3 := fun a b =>
  decidable_of_iff (a.x = b.x ∧ a.y = b.y ∧ a.z = b.z)
    (by cases a; cases b; constructor <;> intro h <;> simp_all)

instance : Inhabited Vec3 := ⟨⟨0, 0, 0⟩⟩

/-- Vec3::zeros. -/
def Vec3.zeros : Vec3 := ⟨0, 0, 0⟩

instance : Add Vec3 := ⟨fun a b => ⟨a.x + b.x, a.y + b.y, a.z + b.z⟩⟩

instance : Sub Vec3 := ⟨fun a b => ⟨a.x - b.x, a.y - b.y, a.z - b.z⟩⟩

instance : Neg Vec3 := ⟨fun a => ⟨-a.x, -a.y, -a.z⟩⟩

/-- Componentwise scaling, Mul of Vec3 by f64. -/
def Vec3.smul (a : Vec3) (r : ℝ) : Vec3 := ⟨a.x * r, a.y * r, a.z * r⟩

/-- Componentwise division of two vectors (Div of Vec3 by Vec3).  Real
division is used; components where the divisor is zero are only produced by
the source in positions whose value a caller never uses on real inputs. -/
noncomputable def Vec3.divVec (a b : Vec3) : Vec3 := ⟨a.x / b.x, a.y / b.y, a.z / b.z⟩

/-- Vec3::dot. -/
def Vec3.dot (a b : Vec3) : ℝ := a.x * b.x + a.y * b.y + a.z * b.z

/-- Vec3::cross. -/
def Vec3.cross (a b : Vec3) : Vec3 :=
  ⟨a.y * b.z - a.z * b.y, a.z * b.x - a.x * b.z, a.x * b.y - a.y * b.x⟩

/-- Vec3::distance. -/
noncomputable def Vec3.distance (a b : Vec3) : ℝ :=
  Real.sqrt ((b.x - a.x) * (b.x - a.x) + (b.y - a.y) * (b.y - a.y)
    + (b.z - a.z) * (b.z - a.z))

/-- Vec3::normalize: returns the zero vector when the squared length is not
positive, exactly as the source does. -/
noncomputable def Vec3.normalize (a : Vec3) : Vec3 :=
  if 0 < Vec3.dot a a then (a.smul 1).smul (1 / Real.sqrt (Vec3.dot a a))
  else ⟨0, 0, 0⟩

/-- Vec3::abs. -/
def Vec3.abs (a : Vec3) : Vec3 := ⟨|a.x|, |a.y|, |a.z|⟩

/-- Vec3::integral: floor for positive components, ceil otherwise. -/
noncomputable def Vec3.integral (a : Vec3) : Vec3 :=
  ⟨if 0 < a.x then (⌊a.x⌋ : ℝ) else (⌈a.x⌉ : ℝ),
   if 0 < a.y then (⌊a.y⌋ : ℝ) else (⌈a.y⌉ : ℝ),
   if 0 < a.z then (⌊a.z⌋ : ℝ) else (⌈a.z⌉ : ℝ)⟩

/-- Ray with an origin and a (not necessarily normalized) direction. -/
structure Ray where
  origin : Vec3
  direction : Vec3

/-- Intersection record (primitives/primitive.rs, render.rs): a ray
parameter together with a surface normal.  The parameter is an F because
the source stores +infinity as a sentinel and the AABB code can report
infinite entry distances for degenerate boxes. -/
structure Intersection where
  t : F
  normal : Vec3

/-- Intersection::none: the sentinel used while folding over candidates. -/
def Intersection.none : Intersection := ⟨F.pinf, Vec3.zeros⟩

/-- Intersection::is_none: tests for the +infinity sentinel. -/
def Intersection.is_none (i : Intersection) : Prop := i.t = F.pinf

noncomputable instance (i : Intersection) : Decidable (Intersection.is_none i) := by
  unfold Intersection.is_none; infer_instance

/-- Intersection::to_option. -/
noncomputable def Intersection.to_option (i : Intersection) : Option Intersection :=
  if i.is_none then Option.none else Option.some i

/-- Row-major texture (textures.rs, struct Texture). -/
structure Texture (α : Type) where
  width : ℕ
  height : ℕ
  buffer : List α

/-- Texture::blank: a width*height buffer of default values. -/
def Texture.blank (α : Type) [Inhabited α] (width height : ℕ) : Texture α :=
  ⟨width, height, List.replicate (width * height) default⟩

/-- Texture::lookup1x1.  Total version: out-of-range indexes yield the
default value (the source panics there; see lookup1x1? below). -/
def Texture.lookup1x1 {α : Type} [Inhabited α] (t : Texture α) (x y : ℕ) : α :=
  t.buffer.getD (t.width * y + x) default

/-- Texture::lookup1x1 as a fallible operation: none models the panic on an
out-of-bounds buffer index. -/
def Texture.lookup1x1? {α : Type} (t : Texture α) (x y : ℕ) : Option α :=
  t.buffer.get? (t.width * y + x)

/-- Texture::lookup2x2: the four cells at (x,y), (x+1,y), (x,y+1), (x+1,y+1)
in raster (z) order. -/
def Texture.lookup2x2 {α : Type} [Inhabited α] (t : Texture α) (x y : ℕ) :
    α × α × α × α :=
  (t.buffer.getD (t.width * y + x) default,
   t.buffer.getD (t.width * y + x + 1) default,
   t.buffer.getD (t.width * (y + 1) + x) default,
   t.buffer.getD (t.width * (y + 1) + x + 1) default)

/-- Helper for translating the imperative per-cell loops of the source: the
texture of the given dimensions whose cell (x, y) holds f x y. -/
def Texture.ofFn {α : Type} (width height : ℕ) (f : ℕ → ℕ → α) : Texture α :=
  ⟨width, height, (List.range (width * height)).map
    (fun i => f (i % width) (i / width))⟩

/-- Scaling by a scalar, used by Texture::bilinear for Vec3 textures. -/
class SmulF64 (α : Type) where
  smulF : α → ℝ → α

instance : SmulF64 Vec3 := ⟨Vec3.smul⟩

instance : SmulF64 ℝ := ⟨fun a r => a * r⟩

/-- Texture::bilinear: bilinearly filtered lookup, returning the default
value outside the guarded interior region. -/
noncomputable def Texture.bilinear {α : Type} [Inhabited α] [Add α]
    [SmulF64 α] (t : Texture α) (x y : ℝ) : α :=
  if x < 0 ∨ x + 1 ≥ (t.width : ℝ) ∨ y < 0 ∨ y + 1 ≥ (t.height : ℝ) then
    default
  else
    let xf := (⌊x⌋ : ℝ)
    let yf := (⌊y⌋ : ℝ)
    let c := t.lookup2x2 ⌊x⌋.toNat ⌊y⌋.toNat
    let tx := x - xf
    let ty := y - yf
    SmulF64.smulF (SmulF64.smulF c.1 (1 - tx)) (1 - ty)
      + SmulF64.smulF (SmulF64.smulF c.2.1 tx) (1 - ty)
      + SmulF64.smulF (SmulF64.smulF c.2.2.1 (1 - tx)) ty
      + SmulF64.smulF (SmulF64.smulF c.2.2.2 tx) ty

/-- Rounds up to the next power of two (math.rs, ceil_pow2).  The source
computes 2^ceil(log2 n) with f64 arithmetic; this is its exact value
(0 for input 0, since 2^(-infinity) truncates to 0). -/
def ceil_pow2 (num : ℕ) : ℕ :=
  if num = 0 then 0 else 2 ^ Nat.clog 2 num

/-- Blit one texture onto another at offset (x, y) (ops.rs, blit). -/
def blit {α : Type} [Inhabited α] (input output : Texture α) (x y : ℕ) :
    Texture α :=
  Texture.ofFn output.width output.height (fun X Y =>
    if x ≤ X ∧ X < x + input.width ∧ y ≤ Y ∧ Y < y + input.height then
      input.lookup1x1 (X - x) (Y - y)
    else output.lookup1x1 X Y)

/-- Create the map of bilinear patch corner quadruples and its first mipmap
level from a padded height map (ops.rs, height_map_to_bilinear_patch).  The
outputs have the dimensions asserted by the source: one less than the input
on each axis.  Corners are read in raster (z) order nw, ne, sw, se and
stored clockwise as (nw, ne, se, sw); the mipmap cell is their maximum. -/
def height_map_to_bilinear_patch (input : Texture ℝ) :
    Texture (ℝ × ℝ × ℝ × ℝ) × Texture ℝ :=
  (Texture.ofFn (input.width - 1) (input.height - 1) (fun x y =>
      let c := input.lookup2x2 x y
      (c.1, c.2.1, c.2.2.2, c.2.2.1)),
   Texture.ofFn (input.width - 1) (input.height - 1) (fun x y =>
      let c := input.lookup2x2 x y
      Max.max (Max.max (Max.max c.1 c.2.1) c.2.2.2) c.2.2.1))

/-- Create the next maximum mipmap level (ops.rs,
maximum_mipmap_bilinear_patch): each output cell is the maximum of the 2x2
input block at doubled coordinates; output dimensions are halved. -/
def maximum_mipmap_bilinear_patch (input : Texture ℝ) : Texture ℝ :=
  Texture.ofFn (input.width / 2) (input.height / 2) (fun x y =>
    let c := input.lookup2x2 (x * 2) (y * 2)
    Max.max (Max.max (Max.max c.1 c.2.1) c.2.2.1) c.2.2.2)

/-- Surface normal map from a height map (ops.rs, normals).  Cells in the
last row and column are never written and keep the blank default. -/
noncomputable def normals (input : Texture ℝ) (pixel_width pixel_height : ℝ) :
    Texture Vec3 :=
  Texture.ofFn input.width input.height (fun x y =>
    if x + 1 < input.width ∧ y + 1 < input.height then
      let c := input.lookup2x2 x y
      let nw : Vec3 := ⟨-0.5 * pixel_width, c.1, -0.5 * pixel_height⟩
      let ne : Vec3 := ⟨0.5 * pixel_width, c.2.1, -0.5 * pixel_height⟩
      let sw : Vec3 := ⟨-0.5 * pixel_width, c.2.2.1, 0.5 * pixel_height⟩
      Vec3.normalize (Vec3.cross (sw - ne) (ne - nw))
    else default)

/-- Axis-aligned bounding box (primitives/aabb.rs). -/
structure Aabb where
  min : Vec3
  max : Vec3

/-- Aabb::new. -/
def Aabb.new (min max : Vec3) : Aabb := ⟨min, max⟩

/-- Aabb::center. -/
noncomputable def Aabb.center (a : Aabb) : Vec3 :=
  ⟨a.min.x + (a.max.x - a.min.x) / 2,
   a.min.y + (a.max.y - a.min.y) / 2,
   a.min.z + (a.max.z - a.min.z) / 2⟩

/-- Per-axis slab entry distance of Aabb::intersects: the near bound is
selected by the sign of the inverse direction component. -/
noncomputable def Aabb.axisTmin (bmin bmax o d : ℝ) : F :=
  let inv := F.ofDiv 1 d
  F.smul ((if F.lt inv (F.fin 0) then bmax else bmin) - o) inv

/-- Per-axis slab exit distance of Aabb::intersects. -/
noncomputable def Aabb.axisTmax (bmin bmax o d : ℝ) : F :=
  let inv := F.ofDiv 1 d
  F.smul ((if F.lt inv (F.fin 0) then bmin else bmax) - o) inv

/-- The tmin value computed by Aabb::intersects:
txmin.max(-INFINITY).max(tymin).max(tzmin) with the NaN-ignoring f64 max. -/
noncomputable def Aabb.slabTmin (a : Aabb) (ray : Ray) : F :=
  F.max (F.max (F.max
    (Aabb.axisTmin a.min.x a.max.x ray.origin.x ray.direction.x) F.ninf)
    (Aabb.axisTmin a.min.y a.max.y ray.origin.y ray.direction.y))
    (Aabb.axisTmin a.min.z a.max.z ray.origin.z ray.direction.z)

/-- The tmax value computed by Aabb::intersects:
txmax.min(INFINITY).min(tymax).min(tzmax) with the NaN-ignoring f64 min. -/
noncomputable def Aabb.slabTmax (a : Aabb) (ray : Ray) : F :=
  F.min (F.min (F.min
    (Aabb.axisTmax a.min.x a.max.x ray.origin.x ray.direction.x) F.pinf)
    (Aabb.axisTmax a.min.y a.max.y ray.origin.y ray.direction.y))
    (Aabb.axisTmax a.min.z a.max.z ray.origin.z ray.direction.z)

/-- The face normal computed by Aabb::intersects for a finite hit
parameter.  Unused by every caller in the traversal core; componentwise
real division models the f64 arithmetic on the nondegenerate boxes for
which the source produces a meaningful value. -/
noncomputable def Aabb.hitNormal (a : Aabb) (ray : Ray) (t : ℝ) : Vec3 :=
  let bias : ℝ := 1.000001
  let p := (ray.origin + ray.direction.smul t) - a.center
  let d := ((a.min - a.max).abs).smul 0.5
  Vec3.normalize (Vec3.integral ((p.divVec d).smul bias))

/-- Aabb::intersects: the slab method.  Returns the entry distance (or the
exit distance for boxes straddling or behind the origin) and a face
normal. -/
noncomputable def Aabb.intersects (a : Aabb) (ray : Ray) :
    Option Intersection :=
  let tmin := a.slabTmin ray
  let tmax := a.slabTmax ray
  if F.lt tmax tmin then Option.none
  else
    let t := if F.lt tmin (F.fin 0) then tmax else tmin
    let n := match t with
      | F.fin r => a.hitNormal ray r
      | _ => default
    Option.some ⟨t, n⟩

/-- Ruled bilinear patch over four corner points
(primitives/bilinear_patch.rs). -/
structure BilinearPatch where
  p00 : Vec3
  p01 : Vec3
  p10 : Vec3
  p11 : Vec3

/-- BilinearPatch::new: constructor taking corners in (nw, ne, se, sw)
order, which become (p01, p11, p10, p00). -/
def BilinearPatch.new (p01 p11 p10 p00 : Vec3) : BilinearPatch :=
  ⟨p00, p01, p10, p11⟩

/-- The eight projected scalar coefficients of the patch solver. -/
structure Variables where
  a1 : ℝ
  a2 : ℝ
  b1 : ℝ
  b2 : ℝ
  c1 : ℝ
  c2 : ℝ
  d1 : ℝ
  d2 : ℝ

/-- BilinearPatch::compute_u: recovers u for a given v, choosing the
denominator with the larger magnitude.  The f64 division is modelled with
F.ofDiv: a zero denominator produces a non-finite value, which the caller
then rejects through its range checks. -/
noncomputable def BilinearPatch.compute_u (v : ℝ) (vars : Variables) : F :=
  let denom1 := v * (vars.a2 - vars.a1) + vars.b2 - vars.b1
  let denom2 := v * vars.a2 + vars.b2
  if |denom2| < |denom1| then
    F.ofDiv (v * (vars.c1 - vars.c2) + vars.d1 - vars.d2) denom1
  else
    F.ofDiv (-(v * vars.c2 + vars.d2)) denom2

/-- BilinearPatch::compute_t: the NaN-ignoring minimum of the componentwise
ray parameters (position - origin) / direction. -/
noncomputable def BilinearPatch.compute_t (ray : Ray) (position : Vec3) : F :=
  F.min (F.min
    (F.ofDiv (position.x - ray.origin.x) ray.direction.x)
    (F.ofDiv (position.y - ray.origin.y) ray.direction.y))
    (F.ofDiv (position.z - ray.origin.z) ray.direction.z)

/-- BilinearPatch::position: the bilinear blend of the corner points. -/
def BilinearPatch.position (p : BilinearPatch) (u v : ℝ) : Vec3 :=
  ⟨(1 - u) * (1 - v) * p.p00.x + (1 - u) * v * p.p01.x
      + u * (1 - v) * p.p10.x + u * v * p.p11.x,
   (1 - u) * (1 - v) * p.p00.y + (1 - u) * v * p.p01.y
      + u * (1 - v) * p.p10.y + u * v * p.p11.y,
   (1 - u) * (1 - v) * p.p00.z + (1 - u) * v * p.p01.z
      + u * (1 - v) * p.p10.z + u * v * p.p11.z⟩

/-- BilinearPatch::tan_u. -/
def BilinearPatch.tan_u (p : BilinearPatch) (v : ℝ) : Vec3 :=
  ⟨(1 - v) * (p.p10.x - p.p00.x) + v * (p.p11.x - p.p01.x),
   (1 - v) * (p.p10.y - p.p00.y) + v * (p.p11.y - p.p01.y),
   (1 - v) * (p.p10.z - p.p00.z) + v * (p.p11.z - p.p01.z)⟩

/-- BilinearPatch::tan_v. -/
def BilinearPatch.tan_v (p : BilinearPatch) (u : ℝ) : Vec3 :=
  ⟨(1 - u) * (p.p01.x - p.p00.x) + u * (p.p11.x - p.p10.x),
   (1 - u) * (p.p01.y - p.p00.y) + u * (p.p11.y - p.p10.y),
   (1 - u) * (p.p01.z - p.p00.z) + u * (p.p11.z - p.p10.z)⟩

/-- BilinearPatch::normal: normalized cross product of the tangents. -/
noncomputable def BilinearPatch.normal (p : BilinearPatch) (u v : ℝ) : Vec3 :=
  Vec3.normalize (Vec3.cross (p.tan_u v) (p.tan_v u))

/-- BilinearPatch::solutions: candidate roots of the quadratic
a v^2 + b v + c.  Mirrors the source branch for branch, including the
discriminant-zero branch that returns -b / a. -/
noncomputable def BilinearPatch.solutions (a b c : ℝ) : List ℝ :=
  if a = 0 ∧ b ≠ 0 then [-c / b]
  else if a = 0 then []
  else
    let d := b * b - 4 * a * c
    if d = 0 then [-b / a]
    else if d < 0 then []
    else
      let b_sign : ℝ := if b < 0 then -1 else 1
      let q := -0.5 * (b + Real.sqrt d * b_sign)
      [c / q, q / a]

/-- BilinearPatch::solve: derive u, the position and the ray parameter for
a root v, rejecting the candidate unless t > 0 and u lies in the unit
interval.  A non-finite u always fails the source's range checks, so it is
rejected directly. -/
noncomputable def BilinearPatch.solve (p : BilinearPatch) (ray : Ray) (v : ℝ)
    (vars : Variables) : Option Intersection :=
  match BilinearPatch.compute_u v vars with
  | F.fin u =>
    let pos := p.position u v
    let t := BilinearPatch.compute_t ray pos
    if F.lt (F.fin 0) t ∧ u ≤ 1 ∧ 0 ≤ u then
      Option.some ⟨t, p.normal u v⟩
    else Option.none
  | _ => Option.none

/-- The Variables built by BilinearPatch::intersects from the patch basis
vectors and the ray, projecting the x and y axes against z. -/
def BilinearPatch.vars (p : BilinearPatch) (ray : Ray) : Variables :=
  let a := p.p11 - p.p10 - p.p01 + p.p00
  let b := p.p10 - p.p00
  let c := p.p01 - p.p00
  let d := p.p00 - ray.origin
  ⟨a.x * ray.direction.z - a.z * ray.direction.x,
   a.y * ray.direction.z - a.z * ray.direction.y,
   b.x * ray.direction.z - b.z * ray.direction.x,
   b.y * ray.direction.z - b.z * ray.direction.y,
   c.x * ray.direction.z - c.z * ray.direction.x,
   c.y * ray.direction.z - c.z * ray.direction.y,
   d.x * ray.direction.z - d.z * ray.direction.x,
   d.y * ray.direction.z - d.z * ray.direction.y⟩

/-- The quadratic coefficient a = a2 c1 - a1 c2 assembled by
BilinearPatch::intersects. -/
def BilinearPatch.quadA (p : BilinearPatch) (ray : Ray) : ℝ :=
  (p.vars ray).a2 * (p.vars ray).c1 - (p.vars ray).a1 * (p.vars ray).c2

/-- The quadratic coefficient b = a2 d1 - a1 d2 + b2 c1 - b1 c2 assembled
by BilinearPatch::intersects. -/
def BilinearPatch.quadB (p : BilinearPatch) (ray : Ray) : ℝ :=
  (p.vars ray).a2 * (p.vars ray).d1 - (p.vars ray).a1 * (p.vars ray).d2
    + (p.vars ray).b2 * (p.vars ray).c1 - (p.vars ray).b1 * (p.vars ray).c2

/-- The quadratic coefficient c = b2 d1 - b1 d2 assembled by
BilinearPatch::intersects. -/
def BilinearPatch.quadC (p : BilinearPatch) (ray : Ray) : ℝ :=
  (p.vars ray).b2 * (p.vars ray).d1 - (p.vars ray).b1 * (p.vars ray).d2

/-- The candidate intersections examined by BilinearPatch::intersects:
roots of the projected quadratic with v in the unit interval that survive
the checks of solve. -/
noncomputable def BilinearPatch.candidates (p : BilinearPatch) (ray : Ray) :
    List Intersection :=
  ((BilinearPatch.solutions (p.quadA ray) (p.quadB ray)
      (p.quadC ray)).filter
    (fun v => decide (0 ≤ v ∧ v ≤ 1))).filterMap
    (fun v => p.solve ray v (p.vars ray))

/-- BilinearPatch::intersects: solve the projected quadratic, keep the
candidates with v in the unit interval, and fold to the closest valid
intersection. -/
noncomputable def BilinearPatch.intersects (p : BilinearPatch) (ray : Ray) :
    Option Intersection :=
  ((p.candidates ray).foldl
    (fun closest current =>
      if F.lt current.t closest.t then current else closest)
    Intersection.none).to_option

/-- Height-field intersector (primitives/height_map.rs, struct HeightMap).
The transform is the [f64; 4] array (origin x, origin z, pixel width,
pixel depth). -/
structure HeightMap where
  transform : ℝ × ℝ × ℝ × ℝ
  normal_map : Texture Vec3
  bilinear_patches : Texture (ℝ × ℝ × ℝ × ℝ)
  maximum_mipmaps : List (Texture ℝ)

/-- The while loop of HeightMap::new that repeatedly halves the mipmap and
pushes the next level, stopping when the size reaches 1.  The levels are
returned in push order (coarser levels later). -/
def mipChain (previous : Texture ℝ) (size : ℕ) : List (Texture ℝ) :=
  if 1 < size then
    let next := maximum_mipmap_bilinear_patch previous
    next :: mipChain next (size / 2)
  else []
termination_by size
decreasing_by exact Nat.div_lt_self (by omega) (by omega)

/-- HeightMap::new: build the normal map, pad the raster to a power-of-two
size plus one, derive the patch grid with its level-0 maximum mipmap, and
stack up the coarser mipmap levels. -/
noncomputable def HeightMap.new (transform : ℝ × ℝ × ℝ × ℝ)
    (height_map : Texture ℝ) : HeightMap :=
  let normal_map := normals height_map transform.2.2.1 transform.2.2.2
  let height_map_size := Max.max height_map.width height_map.height
  let size := ceil_pow2 height_map_size
  let height_map2 := blit height_map (Texture.blank ℝ (size + 1) (size + 1)) 0 0
  let patches := height_map_to_bilinear_patch height_map2
  let bilinear_patches := patches.1
  let bilinear_patches_mipmap0 := patches.2
  let maximum_mipmaps :=
    bilinear_patches_mipmap0 :: mipChain bilinear_patches_mipmap0 size
  ⟨transform, normal_map, bilinear_patches, maximum_mipmaps⟩

/-- HeightMap::world_to_raster.  Real division (the degenerate zero pixel
size feeds the guarded bilinear lookup in the source and is not used by any
constructed map in the claims). -/
noncomputable def HeightMap.world_to_raster (hm : HeightMap) (x y : ℝ) :
    ℝ × ℝ :=
  ((x - hm.transform.1) / hm.transform.2.2.1,
   (y - hm.transform.2.1) / hm.transform.2.2.2)

/-- HeightMap::raster_to_world: scale by the pixel size at the given mip
level and translate. -/
def HeightMap.raster_to_world (hm : HeightMap) (level : ℕ) (x y : ℝ) :
    ℝ × ℝ :=
  (hm.transform.1 + x * (hm.transform.2.2.1 * (2 ^ level : ℕ)),
   hm.transform.2.1 + y * (hm.transform.2.2.2 * (2 ^ level : ℕ)))

/-- The flattened distance from the ray origin to the center of a work
item's cell, used by the traversal's nearest-first child ordering. -/
noncomputable def HeightMap.flatDist (hm : HeightMap) (ray : Ray)
    (item : ℕ × ℕ × ℕ) : ℝ :=
  let w := hm.raster_to_world item.1 ((item.2.1 : ℝ) + 0.5)
    ((item.2.2 : ℝ) + 0.5)
  Vec3.distance ⟨w.1, 0, w.2⟩ ⟨ray.origin.x, 0, ray.origin.z⟩

/-- The flat_dist_comp comparator of HeightMap::intersects as a sorting
predicate: item a precedes item b exactly when its cell center is strictly
farther from the ray origin, so the nearest child ends up popped first.
Equal distances order the items arbitrarily in the source (the comparator
never returns Equal); a stable merge sort determinizes that tie. -/
noncomputable def HeightMap.flatFarther (hm : HeightMap) (ray : Ray)
    (a b : ℕ × ℕ × ℕ) : Bool :=
  decide (hm.flatDist ray b < hm.flatDist ray a)

/-- Weight of a work item for the traversal's termination measure: the
size of the quadtree below its level. -/
def itemWeight : ℕ → ℕ
  | 0 => 1
  | level + 1 => 1 + 4 * itemWeight level

/-- Total weight of a traversal work stack. -/
def stackWeight (stack : List (ℕ × ℕ × ℕ)) : ℕ :=
  (stack.map (fun item => itemWeight item.1)).sum

/-- Every work item weighs at least one. -/
theorem itemWeight_pos (level : ℕ) : 0 < itemWeight level := by
  cases level <;> simp [itemWeight]

/-- Popping an item and keeping the rest shrinks the stack weight. -/
theorem stackWeight_tail_lt (item : ℕ × ℕ × ℕ) (rest : List (ℕ × ℕ × ℕ)) :
    stackWeight rest < stackWeight (item :: rest) := by
  simp only [stackWeight, List.map_cons, List.sum_cons]
  have := itemWeight_pos item.1
  omega

/-- Replacing an internal item by its four sorted children shrinks the
stack weight. -/
theorem stackWeight_children_lt (level x y : ℕ) (hlevel : level ≠ 0)
    (le : (ℕ × ℕ × ℕ) → (ℕ × ℕ × ℕ) → Bool) (rest : List (ℕ × ℕ × ℕ)) :
    stackWeight ((([(level - 1, x * 2, y * 2), (level - 1, x * 2 + 1, y * 2),
        (level - 1, x * 2, y * 2 + 1),
        (level - 1, x * 2 + 1, y * 2 + 1)].mergeSort le).reverse ++ rest))
      < stackWeight ((level, x, y) :: rest) := by
  simp only [stackWeight, List.map_append, List.sum_append, List.map_reverse,
    List.sum_reverse, List.map_cons, List.sum_cons]
  have hperm : (([(level - 1, x * 2, y * 2), (level - 1, x * 2 + 1, y * 2),
      (level - 1, x * 2, y * 2 + 1),
      (level - 1, x * 2 + 1, y * 2 + 1)].mergeSort le).map
        (fun item => itemWeight item.1)).sum
      = ([(level - 1, x * 2, y * 2), (level - 1, x * 2 + 1, y * 2),
      (level - 1, x * 2, y * 2 + 1), (level - 1, x * 2 + 1, y * 2 + 1)].map
        (fun item => itemWeight item.1)).sum :=
    List.Perm.sum_eq (List.Perm.map _ (List.mergeSort_perm _ _))
  rw [hperm]
  have hlev : level = (level - 1) + 1 := by omega
  have hw : itemWeight level = 1 + 4 * itemWeight (level - 1) := by
    conv_lhs => rw [hlev]
    simp [itemWeight]
  rw [hw]
  simp only [List.map_cons, List.map_nil, List.sum_cons, List.sum_nil]
  omega

/-- The work-stack loop of HeightMap::intersects.  The stack is kept with
the top (the next item Vec::pop would return) at the head.  The outer
Option models index panics: none is a panic on an out-of-bounds
maximum_mipmaps or texture index, some r is normal termination with
result r. -/
noncomputable def HeightMap.intersectsLoop (hm : HeightMap) (ray : Ray) :
    List (ℕ × ℕ × ℕ) → Option (Option Intersection)
  | [] => Option.some Option.none
  | (level, x, y) :: rest =>
    match hm.maximum_mipmaps.get? level with
    | Option.none => Option.none
    | Option.some mipmap =>
      match mipmap.lookup1x1? x y with
      | Option.none => Option.none
      | Option.some max_y =>
        let w0 := hm.raster_to_world level (x : ℝ) (y : ℝ)
        let w1 := hm.raster_to_world level ((x : ℝ) + 1) ((y : ℝ) + 1)
        let aabb := Aabb.new ⟨w0.1, 0, w0.2⟩ ⟨w1.1, max_y, w1.2⟩
        match Aabb.intersects aabb ray with
        | Option.none => hm.intersectsLoop ray rest
        | Option.some inter =>
          if F.lt inter.t (F.fin 0) then hm.intersectsLoop ray rest
          else if h0 : level = 0 then
            match hm.bilinear_patches.lookup1x1? x y with
            | Option.none => Option.none
            | Option.some corners =>
              let patch := BilinearPatch.new
                ⟨w0.1, corners.1, w0.2⟩
                ⟨w1.1, corners.2.1, w0.2⟩
                ⟨w1.1, corners.2.2.1, w1.2⟩
                ⟨w0.1, corners.2.2.2, w1.2⟩
              match patch.intersects ray with
              | Option.some pInter =>
                let point := ray.origin + ray.direction.smul pInter.t.val
                let rxy := hm.world_to_raster point.x point.z
                let normal := hm.normal_map.bilinear rxy.1 rxy.2
                Option.some (Option.some ⟨pInter.t, normal⟩)
              | Option.none => hm.intersectsLoop ray rest
          else
            let cx := x * 2
            let cy := y * 2
            let children := [(level - 1, cx, cy), (level - 1, cx + 1, cy),
              (level - 1, cx, cy + 1), (level - 1, cx + 1, cy + 1)]
            hm.intersectsLoop ray
              ((children.mergeSort (hm.flatFarther ray)).reverse ++ rest)
termination_by stack => stackWeight stack
decreasing_by
  all_goals first
    | exact stackWeight_tail_lt _ _
    | exact stackWeight_children_lt level x y h0 _ rest

/-- HeightMap::intersects (the Intersectable impl): bail out on an empty
mipmap list, then run the work-stack loop from the single top-level cell. -/
noncomputable def HeightMap.intersects (hm : HeightMap) (ray : Ray) :
    Option (Option Intersection) :=
  if hm.maximum_mipmaps.isEmpty then Option.some Option.none
  else hm.intersectsLoop ray [(hm.maximum_mipmaps.length - 1, 0, 0)]

/-- Fuel-bounded variant of the work-stack loop, used to state termination:
the outermost none means the fuel ran out before the loop reached a
terminal state.  The body is identical to HeightMap.intersectsLoop. -/
noncomputable def HeightMap.intersectsFuel (hm : HeightMap) (ray : Ray) :
    ℕ → List (ℕ × ℕ × ℕ) → Option (Option (Option Intersection))
  | _, [] => Option.some (Option.some Option.none)
  | 0, _ :: _ => Option.none
  | fuel + 1, (level, x, y) :: rest =>
    match hm.maximum_mipmaps.get? level with
    | Option.none => Option.some Option.none
    | Option.some mipmap =>
      match mipmap.lookup1x1? x y with
      | Option.none => Option.some Option.none
      | Option.some max_y =>
        let w0 := hm.raster_to_world level (x : ℝ) (y : ℝ)
        let w1 := hm.raster_to_world level ((x : ℝ) + 1) ((y : ℝ) + 1)
        let aabb := Aabb.new ⟨w0.1, 0, w0.2⟩ ⟨w1.1, max_y, w1.2⟩
        match Aabb.intersects aabb ray with
        | Option.none => hm.intersectsFuel ray fuel rest
        | Option.some inter =>
          if F.lt inter.t (F.fin 0) then hm.intersectsFuel ray fuel rest
          else if level = 0 then
            match hm.bilinear_patches.lookup1x1? x y with
            | Option.none => Option.some Option.none
            | Option.some corners =>
              let patch := BilinearPatch.new
                ⟨w0.1, corners.1, w0.2⟩
                ⟨w1.1, corners.2.1, w0.2⟩
                ⟨w1.1, corners.2.2.1, w1.2⟩
                ⟨w0.1, corners.2.2.2, w1.2⟩
              match patch.intersects ray with
              | Option.some pInter =>
                let point := ray.origin + ray.direction.smul pInter.t.val
                let rxy := hm.world_to_raster point.x point.z
                let normal := hm.normal_map.bilinear rxy.1 rxy.2
                Option.some (Option.some (Option.some ⟨pInter.t, normal⟩))
              | Option.none => hm.intersectsFuel ray fuel rest
          else
            let cx := x * 2
            let cy := y * 2
            let children := [(level - 1, cx, cy), (level - 1, cx + 1, cy),
              (level - 1, cx, cy + 1), (level - 1, cx + 1, cy + 1)]
            hm.intersectsFuel ray fuel
              ((children.mergeSort (hm.flatFarther ray)).reverse ++ rest)

theorem Texture.ofFn_width {α : Type} (w h : ℕ) (f : ℕ → ℕ → α) :
    (Texture.ofFn w h f).width = w := rfl

theorem Texture.ofFn_height {α : Type} (w h : ℕ) (f : ℕ → ℕ → α) :
    (Texture.ofFn w h f).height = h := rfl

theorem Texture.lookup1x1_ofFn {α : Type} [Inhabited α] (w h : ℕ)
    (f : ℕ → ℕ → α) (x y : ℕ) (hx : x < w) (hy : y < h) :
    (Texture.ofFn w h f).lookup1x1 x y = f x y := by
  unfold Texture.ofFn Texture.lookup1x1
  have hidx : w * y + x < w * h := by
    calc w * y + x < w * y + w := by omega
    _ = w * (y + 1) := by ring
    _ ≤ w * h := Nat.mul_le_mul_left w (by omega)
  rw [List.getD_eq_getElem?_getD]
  rw [List.getElem?_map]
  rw [List.getElem?_range hidx]
  simp only [Option.map_some', Option.getD_some]
  congr 1
  · rw [Nat.add_comm (w * y) x, Nat.add_mul_mod_self_left]
    exact (Nat.mod_eq_of_lt hx)
  · rw [Nat.add_comm (w * y) x, Nat.add_mul_div_left x y (by omega)]
    rw [Nat.div_eq_of_lt hx]
    omega

theorem Texture.lookup1x1q_ofFn {α : Type} (w h : ℕ)
    (f : ℕ → ℕ → α) (x y : ℕ) (hx : x < w) (hy : y < h) :
    (Texture.ofFn w h f).lookup1x1? x y = Option.some (f x y) := by
  unfold Texture.ofFn Texture.lookup1x1?
  have hidx : w * y + x < w * h := by
    calc w * y + x < w * y + w := by omega
    _ = w * (y + 1) := by ring
    _ ≤ w * h := Nat.mul_le_mul_left w (by omega)
  rw [List.get?_eq_getElem?]
  rw [List.getElem?_map, List.getElem?_range hidx]
  simp only [Option.map_some']
  congr 2
  · rw [Nat.add_comm (w * y) x, Nat.add_mul_mod_self_left]
    exact (Nat.mod_eq_of_lt hx)
  · rw [Nat.add_comm (w * y) x, Nat.add_mul_div_left x y (by omega)]
    rw [Nat.div_eq_of_lt hx]
    omega

theorem Texture.lookup2x2_eq {α : Type} [Inhabited α] (t : Texture α)
    (x y : ℕ) :
    t.lookup2x2 x y
      = (t.lookup1x1 x y, t.lookup1x1 (x + 1) y,
         t.lookup1x1 x (y + 1), t.lookup1x1 (x + 1) (y + 1)) := by
  unfold Texture.lookup2x2 Texture.lookup1x1
  have h1 : t.width * y + x + 1 = t.width * y + (x + 1) := by omega
  have h2 : t.width * (y + 1) + x + 1 = t.width * (y + 1) + (x + 1) := by
    omega
  rw [h1, h2]

theorem Texture.lookup1x1_blank {α : Type} [Inhabited α] (w h x y : ℕ) :
    (Texture.blank α w h).lookup1x1 x y = default := by
  unfold Texture.blank Texture.lookup1x1
  by_cases hidx : w * h ≤ w * y + x
  · rw [List.getD_eq_default]
    simpa using hidx
  · rw [List.getD_eq_getElem?_getD, List.getElem?_replicate]
    split <;> simp

/-- The padded buffer built by HeightMap::new: cells covered by the raster
keep their raster value, all others read zero. -/
theorem blit_lookup (input : Texture ℝ) (w2 h2 X Y : ℕ) (hX : X < w2)
    (hY : Y < h2) :
    (blit input (Texture.blank ℝ w2 h2) 0 0).lookup1x1 X Y
      = if X < input.width ∧ Y < input.height then input.lookup1x1 X Y
        else 0 := by
  unfold blit
  rw [Texture.lookup1x1_ofFn _ _ _ X Y (by simpa using hX) (by simpa using hY)]
  by_cases hin : X < input.width ∧ Y < input.height
  · rw [if_pos (by omega), if_pos hin]
    simp
  · rw [if_neg (by omega), if_neg hin, Texture.lookup1x1_blank]
    rfl

/-- ceil_pow2 is a power of two for positive input. -/
theorem ceil_pow2_isPow2 (n : ℕ) (hn : 1 ≤ n) :
    ceil_pow2 n = 2 ^ Nat.clog 2 n := by
  unfold ceil_pow2
  rw [if_neg (by omega)]

/-- ceil_pow2 rounds up: the result dominates the input. -/
theorem le_ceil_pow2 (n : ℕ) (hn : 1 ≤ n) : n ≤ ceil_pow2 n := by
  rw [ceil_pow2_isPow2 n hn]
  exact Nat.le_pow_clog (by omega) n

theorem ceil_pow2_pos (n : ℕ) (hn : 1 ≤ n) : 1 ≤ ceil_pow2 n :=
  le_trans hn (le_ceil_pow2 n hn)

/-- The padded power-of-two size S computed by HeightMap::new. -/
def paddedSize (raster : Texture ℝ) : ℕ :=
  ceil_pow2 (Max.max raster.width raster.height)

/-- The zero-padded (S+1) x (S+1) buffer built by HeightMap::new. -/
def paddedMap (raster : Texture ℝ) : Texture ℝ :=
  blit raster
    (Texture.blank ℝ (paddedSize raster + 1) (paddedSize raster + 1)) 0 0

/-- The patch-corner grid built by HeightMap::new. -/
def patchGrid (raster : Texture ℝ) : Texture (ℝ × ℝ × ℝ × ℝ) :=
  (height_map_to_bilinear_patch (paddedMap raster)).1

/-- The level-0 maximum mipmap built by HeightMap::new. -/
def level0 (raster : Texture ℝ) : Texture ℝ :=
  (height_map_to_bilinear_patch (paddedMap raster)).2

/-- HeightMap.new unfolded into the named construction stages. -/
theorem HeightMap.new_eq (transform : ℝ × ℝ × ℝ × ℝ) (raster : Texture ℝ) :
    HeightMap.new transform raster
      = ⟨transform, normals raster transform.2.2.1 transform.2.2.2,
         patchGrid raster,
         level0 raster :: mipChain (level0 raster) (paddedSize raster)⟩ := rfl

theorem mipChain_pow (k : ℕ) (t : Texture ℝ) :
    mipChain t (2 ^ k) = (List.range k).map
      (fun i => maximum_mipmap_bilinear_patch^[i + 1] t) := by
  induction k generalizing t with
  | zero => rw [mipChain]; simp
  | succ k ih =>
    rw [mipChain, if_pos (Nat.one_lt_two_pow (by omega))]
    have h2 : 2 ^ (k + 1) / 2 = 2 ^ k := by
      rw [pow_succ]
      exact Nat.mul_div_cancel _ (by omega)
    rw [h2]
    show maximum_mipmap_bilinear_patch t
        :: mipChain (maximum_mipmap_bilinear_patch t) (2 ^ k)
      = List.map (fun i => maximum_mipmap_bilinear_patch^[i + 1] t)
          (List.range (k + 1))
    rw [ih]
    rw [List.range_succ_eq_map]
    simp only [List.map_cons, List.map_map]
    congr 1

theorem maximum_mipmap_width (t : Texture ℝ) :
    (maximum_mipmap_bilinear_patch t).width = t.width / 2 := rfl

theorem maximum_mipmap_height (t : Texture ℝ) :
    (maximum_mipmap_bilinear_patch t).height = t.height / 2 := rfl

theorem iterate_mipmap_width (i : ℕ) (t : Texture ℝ) :
    (maximum_mipmap_bilinear_patch^[i] t).width = t.width / 2 ^ i := by
  induction i generalizing t with
  | zero => simp
  | succ i ih =>
    rw [Function.iterate_succ_apply, ih, maximum_mipmap_width]
    rw [Nat.div_div_eq_div_mul, pow_succ]
    ring_nf

theorem iterate_mipmap_height (i : ℕ) (t : Texture ℝ) :
    (maximum_mipmap_bilinear_patch^[i] t).height = t.height / 2 ^ i := by
  induction i generalizing t with
  | zero => simp
  | succ i ih =>
    rw [Function.iterate_succ_apply, ih, maximum_mipmap_height]
    rw [Nat.div_div_eq_div_mul, pow_succ]
    ring_nf

/-- The maximum of the square block of cells of t with corner
(x * 2^i, y * 2^i) and side 2^i, combined in the association order used by
maximum_mipmap_bilinear_patch. -/
noncomputable def blockMax (t : Texture ℝ) : ℕ → ℕ → ℕ → ℝ
  | 0, x, y => t.lookup1x1 x y
  | i + 1, x, y =>
    Max.max (Max.max (Max.max (blockMax t i (x * 2) (y * 2))
      (blockMax t i (x * 2 + 1) (y * 2)))
      (blockMax t i (x * 2) (y * 2 + 1)))
      (blockMax t i (x * 2 + 1) (y * 2 + 1))

theorem maximum_mipmap_lookup (t : Texture ℝ) (x y : ℕ)
    (hx : x < t.width / 2) (hy : y < t.height / 2) :
    (maximum_mipmap_bilinear_patch t).lookup1x1 x y
      = Max.max (Max.max (Max.max (t.lookup1x1 (x * 2) (y * 2))
          (t.lookup1x1 (x * 2 + 1) (y * 2)))
          (t.lookup1x1 (x * 2) (y * 2 + 1)))
          (t.lookup1x1 (x * 2 + 1) (y * 2 + 1)) := by
  unfold maximum_mipmap_bilinear_patch
  rw [Texture.lookup1x1_ofFn _ _ _ x y hx hy]
  rw [Texture.lookup2x2_eq]

/-- On a square power-of-two texture, the i-th mipmap iterate reads the
block maximum. -/
theorem iterate_mipmap_lookup (k : ℕ) (t : Texture ℝ)
    (hw : t.width = 2 ^ k) (hh : t.height = 2 ^ k) :
    ∀ i, i ≤ k → ∀ x y, x < 2 ^ (k - i) → y < 2 ^ (k - i) →
      (maximum_mipmap_bilinear_patch^[i] t).lookup1x1 x y
        = blockMax t i x y := by
  intro i
  induction i with
  | zero => intro _ x y _ _; simp [blockMax]
  | succ i ih =>
    intro hik x y hx hy
    rw [Function.iterate_succ_apply']
    have hwi : (maximum_mipmap_bilinear_patch^[i] t).width = 2 ^ (k - i) := by
      rw [iterate_mipmap_width, hw, Nat.pow_div (by omega) (by omega)]
    have hhi : (maximum_mipmap_bilinear_patch^[i] t).height
        = 2 ^ (k - i) := by
      rw [iterate_mipmap_height, hh, Nat.pow_div (by omega) (by omega)]
    have hk : k - i = (k - (i + 1)) + 1 := by omega
    have h2 : 2 ^ (k - i) / 2 = 2 ^ (k - (i + 1)) := by
      rw [hk, pow_succ]
      exact Nat.mul_div_cancel _ (by omega)
    have hx2 : x < (maximum_mipmap_bilinear_patch^[i] t).width / 2 := by
      rw [hwi, h2]; exact hx
    have hy2 : y < (maximum_mipmap_bilinear_patch^[i] t).height / 2 := by
      rw [hhi, h2]; exact hy
    rw [maximum_mipmap_lookup _ x y hx2 hy2]
    have hb : ∀ a b : ℕ, a < 2 → b < 2 → x * 2 + a < 2 ^ (k - i)
        ∧ y * 2 + b < 2 ^ (k - i) := by
      intro a b ha hb
      constructor <;> (rw [hk, pow_succ]; omega)
    rw [ih (by omega) (x * 2) (y * 2) (by have := hb 0 0; omega)
        (by have := hb 0 0; omega),
      ih (by omega) (x * 2 + 1) (y * 2) (by have := hb 1 0 (by omega) (by omega); omega)
        (by have := hb 0 0 (by omega) (by omega); omega),
      ih (by omega) (x * 2) (y * 2 + 1) (by have := hb 0 0 (by omega) (by omega); omega)
        (by have := hb 0 1 (by omega) (by omega); omega),
      ih (by omega) (x * 2 + 1) (y * 2 + 1) (by have := hb 1 0 (by omega) (by omega); omega)
        (by have := hb 0 1 (by omega) (by omega); omega)]
    rfl

/-- Every cell of the block is dominated by the block maximum. -/
theorem le_blockMax (t : Texture ℝ) (i : ℕ) (x y dx dy : ℕ)
    (hdx : dx < 2 ^ i) (hdy : dy < 2 ^ i) :
    t.lookup1x1 (x * 2 ^ i + dx) (y * 2 ^ i + dy) ≤ blockMax t i x y := by
  induction i generalizing x y dx dy with
  | zero =>
    interval_cases dx
    interval_cases dy
    simp [blockMax]
  | succ i ih =>
    have hpos : 0 < 2 ^ i := Nat.pos_pow_of_pos i (by omega)
    have hdx2 : dx / 2 ^ i < 2 :=
      (Nat.div_lt_iff_lt_mul hpos).mpr (by rw [Nat.mul_comm, ← pow_succ]; exact hdx)
    have hdy2 : dy / 2 ^ i < 2 :=
      (Nat.div_lt_iff_lt_mul hpos).mpr (by rw [Nat.mul_comm, ← pow_succ]; exact hdy)
    have hdxm : dx % 2 ^ i < 2 ^ i := Nat.mod_lt _ hpos
    have hdym : dy % 2 ^ i < 2 ^ i := Nat.mod_lt _ hpos
    have hxarith : x * 2 ^ (i + 1) + dx
        = (x * 2 + dx / 2 ^ i) * 2 ^ i + dx % 2 ^ i := by
      calc x * 2 ^ (i + 1) + dx
          = x * (2 ^ i * 2) + (2 ^ i * (dx / 2 ^ i) + dx % 2 ^ i) := by
            rw [pow_succ, Nat.div_add_mod]
        _ = (x * 2 + dx / 2 ^ i) * 2 ^ i + dx % 2 ^ i := by ring
    have hyarith : y * 2 ^ (i + 1) + dy
        = (y * 2 + dy / 2 ^ i) * 2 ^ i + dy % 2 ^ i := by
      calc y * 2 ^ (i + 1) + dy
          = y * (2 ^ i * 2) + (2 ^ i * (dy / 2 ^ i) + dy % 2 ^ i) := by
            rw [pow_succ, Nat.div_add_mod]
        _ = (y * 2 + dy / 2 ^ i) * 2 ^ i + dy % 2 ^ i := by ring
    rw [hxarith, hyarith]
    have hmain := ih (x * 2 + dx / 2 ^ i) (y * 2 + dy / 2 ^ i)
      (dx % 2 ^ i) (dy % 2 ^ i) hdxm hdym
    refine le_trans hmain ?_
    show blockMax t i (x * 2 + dx / 2 ^ i) (y * 2 + dy / 2 ^ i)
      ≤ blockMax t (i + 1) x y
    have h01 : ∀ n : ℕ, n < 2 → n = 0 ∨ n = 1 := by intro n hn; omega
    rcases h01 _ hdx2 with h | h <;>
      rcases h01 _ hdy2 with h' | h' <;>
      rw [h, h'] <;>
      rw [show blockMax t (i + 1) x y = Max.max (Max.max (Max.max
        (blockMax t i (x * 2) (y * 2)) (blockMax t i (x * 2 + 1) (y * 2)))
        (blockMax t i (x * 2) (y * 2 + 1)))
        (blockMax t i (x * 2 + 1) (y * 2 + 1)) from rfl] <;>
      try simp only [Nat.add_zero]
    · exact le_sup_of_le_left (le_sup_of_le_left le_sup_left)
    · exact le_sup_of_le_left le_sup_right
    · exact le_sup_of_le_left (le_sup_of_le_left le_sup_right)
    · exact le_sup_right

/-- The block maximum is attained at some cell of the block. -/
theorem blockMax_attained (t : Texture ℝ) (i : ℕ) (x y : ℕ) :
    ∃ dx dy, dx < 2 ^ i ∧ dy < 2 ^ i
      ∧ blockMax t i x y = t.lookup1x1 (x * 2 ^ i + dx) (y * 2 ^ i + dy) := by
  induction i generalizing x y with
  | zero => exact ⟨0, 0, by omega, by omega, by simp [blockMax]⟩
  | succ i ih =>
    obtain ⟨dx00, dy00, hdx00, hdy00, he00⟩ := ih (x * 2) (y * 2)
    obtain ⟨dx10, dy10, hdx10, hdy10, he10⟩ := ih (x * 2 + 1) (y * 2)
    obtain ⟨dx01, dy01, hdx01, hdy01, he01⟩ := ih (x * 2) (y * 2 + 1)
    obtain ⟨dx11, dy11, hdx11, hdy11, he11⟩ := ih (x * 2 + 1) (y * 2 + 1)
    have harith : ∀ a da : ℕ, a * 2 * 2 ^ i + da = a * 2 ^ (i + 1) + da := by
      intro a da
      rw [pow_succ]
      ring
    have harith1 : ∀ a da : ℕ, (a * 2 + 1) * 2 ^ i + da
        = a * 2 ^ (i + 1) + (2 ^ i + da) := by
      intro a da
      rw [pow_succ]
      ring
    have hlt : ∀ da : ℕ, da < 2 ^ i → 2 ^ i + da < 2 ^ (i + 1) := by
      intro da hda
      rw [pow_succ]
      omega
    have hlt' : ∀ da : ℕ, da < 2 ^ i → da < 2 ^ (i + 1) := by
      intro da hda
      rw [pow_succ]
      omega
    rw [show blockMax t (i + 1) x y = Max.max (Max.max (Max.max
      (blockMax t i (x * 2) (y * 2)) (blockMax t i (x * 2 + 1) (y * 2)))
      (blockMax t i (x * 2) (y * 2 + 1)))
      (blockMax t i (x * 2 + 1) (y * 2 + 1)) from rfl]
    rcases le_total (Max.max (Max.max (blockMax t i (x * 2) (y * 2))
        (blockMax t i (x * 2 + 1) (y * 2))) (blockMax t i (x * 2) (y * 2 + 1)))
        (blockMax t i (x * 2 + 1) (y * 2 + 1)) with hc | hc
    · refine ⟨2 ^ i + dx11, 2 ^ i + dy11, hlt _ hdx11, hlt _ hdy11, ?_⟩
      rw [max_eq_right hc, he11, harith1, harith1]
    rw [max_eq_left hc]
    rcases le_total (Max.max (blockMax t i (x * 2) (y * 2))
        (blockMax t i (x * 2 + 1) (y * 2))) (blockMax t i (x * 2) (y * 2 + 1))
        with hc2 | hc2
    · refine ⟨dx01, 2 ^ i + dy01, hlt' _ hdx01, hlt _ hdy01, ?_⟩
      rw [max_eq_right hc2, he01, harith, harith1]
    rw [max_eq_left hc2]
    rcases le_total (blockMax t i (x * 2) (y * 2))
        (blockMax t i (x * 2 + 1) (y * 2)) with hc3 | hc3
    · refine ⟨2 ^ i + dx10, dy10, hlt _ hdx10, hlt' _ hdy10, ?_⟩
      rw [max_eq_right hc3, he10, harith1, harith]
    · refine ⟨dx00, dy00, hlt' _ hdx00, hlt' _ hdy00, ?_⟩
      rw [max_eq_left hc3, he00, harith, harith]

theorem patchGrid_width (raster : Texture ℝ) :
    (patchGrid raster).width = paddedSize raster := rfl

theorem patchGrid_height (raster : Texture ℝ) :
    (patchGrid raster).height = paddedSize raster := rfl

theorem level0_width (raster : Texture ℝ) :
    (level0 raster).width = paddedSize raster := rfl

theorem level0_height (raster : Texture ℝ) :
    (level0 raster).height = paddedSize raster := rfl

theorem paddedMap_lookup (raster : Texture ℝ) (X Y : ℕ)
    (hX : X ≤ paddedSize raster) (hY : Y ≤ paddedSize raster) :
    (paddedMap raster).lookup1x1 X Y
      = if X < raster.width ∧ Y < raster.height then raster.lookup1x1 X Y
        else 0 := by
  unfold paddedMap
  exact blit_lookup raster _ _ X Y (by omega) (by omega)

theorem patchGrid_lookup (raster : Texture ℝ) (x y : ℕ)
    (hx : x < paddedSize raster) (hy : y < paddedSize raster) :
    (patchGrid raster).lookup1x1 x y
      = ((paddedMap raster).lookup1x1 x y,
         (paddedMap raster).lookup1x1 (x + 1) y,
         (paddedMap raster).lookup1x1 (x + 1) (y + 1),
         (paddedMap raster).lookup1x1 x (y + 1)) := by
  unfold patchGrid height_map_to_bilinear_patch
  have hw : (paddedMap raster).width - 1 = paddedSize raster := rfl
  have hh : (paddedMap raster).height - 1 = paddedSize raster := rfl
  rw [Texture.lookup1x1_ofFn _ _ _ x y (by rw [hw]; exact hx)
    (by rw [hh]; exact hy)]
  rw [Texture.lookup2x2_eq]

theorem level0_lookup (raster : Texture ℝ) (x y : ℕ)
    (hx : x < paddedSize raster) (hy : y < paddedSize raster) :
    (level0 raster).lookup1x1 x y
      = Max.max (Max.max (Max.max
          ((paddedMap raster).lookup1x1 x y)
          ((paddedMap raster).lookup1x1 (x + 1) y))
          ((paddedMap raster).lookup1x1 (x + 1) (y + 1)))
          ((paddedMap raster).lookup1x1 x (y + 1)) := by
  unfold level0 height_map_to_bilinear_patch
  have hw : (paddedMap raster).width - 1 = paddedSize raster := rfl
  have hh : (paddedMap raster).height - 1 = paddedSize raster := rfl
  rw [Texture.lookup1x1_ofFn _ _ _ x y (by rw [hw]; exact hx)
    (by rw [hh]; exact hy)]
  rw [Texture.lookup2x2_eq]

/-- The mipmap stack of a constructed HeightMap is the list of iterated
maximum mipmaps of the level-0 grid. -/
theorem new_maximum_mipmaps (transform : ℝ × ℝ × ℝ × ℝ) (raster : Texture ℝ)
    (hdim : 1 ≤ Max.max raster.width raster.height) :
    (HeightMap.new transform raster).maximum_mipmaps
      = (List.range (Nat.clog 2 (Max.max raster.width raster.height) + 1)).map
          (fun i => maximum_mipmap_bilinear_patch^[i] (level0 raster)) := by
  rw [HeightMap.new_eq]
  have hS : paddedSize raster
      = 2 ^ Nat.clog 2 (Max.max raster.width raster.height) :=
    ceil_pow2_isPow2 _ hdim
  rw [hS, mipChain_pow]
  rw [List.range_succ_eq_map]
  simp only [List.map_cons, List.map_map, Function.iterate_zero_apply]
  rfl

theorem new_mipmaps_length (transform : ℝ × ℝ × ℝ × ℝ) (raster : Texture ℝ)
    (hdim : 1 ≤ Max.max raster.width raster.height) :
    (HeightMap.new transform raster).maximum_mipmaps.length
      = Nat.clog 2 (Max.max raster.width raster.height) + 1 := by
  rw [new_maximum_mipmaps _ _ hdim]
  simp

theorem new_mipmaps_get (transform : ℝ × ℝ × ℝ × ℝ) (raster : Texture ℝ)
    (hdim : 1 ≤ Max.max raster.width raster.height) (i : ℕ)
    (hi : i < Nat.clog 2 (Max.max raster.width raster.height) + 1) :
    (HeightMap.new transform raster).maximum_mipmaps.get? i
      = Option.some (maximum_mipmap_bilinear_patch^[i] (level0 raster)) := by
  rw [new_maximum_mipmaps _ _ hdim]
  rw [List.get?_eq_getElem?, List.getElem?_map, List.getElem?_range hi]
  rfl

theorem new_bilinear_patches (transform : ℝ × ℝ × ℝ × ℝ)
    (raster : Texture ℝ) :
    (HeightMap.new transform raster).bilinear_patches = patchGrid raster :=
  rfl

/-- C6: construction postcondition of HeightMap::new for a non-empty
raster.  S = ceil_pow2(max(width, height)) is a power of two dominating the
larger raster dimension; the raster is copied origin-aligned into the
zero-initialized (S+1) x (S+1) padded buffer whose uncopied cells stay
zero; every cell (x, y) with x, y < S of the patch texture stores the four
padded-buffer corners read in raster z order (nw, ne, sw, se) but stored in
clockwise order (nw, ne, se, sw); and the first mipmap level simultaneously
receives max(nw, ne, se, sw). -/
theorem heightMap_new_construction (transform : ℝ × ℝ × ℝ × ℝ)
    (raster : Texture ℝ) (hw : 1 ≤ raster.width) (hh : 1 ≤ raster.height) :
    (∃ k, paddedSize raster = 2 ^ k)
    ∧ Max.max raster.width raster.height ≤ paddedSize raster
    ∧ (HeightMap.new transform raster).bilinear_patches.width
        = paddedSize raster
    ∧ (HeightMap.new transform raster).bilinear_patches.height
        = paddedSize raster
    ∧ (∀ X Y, X ≤ paddedSize raster → Y ≤ paddedSize raster →
        (paddedMap raster).lookup1x1 X Y
          = if X < raster.width ∧ Y < raster.height then
              raster.lookup1x1 X Y
            else 0)
    ∧ (∀ x y, x < paddedSize raster → y < paddedSize raster →
        (HeightMap.new transform raster).bilinear_patches.lookup1x1 x y
          = ((paddedMap raster).lookup1x1 x y,
             (paddedMap raster).lookup1x1 (x + 1) y,
             (paddedMap raster).lookup1x1 (x + 1) (y + 1),
             (paddedMap raster).lookup1x1 x (y + 1)))
    ∧ (HeightMap.new transform raster).maximum_mipmaps.head?
        = Option.some (level0 raster)
    ∧ (∀ x y, x < paddedSize raster → y < paddedSize raster →
        (level0 raster).lookup1x1 x y
          = Max.max (Max.max (Max.max
              ((paddedMap raster).lookup1x1 x y)
              ((paddedMap raster).lookup1x1 (x + 1) y))
              ((paddedMap raster).lookup1x1 (x + 1) (y + 1)))
              ((paddedMap raster).lookup1x1 x (y + 1))) := by
  have hdim : 1 ≤ Max.max raster.width raster.height := le_max_of_le_left hw
  refine ⟨⟨Nat.clog 2 (Max.max raster.width raster.height),
      ceil_pow2_isPow2 _ hdim⟩,
    le_ceil_pow2 _ hdim, rfl, rfl,
    fun X Y hX hY => paddedMap_lookup raster X Y hX hY,
    fun x y hx hy => ?_, rfl,
    fun x y hx hy => level0_lookup raster x y hx hy⟩
  rw [new_bilinear_patches]
  exact patchGrid_lookup raster x y hx hy

/-- Witness for heightMap_new_construction at a concrete 1 x 1 raster. -/
theorem heightMap_new_construction_witness :
    1 ≤ (Texture.mk 1 1 [(5 : ℝ)]).width
    ∧ ((∃ k, paddedSize (Texture.mk 1 1 [(5 : ℝ)]) = 2 ^ k)
    ∧ Max.max (Texture.mk 1 1 [(5 : ℝ)]).width
        (Texture.mk 1 1 [(5 : ℝ)]).height
        ≤ paddedSize (Texture.mk 1 1 [(5 : ℝ)])
    ∧ (HeightMap.new (0, 0, 1, 1)
        (Texture.mk 1 1 [(5 : ℝ)])).bilinear_patches.width
        = paddedSize (Texture.mk 1 1 [(5 : ℝ)])
    ∧ (HeightMap.new (0, 0, 1, 1)
        (Texture.mk 1 1 [(5 : ℝ)])).bilinear_patches.height
        = paddedSize (Texture.mk 1 1 [(5 : ℝ)])
    ∧ (∀ X Y, X ≤ paddedSize (Texture.mk 1 1 [(5 : ℝ)]) →
        Y ≤ paddedSize (Texture.mk 1 1 [(5 : ℝ)]) →
        (paddedMap (Texture.mk 1 1 [(5 : ℝ)])).lookup1x1 X Y
          = if X < (Texture.mk 1 1 [(5 : ℝ)]).width
              ∧ Y < (Texture.mk 1 1 [(5 : ℝ)]).height then
              (Texture.mk 1 1 [(5 : ℝ)]).lookup1x1 X Y
            else 0)
    ∧ (∀ x y, x < paddedSize (Texture.mk 1 1 [(5 : ℝ)]) →
        y < paddedSize (Texture.mk 1 1 [(5 : ℝ)]) →
        (HeightMap.new (0, 0, 1, 1)
            (Texture.mk 1 1 [(5 : ℝ)])).bilinear_patches.lookup1x1 x y
          = ((paddedMap (Texture.mk 1 1 [(5 : ℝ)])).lookup1x1 x y,
             (paddedMap (Texture.mk 1 1 [(5 : ℝ)])).lookup1x1 (x + 1) y,
             (paddedMap (Texture.mk 1 1 [(5 : ℝ)])).lookup1x1 (x + 1) (y + 1),
             (paddedMap (Texture.mk 1 1 [(5 : ℝ)])).lookup1x1 x (y + 1)))
    ∧ (HeightMap.new (0, 0, 1, 1)
        (Texture.mk 1 1 [(5 : ℝ)])).maximum_mipmaps.head?
        = Option.some (level0 (Texture.mk 1 1 [(5 : ℝ)]))
    ∧ (∀ x y, x < paddedSize (Texture.mk 1 1 [(5 : ℝ)]) →
        y < paddedSize (Texture.mk 1 1 [(5 : ℝ)]) →
        (level0 (Texture.mk 1 1 [(5 : ℝ)])).lookup1x1 x y
          = Max.max (Max.max (Max.max
              ((paddedMap (Texture.mk 1 1 [(5 : ℝ)])).lookup1x1 x y)
              ((paddedMap (Texture.mk 1 1 [(5 : ℝ)])).lookup1x1 (x + 1) y))
              ((paddedMap (Texture.mk 1 1 [(5 : ℝ)])).lookup1x1 (x + 1)
                (y + 1)))
              ((paddedMap (Texture.mk 1 1 [(5 : ℝ)])).lookup1x1 x (y + 1)))) :=
  ⟨le_refl 1, heightMap_new_construction (0, 0, 1, 1)
    (Texture.mk 1 1 [(5 : ℝ)]) (le_refl 1) (le_refl 1)⟩

theorem le_max4_first (a b c d : ℝ) :
    a ≤ Max.max (Max.max (Max.max a b) c) d :=
  le_sup_of_le_left (le_sup_of_le_left le_sup_left)

theorem le_max4_second (a b c d : ℝ) :
    b ≤ Max.max (Max.max (Max.max a b) c) d :=
  le_sup_of_le_left (le_sup_of_le_left le_sup_right)

theorem le_max4_third (a b c d : ℝ) :
    c ≤ Max.max (Max.max (Max.max a b) c) d :=
  le_sup_of_le_left le_sup_right

theorem le_max4_fourth (a b c d : ℝ) :
    d ≤ Max.max (Max.max (Max.max a b) c) d :=
  le_sup_right

theorem max4_mem (a b c d : ℝ) :
    Max.max (Max.max (Max.max a b) c) d = a
    ∨ Max.max (Max.max (Max.max a b) c) d = b
    ∨ Max.max (Max.max (Max.max a b) c) d = c
    ∨ Max.max (Max.max (Max.max a b) c) d = d := by
  rcases le_total (Max.max (Max.max a b) c) d with h | h
  · exact Or.inr (Or.inr (Or.inr (max_eq_right h)))
  rw [max_eq_left h]
  rcases le_total (Max.max a b) c with h2 | h2
  · exact Or.inr (Or.inr (Or.inl (max_eq_right h2)))
  rw [max_eq_left h2]
  rcases le_total a b with h3 | h3
  · exact Or.inr (Or.inl (max_eq_right h3))
  · exact Or.inl (max_eq_left h3)

/-- C1: mipmap bound invariant.  For a HeightMap built from a non-empty
raster, every mipmap level dominates every corner of every level-0 patch
beneath each of its cells (level i cell (x / 2^i, y / 2^i) covers leaf cell
(x, y)), and the single top-level cell equals the global maximum of all
corner elevations stored in the patch grid: it dominates all of them and it
is attained by one of them. -/
theorem mipmap_bound_invariant (transform : ℝ × ℝ × ℝ × ℝ)
    (raster : Texture ℝ) (hdim : 1 ≤ Max.max raster.width raster.height) :
    (HeightMap.new transform raster).maximum_mipmaps.length
        = Nat.clog 2 (Max.max raster.width raster.height) + 1
    ∧ (∀ i mip, (HeightMap.new transform raster).maximum_mipmaps.get? i
          = Option.some mip →
        ∀ x y, x < paddedSize raster → y < paddedSize raster →
        ∀ corners : ℝ × ℝ × ℝ × ℝ,
          (HeightMap.new transform raster).bilinear_patches.lookup1x1 x y
            = corners →
          corners.1 ≤ mip.lookup1x1 (x / 2 ^ i) (y / 2 ^ i)
          ∧ corners.2.1 ≤ mip.lookup1x1 (x / 2 ^ i) (y / 2 ^ i)
          ∧ corners.2.2.1 ≤ mip.lookup1x1 (x / 2 ^ i) (y / 2 ^ i)
          ∧ corners.2.2.2 ≤ mip.lookup1x1 (x / 2 ^ i) (y / 2 ^ i))
    ∧ (∀ top, (HeightMap.new transform raster).maximum_mipmaps.get?
          (Nat.clog 2 (Max.max raster.width raster.height))
          = Option.some top →
        (∀ x y, x < paddedSize raster → y < paddedSize raster →
          ((HeightMap.new transform raster).bilinear_patches.lookup1x1
              x y).1 ≤ top.lookup1x1 0 0
          ∧ ((HeightMap.new transform raster).bilinear_patches.lookup1x1
              x y).2.1 ≤ top.lookup1x1 0 0
          ∧ ((HeightMap.new transform raster).bilinear_patches.lookup1x1
              x y).2.2.1 ≤ top.lookup1x1 0 0
          ∧ ((HeightMap.new transform raster).bilinear_patches.lookup1x1
              x y).2.2.2 ≤ top.lookup1x1 0 0)
        ∧ ∃ x y, x < paddedSize raster ∧ y < paddedSize raster
          ∧ (top.lookup1x1 0 0
              = ((HeightMap.new transform raster).bilinear_patches.lookup1x1
                  x y).1
            ∨ top.lookup1x1 0 0
              = ((HeightMap.new transform raster).bilinear_patches.lookup1x1
                  x y).2.1
            ∨ top.lookup1x1 0 0
              = ((HeightMap.new transform raster).bilinear_patches.lookup1x1
                  x y).2.2.1
            ∨ top.lookup1x1 0 0
              = ((HeightMap.new transform raster).bilinear_patches.lookup1x1
                  x y).2.2.2)) := by
  set k := Nat.clog 2 (Max.max raster.width raster.height) with hk
  have hS : paddedSize raster = 2 ^ k := ceil_pow2_isPow2 _ hdim
  have hmlen := new_mipmaps_length transform raster hdim
  have hl0w : (level0 raster).width = 2 ^ k := by rw [level0_width, hS]
  have hl0h : (level0 raster).height = 2 ^ k := by rw [level0_height, hS]
  -- the central bound: every corner of leaf cell (x, y) is at most the
  -- value of mipmap level i at the covering cell
  have hcore : ∀ i, i ≤ k → ∀ x y, x < 2 ^ k → y < 2 ^ k →
      ∀ corners : ℝ × ℝ × ℝ × ℝ,
      (HeightMap.new transform raster).bilinear_patches.lookup1x1 x y
        = corners →
      corners.1 ≤ (maximum_mipmap_bilinear_patch^[i]
          (level0 raster)).lookup1x1 (x / 2 ^ i) (y / 2 ^ i)
      ∧ corners.2.1 ≤ (maximum_mipmap_bilinear_patch^[i]
          (level0 raster)).lookup1x1 (x / 2 ^ i) (y / 2 ^ i)
      ∧ corners.2.2.1 ≤ (maximum_mipmap_bilinear_patch^[i]
          (level0 raster)).lookup1x1 (x / 2 ^ i) (y / 2 ^ i)
      ∧ corners.2.2.2 ≤ (maximum_mipmap_bilinear_patch^[i]
          (level0 raster)).lookup1x1 (x / 2 ^ i) (y / 2 ^ i) := by
    intro i hik x y hx hy corners hcorners
    have hpos : 0 < 2 ^ i := Nat.pos_pow_of_pos i (by omega)
    have hdivx : x / 2 ^ i < 2 ^ (k - i) := by
      rw [Nat.div_lt_iff_lt_mul hpos, ← pow_add]
      have : k - i + i = k := by omega
      rw [this]
      exact hx
    have hdivy : y / 2 ^ i < 2 ^ (k - i) := by
      rw [Nat.div_lt_iff_lt_mul hpos, ← pow_add]
      have : k - i + i = k := by omega
      rw [this]
      exact hy
    rw [iterate_mipmap_lookup k (level0 raster) hl0w hl0h i hik _ _
      hdivx hdivy]
    have hxeq : x = (x / 2 ^ i) * 2 ^ i + x % 2 ^ i := by
      rw [Nat.mul_comm]
      exact (Nat.div_add_mod x (2 ^ i)).symm
    have hyeq : y = (y / 2 ^ i) * 2 ^ i + y % 2 ^ i := by
      rw [Nat.mul_comm]
      exact (Nat.div_add_mod y (2 ^ i)).symm
    have hblock : (level0 raster).lookup1x1 x y
        ≤ blockMax (level0 raster) i (x / 2 ^ i) (y / 2 ^ i) := by
      conv_lhs => rw [hxeq, hyeq]
      exact le_blockMax _ i _ _ _ _ (Nat.mod_lt _ hpos) (Nat.mod_lt _ hpos)
    have hx' : x < paddedSize raster := by rw [hS]; exact hx
    have hy' : y < paddedSize raster := by rw [hS]; exact hy
    have hl0 := level0_lookup raster x y hx' hy'
    have hpg := patchGrid_lookup raster x y hx' hy'
    rw [new_bilinear_patches] at hcorners
    rw [hpg] at hcorners
    have hcomp : (level0 raster).lookup1x1 x y
        = Max.max (Max.max (Max.max corners.1 corners.2.1) corners.2.2.1)
            corners.2.2.2 := by
      rw [hl0, ← hcorners]
    rw [hcomp] at hblock
    exact ⟨le_trans (le_max4_first _ _ _ _) hblock,
      le_trans (le_max4_second _ _ _ _) hblock,
      le_trans (le_max4_third _ _ _ _) hblock,
      le_trans (le_max4_fourth _ _ _ _) hblock⟩
  refine ⟨hmlen, ?_, ?_⟩
  · intro i mip hget x y hx hy corners hcorners
    have hilen : i < (HeightMap.new transform raster).maximum_mipmaps.length
      := List.get?_eq_some.mp hget |>.1
    rw [hmlen] at hilen
    have := new_mipmaps_get transform raster hdim i hilen
    rw [hget] at this
    have hmip : mip = maximum_mipmap_bilinear_patch^[i] (level0 raster) :=
      Option.some.inj this
    subst hmip
    rw [hS] at hx hy
    exact hcore i (by omega) x y hx hy corners hcorners
  · intro top hget
    have := new_mipmaps_get transform raster hdim k (by omega)
    rw [hget] at this
    have htop : top = maximum_mipmap_bilinear_patch^[k] (level0 raster) :=
      Option.some.inj this
    subst htop
    constructor
    · intro x y hx hy
      rw [hS] at hx hy
      have hdx : x / 2 ^ k = 0 := Nat.div_eq_of_lt hx
      have hdy : y / 2 ^ k = 0 := Nat.div_eq_of_lt hy
      have := hcore k (le_refl k) x y hx hy
        ((HeightMap.new transform raster).bilinear_patches.lookup1x1 x y)
        rfl
      rw [hdx, hdy] at this
      exact this
    · have htoplk : (maximum_mipmap_bilinear_patch^[k]
          (level0 raster)).lookup1x1 0 0 = blockMax (level0 raster) k 0 0 :=
        iterate_mipmap_lookup k (level0 raster) hl0w hl0h k (le_refl k) 0 0
          (Nat.pos_pow_of_pos _ (by omega)) (Nat.pos_pow_of_pos _ (by omega))
      obtain ⟨dx, dy, hdx, hdy, hatt⟩ := blockMax_attained (level0 raster)
        k 0 0
      rw [Nat.zero_mul, Nat.zero_add, Nat.zero_add] at hatt
      refine ⟨dx, dy, by rw [hS]; exact hdx, by rw [hS]; exact hdy, ?_⟩
      have hdx' : dx < paddedSize raster := by rw [hS]; exact hdx
      have hdy' : dy < paddedSize raster := by rw [hS]; exact hdy
      rw [htoplk, hatt, new_bilinear_patches, patchGrid_lookup raster dx dy
        hdx' hdy', level0_lookup raster dx dy hdx' hdy']
      exact max4_mem _ _ _ _

/-- Witness for mipmap_bound_invariant at a concrete 1 x 1 raster. -/
theorem mipmap_bound_invariant_witness :
    1 ≤ Max.max (Texture.mk 1 1 [(7 : ℝ)]).width
        (Texture.mk 1 1 [(7 : ℝ)]).height
    ∧ ((HeightMap.new (0, 0, 1, 1) (Texture.mk 1 1 [(7 : ℝ)])).maximum_mipmaps.length
        = Nat.clog 2 (Max.max (Texture.mk 1 1 [(7 : ℝ)]).width (Texture.mk 1 1 [(7 : ℝ)]).height) + 1
    ∧ (∀ i mip, (HeightMap.new (0, 0, 1, 1) (Texture.mk 1 1 [(7 : ℝ)])).maximum_mipmaps.get? i
          = Option.some mip →
        ∀ x y, x < paddedSize (Texture.mk 1 1 [(7 : ℝ)]) → y < paddedSize (Texture.mk 1 1 [(7 : ℝ)]) →
        ∀ corners : ℝ × ℝ × ℝ × ℝ,
          (HeightMap.new (0, 0, 1, 1) (Texture.mk 1 1 [(7 : ℝ)])).bilinear_patches.lookup1x1 x y
            = corners →
          corners.1 ≤ mip.lookup1x1 (x / 2 ^ i) (y / 2 ^ i)
          ∧ corners.2.1 ≤ mip.lookup1x1 (x / 2 ^ i) (y / 2 ^ i)
          ∧ corners.2.2.1 ≤ mip.lookup1x1 (x / 2 ^ i) (y / 2 ^ i)
          ∧ corners.2.2.2 ≤ mip.lookup1x1 (x / 2 ^ i) (y / 2 ^ i))
    ∧ (∀ top, (HeightMap.new (0, 0, 1, 1) (Texture.mk 1 1 [(7 : ℝ)])).maximum_mipmaps.get?
          (Nat.clog 2 (Max.max (Texture.mk 1 1 [(7 : ℝ)]).width (Texture.mk 1 1 [(7 : ℝ)]).height))
          = Option.some top →
        (∀ x y, x < paddedSize (Texture.mk 1 1 [(7 : ℝ)]) → y < paddedSize (Texture.mk 1 1 [(7 : ℝ)]) →
          ((HeightMap.new (0, 0, 1, 1) (Texture.mk 1 1 [(7 : ℝ)])).bilinear_patches.lookup1x1
              x y).1 ≤ top.lookup1x1 0 0
          ∧ ((HeightMap.new (0, 0, 1, 1) (Texture.mk 1 1 [(7 : ℝ)])).bilinear_patches.lookup1x1
              x y).2.1 ≤ top.lookup1x1 0 0
          ∧ ((HeightMap.new (0, 0, 1, 1) (Texture.mk 1 1 [(7 : ℝ)])).bilinear_patches.lookup1x1
              x y).2.2.1 ≤ top.lookup1x1 0 0
          ∧ ((HeightMap.new (0, 0, 1, 1) (Texture.mk 1 1 [(7 : ℝ)])).bilinear_patches.lookup1x1
              x y).2.2.2 ≤ top.lookup1x1 0 0)
        ∧ ∃ x y, x < paddedSize (Texture.mk 1 1 [(7 : ℝ)]) ∧ y < paddedSize (Texture.mk 1 1 [(7 : ℝ)])
          ∧ (top.lookup1x1 0 0
              = ((HeightMap.new (0, 0, 1, 1) (Texture.mk 1 1 [(7 : ℝ)])).bilinear_patches.lookup1x1
                  x y).1
            ∨ top.lookup1x1 0 0
              = ((HeightMap.new (0, 0, 1, 1) (Texture.mk 1 1 [(7 : ℝ)])).bilinear_patches.lookup1x1
                  x y).2.1
            ∨ top.lookup1x1 0 0
              = ((HeightMap.new (0, 0, 1, 1) (Texture.mk 1 1 [(7 : ℝ)])).bilinear_patches.lookup1x1
                  x y).2.2.1
            ∨ top.lookup1x1 0 0
              = ((HeightMap.new (0, 0, 1, 1) (Texture.mk 1 1 [(7 : ℝ)])).bilinear_patches.lookup1x1
                  x y).2.2.2))) :=
  ⟨le_refl 1, mipmap_bound_invariant (0, 0, 1, 1)
    (Texture.mk 1 1 [(7 : ℝ)]) (le_refl 1)⟩

/-- C7: slab test contract of Aabb::intersects.  The test returns None
exactly when tmin > tmax, for tmin and tmax assembled from the
sign-selected per-axis near and far distances computed with the inverse ray
direction; when it returns Some, the reported t is tmin when tmin is not
below zero and tmax otherwise. -/
theorem aabb_slab_contract (a : Aabb) (ray : Ray) :
    (Aabb.intersects a ray = Option.none
      ↔ F.lt (a.slabTmax ray) (a.slabTmin ray))
    ∧ ∀ i, Aabb.intersects a ray = Option.some i →
        i.t = if F.lt (a.slabTmin ray) (F.fin 0) then a.slabTmax ray
          else a.slabTmin ray := by
  unfold Aabb.intersects
  constructor
  · by_cases h : F.lt (a.slabTmax ray) (a.slabTmin ray)
    · rw [if_pos h]
      simp [h]
    · rw [if_neg h]
      simp [h]
  · intro i hi
    by_cases h : F.lt (a.slabTmax ray) (a.slabTmin ray)
    · rw [if_pos h] at hi
      cases hi
    · rw [if_neg h] at hi
      have := Option.some.inj hi
      rw [← this]

/-- Witness for aabb_slab_contract at a concrete box and ray. -/
theorem aabb_slab_contract_witness :
    (Aabb.intersects (Aabb.new ⟨0, 0, 0⟩ ⟨5, 5, 5⟩)
        ⟨⟨(2.5 : ℝ), 2.5, 2.5⟩, ⟨0, 1, 0⟩⟩ = Option.none
      ↔ F.lt ((Aabb.new ⟨0, 0, 0⟩ ⟨5, 5, 5⟩).slabTmax
          ⟨⟨(2.5 : ℝ), 2.5, 2.5⟩, ⟨0, 1, 0⟩⟩)
          ((Aabb.new ⟨0, 0, 0⟩ ⟨5, 5, 5⟩).slabTmin
          ⟨⟨(2.5 : ℝ), 2.5, 2.5⟩, ⟨0, 1, 0⟩⟩))
    ∧ ∀ i, Aabb.intersects (Aabb.new ⟨0, 0, 0⟩ ⟨5, 5, 5⟩)
          ⟨⟨(2.5 : ℝ), 2.5, 2.5⟩, ⟨0, 1, 0⟩⟩ = Option.some i →
        i.t = if F.lt ((Aabb.new ⟨0, 0, 0⟩ ⟨5, 5, 5⟩).slabTmin
            ⟨⟨(2.5 : ℝ), 2.5, 2.5⟩, ⟨0, 1, 0⟩⟩) (F.fin 0) then
            (Aabb.new ⟨0, 0, 0⟩ ⟨5, 5, 5⟩).slabTmax
              ⟨⟨(2.5 : ℝ), 2.5, 2.5⟩, ⟨0, 1, 0⟩⟩
          else (Aabb.new ⟨0, 0, 0⟩ ⟨5, 5, 5⟩).slabTmin
              ⟨⟨(2.5 : ℝ), 2.5, 2.5⟩, ⟨0, 1, 0⟩⟩ :=
  aabb_slab_contract (Aabb.new ⟨0, 0, 0⟩ ⟨5, 5, 5⟩)
    ⟨⟨(2.5 : ℝ), 2.5, 2.5⟩, ⟨0, 1, 0⟩⟩

/-- C4: the discriminant-zero branch of BilinearPatch::solutions returns
-b / a, which is not a root of the quadratic: at (A, B, C) = (1, 2, 1) the
discriminant is zero, the code returns [-2], yet v = -2 does not satisfy
v^2 + 2 v + 1 = 0 (the double root is -1).  This contradicts the claim
that every value returned outside the listed degenerate cases is a real
root, and the source's own intent of solving the quadratic; the slip is
dividing by a instead of 2 a. -/
theorem solutions_disc_zero_failing_input :
    BilinearPatch.solutions 1 2 1 = [-2]
    ∧ ¬ ((1 : ℝ) * (-2) ^ 2 + 2 * (-2) + 1 = 0)
    ∧ (1 : ℝ) * (-1) ^ 2 + 2 * (-1) + 1 = 0 := by
  refine ⟨?_, by norm_num, by norm_num⟩
  unfold BilinearPatch.solutions
  norm_num

theorem stackWeight_nil : stackWeight [] = 0 := rfl

theorem stackWeight_cons (it : ℕ × ℕ × ℕ) (rest : List (ℕ × ℕ × ℕ)) :
    stackWeight (it :: rest) = itemWeight it.1 + stackWeight rest := by
  simp [stackWeight]

/-- Any fuel bounded below by the stack weight lets the fuel-bounded loop
reach the same terminal state as the unbounded loop. -/
theorem intersectsFuel_sufficient (hm : HeightMap) (ray : Ray) :
    ∀ fuel stack, stackWeight stack ≤ fuel →
      hm.intersectsFuel ray fuel stack
        = Option.some (hm.intersectsLoop ray stack) := by
  intro fuel
  induction fuel with
  | zero =>
    intro stack hw
    cases stack with
    | nil => simp [HeightMap.intersectsFuel, HeightMap.intersectsLoop]
    | cons it rest =>
      exfalso
      rw [stackWeight_cons] at hw
      have := itemWeight_pos it.1
      omega
  | succ fuel ih =>
    intro stack hw
    cases stack with
    | nil => simp [HeightMap.intersectsFuel, HeightMap.intersectsLoop]
    | cons it rest =>
      obtain ⟨level, x, y⟩ := it
      rw [stackWeight_cons] at hw
      have hw' : itemWeight level + stackWeight rest ≤ fuel + 1 := hw
      have hpos := itemWeight_pos level
      have hrest : stackWeight rest ≤ fuel := by omega
      rw [HeightMap.intersectsFuel, HeightMap.intersectsLoop]
      cases hmip : hm.maximum_mipmaps.get? level with
      | none => rfl
      | some mipmap =>
        simp only
        cases hlk : mipmap.lookup1x1? x y with
        | none => rfl
        | some max_y =>
          simp only
          cases haabb : Aabb.intersects (Aabb.new
              ⟨(hm.raster_to_world level (x : ℝ) (y : ℝ)).1, 0,
               (hm.raster_to_world level (x : ℝ) (y : ℝ)).2⟩
              ⟨(hm.raster_to_world level ((x : ℝ) + 1) ((y : ℝ) + 1)).1,
               max_y,
               (hm.raster_to_world level ((x : ℝ) + 1) ((y : ℝ) + 1)).2⟩)
              ray with
          | none => exact ih rest hrest
          | some inter =>
            simp only
            by_cases ht : F.lt inter.t (F.fin 0)
            · rw [if_pos ht, if_pos ht]
              exact ih rest hrest
            rw [if_neg ht, if_neg ht]
            by_cases hl : level = 0
            · subst hl
              rw [if_pos rfl, dif_pos rfl]
              cases hbp : hm.bilinear_patches.lookup1x1? x y with
              | none => rfl
              | some corners =>
                simp only
                cases hpi : BilinearPatch.intersects (BilinearPatch.new
                    ⟨(hm.raster_to_world 0 (x : ℝ) (y : ℝ)).1, corners.1,
                     (hm.raster_to_world 0 (x : ℝ) (y : ℝ)).2⟩
                    ⟨(hm.raster_to_world 0 ((x : ℝ) + 1) ((y : ℝ) + 1)).1,
                     corners.2.1,
                     (hm.raster_to_world 0 (x : ℝ) (y : ℝ)).2⟩
                    ⟨(hm.raster_to_world 0 ((x : ℝ) + 1) ((y : ℝ) + 1)).1,
                     corners.2.2.1,
                     (hm.raster_to_world 0 ((x : ℝ) + 1) ((y : ℝ) + 1)).2⟩
                    ⟨(hm.raster_to_world 0 (x : ℝ) (y : ℝ)).1,
                     corners.2.2.2,
                     (hm.raster_to_world 0 ((x : ℝ) + 1) ((y : ℝ) + 1)).2⟩)
                    ray with
                | some pInter => rfl
                | none => exact ih rest hrest
            · rw [if_neg hl, dif_neg hl]
              apply ih
              have hdec := stackWeight_children_lt level x y hl
                (hm.flatFarther ray) rest
              rw [stackWeight_cons] at hdec
              omega

/-- C9: termination of the work-stack loop of HeightMap::intersects.  For
every height map, ray and work stack, running the loop with its fuel
bounded by the stack weight (the sum over the stack of the quadtree sizes
4^(level+1-1)/3 below each item, a quantity bounded by the tree size
determined by log2(S)) reaches a terminal state: the fuel-bounded loop does
not run out of fuel and agrees with the unbounded loop.  Each pushed child
carries level one less than its parent and level-0 items push nothing,
which is exactly why the weight decreases at every iteration. -/
theorem heightmap_traversal_terminates (hm : HeightMap) (ray : Ray)
    (stack : List (ℕ × ℕ × ℕ)) :
    hm.intersectsFuel ray (stackWeight stack) stack
      = Option.some (hm.intersectsLoop ray stack) :=
  intersectsFuel_sufficient hm ray (stackWeight stack) stack (le_refl _)

theorem Texture.ofFn_buffer_length {α : Type} (w h : ℕ) (f : ℕ → ℕ → α) :
    (Texture.ofFn w h f).buffer.length = w * h := by
  simp [Texture.ofFn]

theorem iterate_mipmap_buffer_length (i : ℕ) (raster : Texture ℝ) :
    (maximum_mipmap_bilinear_patch^[i] (level0 raster)).buffer.length
      = (maximum_mipmap_bilinear_patch^[i] (level0 raster)).width
        * (maximum_mipmap_bilinear_patch^[i] (level0 raster)).height := by
  cases i with
  | zero =>
    simp only [Function.iterate_zero_apply]
    exact Texture.ofFn_buffer_length _ _ _
  | succ i =>
    rw [Function.iterate_succ_apply']
    exact Texture.ofFn_buffer_length _ _ _

theorem patchGrid_buffer_length (raster : Texture ℝ) :
    (patchGrid raster).buffer.length
      = paddedSize raster * paddedSize raster :=
  Texture.ofFn_buffer_length _ _ _

/-- A texture lookup succeeds when the flat index is inside the buffer. -/
theorem Texture.lookup1x1q_isSome {α : Type} (t : Texture α) (x y : ℕ)
    (hlen : t.buffer.length = t.width * t.height)
    (hx : x < t.width) (hy : y < t.height) :
    ∃ v, t.lookup1x1? x y = Option.some v := by
  unfold Texture.lookup1x1?
  have hidx : t.width * y + x < t.buffer.length := by
    rw [hlen]
    calc t.width * y + x < t.width * y + t.width := by omega
    _ = t.width * (y + 1) := by ring
    _ ≤ t.width * t.height := Nat.mul_le_mul_left _ (by omega)
  exact ⟨t.buffer.get ⟨_, hidx⟩, List.get?_eq_get hidx⟩

/-- Traversal safety invariant of a work item: its level indexes an
existing mipmap, and its coordinates are inside that level's texture of
side 2^(numLevels - 1 - level). -/
def goodWorkItem (numLevels : ℕ) (it : ℕ × ℕ × ℕ) : Prop :=
  it.1 < numLevels ∧ it.2.1 < 2 ^ (numLevels - 1 - it.1)
    ∧ it.2.2 < 2 ^ (numLevels - 1 - it.1)

theorem heightmap_loop_no_panic_aux (transform : ℝ × ℝ × ℝ × ℝ)
    (raster : Texture ℝ) (hdim : 1 ≤ Max.max raster.width raster.height)
    (ray : Ray) :
    ∀ n stack, stackWeight stack ≤ n →
      (∀ it ∈ stack, goodWorkItem
        (HeightMap.new transform raster).maximum_mipmaps.length it) →
      (HeightMap.new transform raster).intersectsLoop ray stack
        ≠ Option.none := by
  set k := Nat.clog 2 (Max.max raster.width raster.height) with hk
  have hS : paddedSize raster = 2 ^ k := ceil_pow2_isPow2 _ hdim
  have hmlen := new_mipmaps_length transform raster hdim
  rw [← hk] at hmlen
  have hl0w : (level0 raster).width = 2 ^ k := by rw [level0_width, hS]
  have hl0h : (level0 raster).height = 2 ^ k := by rw [level0_height, hS]
  intro n
  induction n with
  | zero =>
    intro stack hwt _
    cases stack with
    | nil =>
      rw [HeightMap.intersectsLoop]
      simp
    | cons it rest =>
      exfalso
      rw [stackWeight_cons] at hwt
      have := itemWeight_pos it.1
      omega
  | succ n ih =>
    intro stack hwt hgood
    cases stack with
    | nil =>
      rw [HeightMap.intersectsLoop]
      simp
    | cons it rest =>
      obtain ⟨level, x, y⟩ := it
      rw [stackWeight_cons] at hwt
      have hwt' : itemWeight level + stackWeight rest ≤ n + 1 := hwt
      have hpos := itemWeight_pos level
      have hrest : stackWeight rest ≤ n := by omega
      have hgoodrest : ∀ it ∈ rest, goodWorkItem
          (HeightMap.new transform raster).maximum_mipmaps.length it :=
        fun it hit => hgood it (List.mem_cons_of_mem _ hit)
      obtain ⟨hlev, hx, hy⟩ := hgood (level, x, y) (List.mem_cons_self _ _)
      rw [hmlen] at hlev hx hy
      have hlevk : level ≤ k := by omega
      have hexp : k + 1 - 1 - level = k - level := by omega
      rw [hexp] at hx hy
      have hmip := new_mipmaps_get transform raster hdim level
        (by rw [← hk]; omega)
      have hmw : (maximum_mipmap_bilinear_patch^[level]
          (level0 raster)).width = 2 ^ (k - level) := by
        rw [iterate_mipmap_width, hl0w, Nat.pow_div hlevk (by omega)]
      have hmh : (maximum_mipmap_bilinear_patch^[level]
          (level0 raster)).height = 2 ^ (k - level) := by
        rw [iterate_mipmap_height, hl0h, Nat.pow_div hlevk (by omega)]
      obtain ⟨maxv, hlkv⟩ := Texture.lookup1x1q_isSome
        (maximum_mipmap_bilinear_patch^[level] (level0 raster)) x y
        (iterate_mipmap_buffer_length level raster)
        (by rw [hmw]; exact hx) (by rw [hmh]; exact hy)
      rw [HeightMap.intersectsLoop, hmip]
      simp only
      rw [hlkv]
      simp only
      cases haabb : Aabb.intersects (Aabb.new
          ⟨((HeightMap.new transform raster).raster_to_world level
              (x : ℝ) (y : ℝ)).1, 0,
           ((HeightMap.new transform raster).raster_to_world level
              (x : ℝ) (y : ℝ)).2⟩
          ⟨((HeightMap.new transform raster).raster_to_world level
              ((x : ℝ) + 1) ((y : ℝ) + 1)).1, maxv,
           ((HeightMap.new transform raster).raster_to_world level
              ((x : ℝ) + 1) ((y : ℝ) + 1)).2⟩) ray with
      | none => exact ih rest hrest hgoodrest
      | some inter =>
        simp only
        by_cases ht : F.lt inter.t (F.fin 0)
        · rw [if_pos ht]
          exact ih rest hrest hgoodrest
        rw [if_neg ht]
        by_cases hl : level = 0
        · subst hl
          rw [dif_pos rfl]
          have hpgw : (patchGrid raster).width = 2 ^ k := by
            rw [patchGrid_width, hS]
          have hpgh : (patchGrid raster).height = 2 ^ k := by
            rw [patchGrid_height, hS]
          obtain ⟨corners, hcor⟩ := Texture.lookup1x1q_isSome
            (patchGrid raster) x y
            (by rw [patchGrid_buffer_length, hpgw, hpgh, hS])
            (by rw [hpgw]; simpa using hx) (by rw [hpgh]; simpa using hy)
          rw [show (HeightMap.new transform raster).bilinear_patches
              = patchGrid raster from rfl, hcor]
          simp only
          cases hpi : BilinearPatch.intersects (BilinearPatch.new
              ⟨((HeightMap.new transform raster).raster_to_world 0
                  (x : ℝ) (y : ℝ)).1, corners.1,
               ((HeightMap.new transform raster).raster_to_world 0
                  (x : ℝ) (y : ℝ)).2⟩
              ⟨((HeightMap.new transform raster).raster_to_world 0
                  ((x : ℝ) + 1) ((y : ℝ) + 1)).1, corners.2.1,
               ((HeightMap.new transform raster).raster_to_world 0
                  (x : ℝ) (y : ℝ)).2⟩
              ⟨((HeightMap.new transform raster).raster_to_world 0
                  ((x : ℝ) + 1) ((y : ℝ) + 1)).1, corners.2.2.1,
               ((HeightMap.new transform raster).raster_to_world 0
                  ((x : ℝ) + 1) ((y : ℝ) + 1)).2⟩
              ⟨((HeightMap.new transform raster).raster_to_world 0
                  (x : ℝ) (y : ℝ)).1, corners.2.2.2,
               ((HeightMap.new transform raster).raster_to_world 0
                  ((x : ℝ) + 1) ((y : ℝ) + 1)).2⟩) ray with
          | some pInter => simp
          | none => exact ih rest hrest hgoodrest
        · rw [dif_neg hl]
          apply ih
          · have hdec := stackWeight_children_lt level x y hl
              ((HeightMap.new transform raster).flatFarther ray) rest
            rw [stackWeight_cons] at hdec
            omega
          · intro it hit
            rw [List.mem_append] at hit
            rcases hit with hit | hit
            · rw [List.mem_reverse] at hit
              have hit' := (List.mergeSort_perm _
                ((HeightMap.new transform raster).flatFarther ray)).mem_iff.mp
                hit
              have hx2 : x < 2 ^ (k - level) := hx
              have hy2 : y < 2 ^ (k - level) := hy
              have hgchild : ∀ a b : ℕ, a < 2 ^ (k - level) * 2 →
                  b < 2 ^ (k - level) * 2 →
                  goodWorkItem (HeightMap.new transform
                    raster).maximum_mipmaps.length (level - 1, a, b) := by
                intro a b ha hb
                have hkidx : k + 1 - 1 - (level - 1) = (k - level) + 1 := by
                  omega
                refine ⟨by rw [hmlen]; omega, ?_, ?_⟩ <;>
                  (rw [hmlen]; simp only; rw [hkidx, pow_succ]) <;> omega
              fin_cases hit' <;> exact hgchild _ _ (by omega) (by omega)
            · exact hgoodrest it hit

/-- C10: traversal safety of HeightMap::intersects on a constructed
HeightMap.  Every work stack whose items satisfy the invariant (level
below the number of mipmap levels, coordinates inside the side length
2^(levels - 1 - level) of that level's texture) runs the loop without any
out-of-bounds lookup: children at doubled coordinates stay within the
twice-larger grid, so intersects never panics; in particular the full
intersects call, starting from the single top-level cell, reports no
panic. -/
theorem heightmap_traversal_safe (transform : ℝ × ℝ × ℝ × ℝ)
    (raster : Texture ℝ) (hw : 1 ≤ raster.width) (hh : 1 ≤ raster.height)
    (ray : Ray) :
    (∀ stack, (∀ it ∈ stack, goodWorkItem
        (HeightMap.new transform raster).maximum_mipmaps.length it) →
      (HeightMap.new transform raster).intersectsLoop ray stack
        ≠ Option.none)
    ∧ (HeightMap.new transform raster).intersects ray ≠ Option.none := by
  have hdim : 1 ≤ Max.max raster.width raster.height := le_max_of_le_left hw
  have hmlen := new_mipmaps_length transform raster hdim
  constructor
  · intro stack hgood
    exact heightmap_loop_no_panic_aux transform raster hdim ray
      (stackWeight stack) stack (le_refl _) hgood
  · unfold HeightMap.intersects
    by_cases he : (HeightMap.new transform raster).maximum_mipmaps.isEmpty
      = true
    · rw [if_pos he]
      simp
    · rw [if_neg he]
      apply heightmap_loop_no_panic_aux transform raster hdim ray
        (stackWeight [((HeightMap.new transform
          raster).maximum_mipmaps.length - 1, 0, 0)]) _ (le_refl _)
      intro it hit
      rw [List.mem_singleton] at hit
      subst hit
      exact ⟨by rw [hmlen]; omega, Nat.pos_pow_of_pos _ (by omega),
        Nat.pos_pow_of_pos _ (by omega)⟩

/-- Witness for heightmap_traversal_safe at a concrete 1 x 1 raster. -/
theorem heightmap_traversal_safe_witness :
    1 ≤ (Texture.mk 1 1 [(0 : ℝ)]).width
    ∧ ((∀ stack, (∀ it ∈ stack, goodWorkItem
        (HeightMap.new (0, 0, 1, 1)
          (Texture.mk 1 1 [(0 : ℝ)])).maximum_mipmaps.length it) →
      (HeightMap.new (0, 0, 1, 1)
        (Texture.mk 1 1 [(0 : ℝ)])).intersectsLoop
        ⟨⟨0, 2, 0⟩, ⟨0, -1, 1⟩⟩ stack ≠ Option.none)
    ∧ (HeightMap.new (0, 0, 1, 1) (Texture.mk 1 1 [(0 : ℝ)])).intersects
        ⟨⟨0, 2, 0⟩, ⟨0, -1, 1⟩⟩ ≠ Option.none) :=
  ⟨le_refl 1, heightmap_traversal_safe (0, 0, 1, 1)
    (Texture.mk 1 1 [(0 : ℝ)]) (le_refl 1) (le_refl 1)
    ⟨⟨0, 2, 0⟩, ⟨0, -1, 1⟩⟩⟩

@[simp]
theorem Vec3.add_x (a b : Vec3) : (a + b).x = a.x + b.x := rfl

@[simp]
theorem Vec3.add_y (a b : Vec3) : (a + b).y = a.y + b.y := rfl

@[simp]
theorem Vec3.add_z (a b : Vec3) : (a + b).z = a.z + b.z := rfl

@[simp]
theorem Vec3.sub_x (a b : Vec3) : (a - b).x = a.x - b.x := rfl

@[simp]
theorem Vec3.sub_y (a b : Vec3) : (a - b).y = a.y - b.y := rfl

@[simp]
theorem Vec3.sub_z (a b : Vec3) : (a - b).z = a.z - b.z := rfl

@[simp]
theorem Vec3.smul_x (a : Vec3) (r : ℝ) : (a.smul r).x = a.x * r := rfl

@[simp]
theorem Vec3.smul_y (a : Vec3) (r : ℝ) : (a.smul r).y = a.y * r := rfl

@[simp]
theorem Vec3.smul_z (a : Vec3) (r : ℝ) : (a.smul r).z = a.z * r := rfl

@[simp]
theorem F.lt_fin_fin (a b : ℝ) : F.lt (F.fin a) (F.fin b) ↔ a < b :=
  Iff.rfl

@[simp]
theorem F.lt_fin_pinf (a : ℝ) : F.lt (F.fin a) F.pinf := trivial

@[simp]
theorem F.not_lt_pinf_fin (a : ℝ) : ¬ F.lt F.pinf (F.fin a) := fun h => h

theorem F.ofDiv_of_ne (num den : ℝ) (h : den ≠ 0) :
    F.ofDiv num den = F.fin (num / den) := if_neg h

theorem F.ofDiv_nan (num : ℝ) (h : num = 0) : F.ofDiv num 0 = F.nan := by
  unfold F.ofDiv
  rw [if_pos rfl, if_pos h]

@[simp]
theorem F.min_nan_left (b : F) : F.min F.nan b = b := by
  unfold F.min
  cases b <;> rfl

@[simp]
theorem F.min_fin_fin (a b : ℝ) :
    F.min (F.fin a) (F.fin b) = F.fin (Min.min a b) := rfl

@[simp]
theorem F.fin_ne_pinf (a : ℝ) : F.fin a ≠ F.pinf := fun h => by cases h

/-- Intersection::to_option of a record with a finite t is Some. -/
theorem Intersection.to_option_fin (t : ℝ) (n : Vec3) :
    Intersection.to_option ⟨F.fin t, n⟩ = Option.some ⟨F.fin t, n⟩ := by
  unfold Intersection.to_option
  rw [if_neg]
  unfold Intersection.is_none
  simp

/-- C3 counterexample: a flat height-field cell patch at height 1 over the
unit cell, crossed strictly inside its bounds by the ray with origin
(1/4, 2, 1/2) and direction (1/8, -1, 0).  The claim demands a hit with
t = (h - origin.y) / direction.y = 1 and normal (0, 1, 0), but because the
solver always projects against the z axis, every ray with direction.z = 0
yields a degenerate quadratic with a = b = 0 and BilinearPatch::intersects
returns no intersection at all. -/
theorem flat_patch_dz_zero_counterexample :
    ((-1 : ℝ) ≠ 0
    ∧ 0 < ((1 : ℝ) - 2) / (-1)
    ∧ (0 : ℝ) ≤ 1 / 4 + ((1 : ℝ) - 2) / (-1) * (1 / 8)
    ∧ (1 / 4 : ℝ) + ((1 : ℝ) - 2) / (-1) * (1 / 8) ≤ 1
    ∧ (0 : ℝ) ≤ 1 / 2 + ((1 : ℝ) - 2) / (-1) * 0
    ∧ (1 / 2 : ℝ) + ((1 : ℝ) - 2) / (-1) * 0 ≤ 1)
    ∧ BilinearPatch.intersects
        (BilinearPatch.new ⟨0, 1, 0⟩ ⟨1, 1, 0⟩ ⟨1, 1, 1⟩ ⟨0, 1, 1⟩)
        ⟨⟨1 / 4, 2, 1 / 2⟩, ⟨1 / 8, -1, 0⟩⟩ = Option.none := by
  refine ⟨by norm_num, ?_⟩
  have hA : BilinearPatch.quadA
      (BilinearPatch.new ⟨0, 1, 0⟩ ⟨1, 1, 0⟩ ⟨1, 1, 1⟩ ⟨0, 1, 1⟩)
      ⟨⟨1 / 4, 2, 1 / 2⟩, ⟨1 / 8, -1, 0⟩⟩ = 0 := by
    simp [BilinearPatch.quadA, BilinearPatch.vars, BilinearPatch.new]
  have hB : BilinearPatch.quadB
      (BilinearPatch.new ⟨0, 1, 0⟩ ⟨1, 1, 0⟩ ⟨1, 1, 1⟩ ⟨0, 1, 1⟩)
      ⟨⟨1 / 4, 2, 1 / 2⟩, ⟨1 / 8, -1, 0⟩⟩ = 0 := by
    simp [BilinearPatch.quadB, BilinearPatch.vars, BilinearPatch.new]
  unfold BilinearPatch.intersects BilinearPatch.candidates
  rw [hA, hB]
  have hsol : ∀ c : ℝ, BilinearPatch.solutions 0 0 c = [] := by
    intro c
    unfold BilinearPatch.solutions
    rw [if_neg (by simp), if_pos rfl]
  rw [hsol]
  simp [Intersection.to_option, Intersection.is_none, Intersection.none]

theorem Vec3.eq_of_comps (a b : Vec3) (hx : a.x = b.x) (hy : a.y = b.y)
    (hz : a.z = b.z) : a = b := by
  cases a
  cases b
  simp_all

/-- C3 (amended): flat-patch reduction for rays that are not parallel to
the x z plane's z axis.  A bilinear patch whose four corners sit at height
h over an axis-aligned cell [x0, x1] x [z0, z1] (corners passed in the
nw, ne, se, sw constructor order used by the height-field leaf), hit by a
ray with direction.y /= 0 and additionally direction.z /= 0 whose crossing
point with the plane y = h lies inside the cell, yields exactly
t = (h - origin.y) / direction.y with normal (0, 1, 0).  The extra
direction.z /= 0 hypothesis is forced by the counterexample: the solver
always projects against the z axis, so rays with direction.z = 0 miss. -/
theorem flat_patch_reduction (x0 x1 z0 z1 h ox oy oz dx dy dz : ℝ)
    (hx01 : x0 < x1) (hz01 : z0 < z1) (hdy : dy ≠ 0) (hdz : dz ≠ 0)
    (ht0 : 0 < (h - oy) / dy)
    (hhx0 : x0 ≤ ox + (h - oy) / dy * dx)
    (hhx1 : ox + (h - oy) / dy * dx ≤ x1)
    (hhz0 : z0 ≤ oz + (h - oy) / dy * dz)
    (hhz1 : oz + (h - oy) / dy * dz ≤ z1) :
    BilinearPatch.intersects
      (BilinearPatch.new ⟨x0, h, z0⟩ ⟨x1, h, z0⟩ ⟨x1, h, z1⟩ ⟨x0, h, z1⟩)
      ⟨⟨ox, oy, oz⟩, ⟨dx, dy, dz⟩⟩
    = Option.some ⟨F.fin ((h - oy) / dy), ⟨0, 1, 0⟩⟩ := by
  set P := BilinearPatch.new ⟨x0, h, z0⟩ ⟨x1, h, z0⟩ ⟨x1, h, z1⟩
    ⟨x0, h, z1⟩ with hP
  set R : Ray := ⟨⟨ox, oy, oz⟩, ⟨dx, dy, dz⟩⟩ with hR
  have hdx01 : x1 - x0 ≠ 0 := by intro hcon; linarith
  have hdz01 : z1 - z0 ≠ 0 := by intro hcon; linarith
  -- the eight projected coefficients
  have hva1 : (P.vars R).a1 = 0 := by
    simp [BilinearPatch.vars, hP, BilinearPatch.new, hR]
    try ring
  have hva2 : (P.vars R).a2 = 0 := by
    simp [BilinearPatch.vars, hP, BilinearPatch.new, hR]
    try ring
  have hvb1 : (P.vars R).b1 = (x1 - x0) * dz := by
    simp [BilinearPatch.vars, hP, BilinearPatch.new, hR]
    try ring
  have hvb2 : (P.vars R).b2 = 0 := by
    simp [BilinearPatch.vars, hP, BilinearPatch.new, hR]
  have hvc1 : (P.vars R).c1 = (z1 - z0) * dx := by
    simp [BilinearPatch.vars, hP, BilinearPatch.new, hR]
    try ring
  have hvc2 : (P.vars R).c2 = (z1 - z0) * dy := by
    simp [BilinearPatch.vars, hP, BilinearPatch.new, hR]
    try ring
  have hvd1 : (P.vars R).d1 = (x0 - ox) * dz - (z1 - oz) * dx := by
    simp [BilinearPatch.vars, hP, BilinearPatch.new, hR]
    try ring
  have hvd2 : (P.vars R).d2 = (h - oy) * dz - (z1 - oz) * dy := by
    simp [BilinearPatch.vars, hP, BilinearPatch.new, hR]
    try ring
  have hA : P.quadA R = 0 := by
    unfold BilinearPatch.quadA
    rw [hva1, hva2]
    ring
  have hB : P.quadB R = -((x1 - x0) * dz * ((z1 - z0) * dy)) := by
    unfold BilinearPatch.quadB
    rw [hva1, hva2, hvb1, hvb2, hvc1, hvc2]
    ring
  have hBne : P.quadB R ≠ 0 := by
    rw [hB]
    intro hcon
    rcases mul_eq_zero.mp (neg_eq_zero.mp hcon) with hcon2 | hcon2
    · rcases mul_eq_zero.mp hcon2 with hcon3 | hcon3
      · exact hdx01 hcon3
      · exact hdz hcon3
    · rcases mul_eq_zero.mp hcon2 with hcon3 | hcon3
      · exact hdz01 hcon3
      · exact hdy hcon3
  have hC : P.quadC R
      = -((x1 - x0) * dz * ((h - oy) * dz - (z1 - oz) * dy)) := by
    unfold BilinearPatch.quadC
    rw [hvb1, hvb2, hvd1, hvd2]
    ring
  have hsol : BilinearPatch.solutions (P.quadA R) (P.quadB R) (P.quadC R)
      = [-(P.quadC R) / P.quadB R] := by
    unfold BilinearPatch.solutions
    rw [if_pos ⟨hA, hBne⟩]
  have hveq : -(P.quadC R) / P.quadB R
      = (z1 - (oz + (h - oy) / dy * dz)) / (z1 - z0) := by
    rw [hB, hC]
    field_simp
    ring
  have hv0 : 0 ≤ (z1 - (oz + (h - oy) / dy * dz)) / (z1 - z0) :=
    div_nonneg (by linarith) (by linarith)
  have hv1 : (z1 - (oz + (h - oy) / dy * dz)) / (z1 - z0) ≤ 1 := by
    rw [div_le_one (by linarith)]
    linarith
  -- evaluate compute_u at the root
  have hdenne : -((x1 - x0) * dz) ≠ 0 := by
    intro hcon
    rcases mul_eq_zero.mp (neg_eq_zero.mp hcon) with hcon2 | hcon2
    · exact hdx01 hcon2
    · exact hdz hcon2
  have hden1 : (z1 - (oz + (h - oy) / dy * dz)) / (z1 - z0)
        * ((P.vars R).a2 - (P.vars R).a1) + (P.vars R).b2 - (P.vars R).b1
      = -((x1 - x0) * dz) := by
    rw [hva1, hva2, hvb1, hvb2]
    ring
  have hden2 : (z1 - (oz + (h - oy) / dy * dz)) / (z1 - z0) * (P.vars R).a2
      + (P.vars R).b2 = 0 := by
    rw [hva2, hvb2]
    ring
  have hcu : BilinearPatch.compute_u
      ((z1 - (oz + (h - oy) / dy * dz)) / (z1 - z0)) (P.vars R)
      = F.fin ((ox + (h - oy) / dy * dx - x0) / (x1 - x0)) := by
    simp only [BilinearPatch.compute_u]
    rw [hden1, hden2]
    rw [if_pos (by rw [abs_zero]; exact abs_pos.mpr hdenne)]
    rw [F.ofDiv_of_ne _ _ hdenne]
    congr 1
    rw [hvc1, hvc2, hvd1, hvd2]
    field_simp
    ring
  have hpos : P.position ((ox + (h - oy) / dy * dx - x0) / (x1 - x0))
      ((z1 - (oz + (h - oy) / dy * dz)) / (z1 - z0))
      = ⟨ox + (h - oy) / dy * dx, h, oz + (h - oy) / dy * dz⟩ := by
    apply Vec3.eq_of_comps <;>
      simp only [BilinearPatch.position, hP, BilinearPatch.new] <;>
      field_simp <;>
      ring
  have hct : BilinearPatch.compute_t R
      ⟨ox + (h - oy) / dy * dx, h, oz + (h - oy) / dy * dz⟩
      = F.fin ((h - oy) / dy) := by
    simp only [BilinearPatch.compute_t, hR]
    rw [show ox + (h - oy) / dy * dx - ox = (h - oy) / dy * dx from by ring]
    rw [show oz + (h - oy) / dy * dz - oz = (h - oy) / dy * dz from by ring]
    rw [F.ofDiv_of_ne _ _ hdy, F.ofDiv_of_ne _ _ hdz,
      mul_div_cancel_right₀ _ hdz]
    by_cases hdx : dx = 0
    · rw [hdx, mul_zero, F.ofDiv_nan 0 rfl]
      rw [F.min_nan_left, F.min_fin_fin, min_self]
    · rw [F.ofDiv_of_ne _ _ hdx, mul_div_cancel_right₀ _ hdx]
      rw [F.min_fin_fin, min_self, F.min_fin_fin, min_self]
  have hnormal : P.normal ((ox + (h - oy) / dy * dx - x0) / (x1 - x0))
      ((z1 - (oz + (h - oy) / dy * dz)) / (z1 - z0)) = ⟨0, 1, 0⟩ := by
    unfold BilinearPatch.normal
    have htu : P.tan_u ((z1 - (oz + (h - oy) / dy * dz)) / (z1 - z0))
        = ⟨x1 - x0, 0, 0⟩ := by
      apply Vec3.eq_of_comps <;>
        simp only [BilinearPatch.tan_u, hP, BilinearPatch.new] <;> ring
    have htv : P.tan_v ((ox + (h - oy) / dy * dx - x0) / (x1 - x0))
        = ⟨0, 0, z0 - z1⟩ := by
      apply Vec3.eq_of_comps <;>
        simp only [BilinearPatch.tan_v, hP, BilinearPatch.new] <;> ring
    rw [htu, htv]
    have hcr : Vec3.cross ⟨x1 - x0, 0, 0⟩ ⟨0, 0, z0 - z1⟩
        = ⟨0, (x1 - x0) * (z1 - z0), 0⟩ := by
      apply Vec3.eq_of_comps <;> simp [Vec3.cross] <;> ring
    rw [hcr]
    unfold Vec3.normalize
    have hwpos : 0 < (x1 - x0) * (z1 - z0) :=
      mul_pos (by linarith) (by linarith)
    have hdot : Vec3.dot ⟨0, (x1 - x0) * (z1 - z0), 0⟩
        ⟨0, (x1 - x0) * (z1 - z0), 0⟩
        = ((x1 - x0) * (z1 - z0)) * ((x1 - x0) * (z1 - z0)) := by
      simp [Vec3.dot]
    rw [hdot, if_pos (mul_pos hwpos hwpos),
      Real.sqrt_mul_self (le_of_lt hwpos)]
    apply Vec3.eq_of_comps <;> simp <;> field_simp <;> try ring
  have hu0 : 0 ≤ (ox + (h - oy) / dy * dx - x0) / (x1 - x0) :=
    div_nonneg (by linarith) (by linarith)
  have hu1 : (ox + (h - oy) / dy * dx - x0) / (x1 - x0) ≤ 1 := by
    rw [div_le_one (by linarith)]
    linarith
  have hsolve : P.solve R ((z1 - (oz + (h - oy) / dy * dz)) / (z1 - z0))
      (P.vars R) = Option.some ⟨F.fin ((h - oy) / dy), ⟨0, 1, 0⟩⟩ := by
    simp only [BilinearPatch.solve, hcu]
    rw [hpos, hct]
    rw [if_pos ⟨(F.lt_fin_fin 0 ((h - oy) / dy)).mpr ht0, hu1, hu0⟩]
    rw [hnormal]
  unfold BilinearPatch.intersects BilinearPatch.candidates
  rw [hsol, hveq]
  rw [List.filter_cons]
  rw [if_pos (by rw [decide_eq_true_eq]; exact ⟨hv0, hv1⟩)]
  rw [List.filter_nil, List.filterMap_cons, hsolve, List.filterMap_nil]
  rw [List.foldl_cons, List.foldl_nil]
  rw [if_pos (by simp [Intersection.none])]
  exact Intersection.to_option_fin _ _

/-- Witness for flat_patch_reduction at a concrete flat patch and ray. -/
theorem flat_patch_reduction_witness :
    ((0 : ℝ) < 1 ∧ (0 : ℝ) < 1 ∧ (-1 : ℝ) ≠ 0 ∧ (1 / 4 : ℝ) ≠ 0
    ∧ 0 < ((1 : ℝ) - 2) / (-1)
    ∧ (0 : ℝ) ≤ 1 / 4 + ((1 : ℝ) - 2) / (-1) * (1 / 8)
    ∧ (1 / 4 : ℝ) + ((1 : ℝ) - 2) / (-1) * (1 / 8) ≤ 1
    ∧ (0 : ℝ) ≤ 1 / 2 + ((1 : ℝ) - 2) / (-1) * (1 / 4)
    ∧ (1 / 2 : ℝ) + ((1 : ℝ) - 2) / (-1) * (1 / 4) ≤ 1)
    ∧ BilinearPatch.intersects
        (BilinearPatch.new ⟨0, 1, 0⟩ ⟨1, 1, 0⟩ ⟨1, 1, 1⟩ ⟨0, 1, 1⟩)
        ⟨⟨1 / 4, 2, 1 / 2⟩, ⟨1 / 8, -1, 1 / 4⟩⟩
      = Option.some ⟨F.fin (((1 : ℝ) - 2) / (-1)), ⟨0, 1, 0⟩⟩ :=
  ⟨by norm_num,
   flat_patch_reduction 0 1 0 1 1 (1 / 4) 2 (1 / 2) (1 / 8) (-1) (1 / 4)
     (by norm_num) (by norm_num) (by norm_num) (by norm_num) (by norm_num)
     (by norm_num) (by norm_num) (by norm_num) (by norm_num)⟩

theorem F.lt_irrefl (a : F) : ¬ F.lt a a := by
  cases a <;> simp [F.lt]

theorem F.lt_trans' {a b c : F} (h1 : F.lt a b) (h2 : F.lt b c) :
    F.lt a c := by
  cases a <;> cases b <;> cases c <;>
    simp_all [F.lt] <;> exact lt_trans h1 h2

theorem F.lt_total_of_sane {a b : F} (ha : a ≠ F.nan) (hb : b ≠ F.nan) :
    F.lt a b ∨ a = b ∨ F.lt b a := by
  cases a <;> cases b <;> simp_all [F.lt]
  exact lt_trichotomy _ _

/-- Behaviour of the closest-candidate fold of BilinearPatch::intersects:
for NaN-free candidate parameters the result is the initial record or a
list element, it is never strictly above any list element, and it is never
strictly above the initial record. -/
theorem foldl_closest_spec (l : List Intersection) (init : Intersection)
    (hsane : ∀ j ∈ l, j.t ≠ F.nan) (hinit : init.t ≠ F.nan) :
    (l.foldl (fun closest current =>
        if F.lt current.t closest.t then current else closest) init = init
      ∨ l.foldl (fun closest current =>
        if F.lt current.t closest.t then current else closest) init ∈ l)
    ∧ (∀ j ∈ l, ¬ F.lt j.t (l.foldl (fun closest current =>
        if F.lt current.t closest.t then current else closest) init).t)
    ∧ ¬ F.lt init.t (l.foldl (fun closest current =>
        if F.lt current.t closest.t then current else closest) init).t := by
  induction l generalizing init with
  | nil => exact ⟨Or.inl rfl, by simp, F.lt_irrefl _⟩
  | cons c tl ih =>
    have hsanetl : ∀ j ∈ tl, j.t ≠ F.nan :=
      fun j hj => hsane j (List.mem_cons_of_mem _ hj)
    have hsanec : c.t ≠ F.nan := hsane c (List.mem_cons_self _ _)
    rw [List.foldl_cons]
    by_cases hcl : F.lt c.t init.t
    · rw [if_pos hcl]
      obtain ⟨hmem, hmin, hini⟩ := ih c hsanetl hsanec
      refine ⟨?_, ?_, ?_⟩
      · rcases hmem with hmem | hmem
        · exact Or.inr (by rw [hmem]; exact List.mem_cons_self _ _)
        · exact Or.inr (List.mem_cons_of_mem _ hmem)
      · intro j hj
        rcases List.mem_cons.mp hj with hj | hj
        · rw [hj]; exact hini
        · exact hmin j hj
      · intro hcon
        exact hini (F.lt_trans' hcl hcon)
    · rw [if_neg hcl]
      obtain ⟨hmem, hmin, hini⟩ := ih init hsanetl hinit
      refine ⟨?_, ?_, hini⟩
      · rcases hmem with hmem | hmem
        · exact Or.inl hmem
        · exact Or.inr (List.mem_cons_of_mem _ hmem)
      · intro j hj
        rcases List.mem_cons.mp hj with hj | hj
        · rw [hj]
          intro hcon
          set res := tl.foldl (fun closest current =>
            if F.lt current.t closest.t then current else closest) init
          have hressane : res.t ≠ F.nan := by
            rcases hmem with hmem | hmem
            · rw [hmem]; exact hinit
            · exact hsanetl res hmem
          rcases F.lt_total_of_sane hinit hressane with hto | hto | hto
          · exact hini hto
          · exact hcl (by rw [← hto] at hcon; exact hcon)
          · exact hcl (F.lt_trans' hcon hto)
        · exact hmin j hj

/-- Every candidate of BilinearPatch::intersects has a parameter strictly
above zero and a normal produced at patch parameters u, v in the unit
square, with its t the componentwise ray parameter of that position. -/
theorem mem_candidates_spec (p : BilinearPatch) (ray : Ray)
    (i : Intersection) (hi : i ∈ p.candidates ray) :
    F.lt (F.fin 0) i.t
    ∧ ∃ u v, 0 ≤ u ∧ u ≤ 1 ∧ 0 ≤ v ∧ v ≤ 1 ∧ i.normal = p.normal u v
        ∧ i.t = BilinearPatch.compute_t ray (p.position u v) := by
  unfold BilinearPatch.candidates at hi
  rw [List.mem_filterMap] at hi
  obtain ⟨v, hvmem, hsolve⟩ := hi
  rw [List.mem_filter] at hvmem
  obtain ⟨-, hvdec⟩ := hvmem
  rw [decide_eq_true_eq] at hvdec
  unfold BilinearPatch.solve at hsolve
  cases hcu : BilinearPatch.compute_u v (p.vars ray) with
  | fin u =>
    rw [hcu] at hsolve
    simp only at hsolve
    by_cases hchecks : F.lt (F.fin 0) (BilinearPatch.compute_t ray
        (p.position u v)) ∧ u ≤ 1 ∧ 0 ≤ u
    · rw [if_pos hchecks] at hsolve
      have hieq := Option.some.inj hsolve
      rw [← hieq]
      exact ⟨hchecks.1, u, v, hchecks.2.2, hchecks.2.1, hvdec.1, hvdec.2,
        rfl, rfl⟩
    · rw [if_neg hchecks] at hsolve
      cases hsolve
  | nan => rw [hcu] at hsolve; cases hsolve
  | ninf => rw [hcu] at hsolve; cases hsolve
  | pinf => rw [hcu] at hsolve; cases hsolve

/-- A Some result of BilinearPatch::intersects is one of the candidates,
has a finite strictly positive parameter, and no candidate beats it. -/
theorem intersects_some_spec (p : BilinearPatch) (ray : Ray)
    (i : Intersection) (h : p.intersects ray = Option.some i) :
    (∃ r, i.t = F.fin r ∧ 0 < r)
    ∧ (∀ j ∈ p.candidates ray, ¬ F.lt j.t i.t)
    ∧ i ∈ p.candidates ray := by
  unfold BilinearPatch.intersects at h
  have hsane : ∀ j ∈ p.candidates ray, j.t ≠ F.nan := by
    intro j hj hnan
    have := (mem_candidates_spec p ray j hj).1
    rw [hnan] at this
    exact this
  obtain ⟨hmem, hmin, -⟩ := foldl_closest_spec (p.candidates ray)
    Intersection.none hsane (by intro hcon; cases hcon)
  set res := (p.candidates ray).foldl (fun closest current =>
    if F.lt current.t closest.t then current else closest)
    Intersection.none with hres
  unfold Intersection.to_option at h
  by_cases hn : res.is_none
  · rw [if_pos hn] at h
    cases h
  · rw [if_neg hn] at h
    have hieq := Option.some.inj h
    subst hieq
    have hmemc : res ∈ p.candidates ray := by
      rcases hmem with hmem | hmem
      · exfalso
        apply hn
        rw [hmem]
        rfl
      · exact hmem
    have hpos := (mem_candidates_spec p ray res hmemc).1
    refine ⟨?_, hmin, hmemc⟩
    cases hrt : res.t with
    | fin r =>
      refine ⟨r, rfl, ?_⟩
      rw [hrt] at hpos
      exact hpos
    | pinf => exact absurd hrt hn
    | nan => rw [hrt] at hpos; cases hpos
    | ninf => rw [hrt] at hpos; cases hpos

/-- Vec3::normalize yields a unit vector whenever the squared length is
positive. -/
theorem Vec3.normalize_unit (a : Vec3) (h : 0 < Vec3.dot a a) :
    Vec3.dot (Vec3.normalize a) (Vec3.normalize a) = 1 := by
  have hs : Real.sqrt (Vec3.dot a a) * Real.sqrt (Vec3.dot a a)
      = Vec3.dot a a := Real.mul_self_sqrt (le_of_lt h)
  have hsne : Real.sqrt (Vec3.dot a a) ≠ 0 := ne_of_gt (Real.sqrt_pos.mpr h)
  rw [Vec3.normalize, if_pos h]
  simp only [Vec3.smul, Vec3.dot] at hs hsne ⊢
  field_simp
  linear_combination -hs

/-- Every Some Some outcome of the work-stack loop carries a finite
strictly positive ray parameter: the leaf branch forwards the parameter of
a BilinearPatch::intersects hit. -/
theorem heightmap_loop_hit_pos_aux (hm : HeightMap) (ray : Ray) :
    ∀ n stack i, stackWeight stack ≤ n →
      hm.intersectsLoop ray stack = Option.some (Option.some i) →
      ∃ r, i.t = F.fin r ∧ 0 < r := by
  intro n
  induction n with
  | zero =>
    intro stack i hwt hloop
    cases stack with
    | nil => rw [HeightMap.intersectsLoop] at hloop; simp at hloop
    | cons it rest =>
      exfalso
      rw [stackWeight_cons] at hwt
      have := itemWeight_pos it.1
      omega
  | succ n ih =>
    intro stack i hwt hloop
    cases stack with
    | nil => rw [HeightMap.intersectsLoop] at hloop; simp at hloop
    | cons it rest =>
      obtain ⟨level, x, y⟩ := it
      rw [stackWeight_cons] at hwt
      have hwt' : itemWeight level + stackWeight rest ≤ n + 1 := hwt
      have hpos := itemWeight_pos level
      have hrest : stackWeight rest ≤ n := by omega
      rw [HeightMap.intersectsLoop] at hloop
      split at hloop
      · cases hloop
      · split at hloop
        · cases hloop
        · simp only at hloop
          split at hloop
          · exact ih rest i hrest hloop
          · split at hloop
            · exact ih rest i hrest hloop
            · split at hloop
              · split at hloop
                · cases hloop
                · split at hloop
                  · next pInter hpi =>
                    obtain ⟨⟨r, hrt, hrpos⟩, -, -⟩ :=
                      intersects_some_spec _ ray pInter hpi
                    simp only [Option.some.injEq] at hloop
                    refine ⟨r, ?_, hrpos⟩
                    rw [← hloop]
                    exact hrt
                  · exact ih rest i hrest hloop
              · apply ih _ i ?_ hloop
                have hdec := stackWeight_children_lt level x y (by assumption)
                  (hm.flatFarther ray) rest
                rw [stackWeight_cons] at hdec
                have hdec' : stackWeight ((([(level - 1, x * 2, y * 2),
                    (level - 1, x * 2 + 1, y * 2), (level - 1, x * 2, y * 2 + 1),
                    (level - 1, x * 2 + 1, y * 2 + 1)].mergeSort
                      (hm.flatFarther ray)).reverse ++ rest))
                    < itemWeight level + stackWeight rest := hdec
                omega

/-- An in-bounds fallible lookup succeeds with the total lookup's value. -/
theorem Texture.lookup1x1q_eq {α : Type} [Inhabited α] (t : Texture α)
    (x y : ℕ) (hlen : t.buffer.length = t.width * t.height)
    (hx : x < t.width) (hy : y < t.height) :
    t.lookup1x1? x y = Option.some (t.lookup1x1 x y) := by
  obtain ⟨v, hv⟩ := Texture.lookup1x1q_isSome t x y hlen hx hy
  have hval : t.lookup1x1 x y = v := by
    unfold Texture.lookup1x1
    unfold Texture.lookup1x1? at hv
    rw [List.getD_eq_getElem?_getD, ← List.get?_eq_getElem?, hv]
    rfl
  rw [hval, hv]

/-- Evaluation of BilinearPatch::intersects on the flat unit-cell leaf
patch of a 1x1 zero raster, hit by the ray from (1/2, 1, -1/2) along
(0, -1, 1): the patch-level hit has t = 1 and patch normal (0, 1, 0). -/
theorem cex8_patch_eval :
    BilinearPatch.intersects
        (BilinearPatch.new ⟨0, 0, 0⟩ ⟨1, 0, 0⟩ ⟨1, 0, 1⟩ ⟨0, 0, 1⟩)
        ⟨⟨1 / 2, 1, -(1 / 2)⟩, ⟨0, -1, 1⟩⟩
      = Option.some ⟨F.fin 1, ⟨0, 1, 0⟩⟩ := by
  set P := BilinearPatch.new ⟨(0 : ℝ), 0, 0⟩ ⟨1, 0, 0⟩ ⟨1, 0, 1⟩ ⟨0, 0, 1⟩
    with hP
  set R : Ray := ⟨⟨1 / 2, 1, -(1 / 2)⟩, ⟨0, -1, 1⟩⟩ with hR
  have hvars : P.vars R = ⟨0, 0, 1, 0, 0, -1, -(1 / 2), 1 / 2⟩ := by
    simp [BilinearPatch.vars, hP, BilinearPatch.new, hR]
    try norm_num
  have hA : P.quadA R = 0 := by
    unfold BilinearPatch.quadA
    rw [hvars]
    norm_num
  have hB : P.quadB R = 1 := by
    unfold BilinearPatch.quadB
    rw [hvars]
    norm_num
  have hC : P.quadC R = -(1 / 2) := by
    unfold BilinearPatch.quadC
    rw [hvars]
    norm_num
  have hsol : BilinearPatch.solutions (P.quadA R) (P.quadB R) (P.quadC R)
      = [1 / 2] := by
    rw [hA, hB, hC]
    unfold BilinearPatch.solutions
    rw [if_pos ⟨rfl, by norm_num⟩]
    norm_num
  have hcu : BilinearPatch.compute_u (1 / 2) (P.vars R) = F.fin (1 / 2) := by
    rw [hvars]
    unfold BilinearPatch.compute_u
    rw [if_pos (by norm_num)]
    norm_num
    rw [F.ofDiv_of_ne _ _ (by norm_num : (-1 : ℝ) ≠ 0)]
    simp only [F.fin.injEq]
    norm_num
  have hposn : P.position (1 / 2) (1 / 2) = ⟨1 / 2, 0, 1 / 2⟩ := by
    apply Vec3.eq_of_comps <;>
      simp [BilinearPatch.position, hP, BilinearPatch.new] <;> norm_num
  have hct : BilinearPatch.compute_t R ⟨1 / 2, 0, 1 / 2⟩ = F.fin 1 := by
    unfold BilinearPatch.compute_t
    rw [hR]
    simp only
    norm_num
    rw [F.ofDiv_nan 0 rfl]
    rw [F.ofDiv_of_ne _ _ (by norm_num : (-1 : ℝ) ≠ 0)]
    rw [F.ofDiv_of_ne _ _ (by norm_num : (1 : ℝ) ≠ 0)]
    rw [F.min_nan_left, F.min_fin_fin]
    simp only [F.fin.injEq]
    norm_num
  have hd : Vec3.dot ⟨0, 1, 0⟩ ⟨0, 1, 0⟩ = 1 := by simp [Vec3.dot]
  have hnormal : P.normal (1 / 2) (1 / 2) = ⟨0, 1, 0⟩ := by
    unfold BilinearPatch.normal
    have htu : P.tan_u (1 / 2) = ⟨1, 0, 0⟩ := by
      apply Vec3.eq_of_comps <;>
        simp [BilinearPatch.tan_u, hP, BilinearPatch.new] <;> norm_num
    have htv : P.tan_v (1 / 2) = ⟨0, 0, -1⟩ := by
      apply Vec3.eq_of_comps <;>
        simp [BilinearPatch.tan_v, hP, BilinearPatch.new] <;> norm_num
    rw [htu, htv]
    have hcr : Vec3.cross ⟨1, 0, 0⟩ ⟨0, 0, -1⟩ = ⟨0, 1, 0⟩ := by
      apply Vec3.eq_of_comps <;> simp [Vec3.cross] <;> norm_num
    rw [hcr]
    unfold Vec3.normalize
    rw [if_pos (by rw [hd]; norm_num)]
    rw [hd, Real.sqrt_one]
    apply Vec3.eq_of_comps <;> simp [Vec3.smul]
  have hsolve : P.solve R (1 / 2) (P.vars R)
      = Option.some ⟨F.fin 1, ⟨0, 1, 0⟩⟩ := by
    simp only [BilinearPatch.solve, hcu]
    rw [hposn, hct]
    rw [if_pos ⟨(F.lt_fin_fin 0 1).mpr (by norm_num), by norm_num,
      by norm_num⟩]
    rw [hnormal]
  unfold BilinearPatch.intersects BilinearPatch.candidates
  rw [hsol]
  rw [List.filter_cons,
    if_pos (by rw [decide_eq_true_eq]; constructor <;> norm_num)]
  rw [List.filter_nil, List.filterMap_cons, hsolve, List.filterMap_nil]
  rw [List.foldl_cons, List.foldl_nil]
  rw [if_pos (by simp [Intersection.none])]
  exact Intersection.to_option_fin _ _

/-- Evaluation of HeightMap::intersects for the height map built from a
1x1 zero raster with transform (0, 0, 1, 1), on the ray from
(1/2, 1, -1/2) along (0, -1, 1): the traversal reaches the single leaf
patch, takes its hit at t = 1, but replaces the patch normal by the
bilinear sample of the normal map, which is the zero vector because the
1x1 normal map has no written interior cells. -/
theorem cex8_heightmap_eval :
    (HeightMap.new (0, 0, 1, 1) (⟨1, 1, [0]⟩ : Texture ℝ)).intersects
        ⟨⟨1 / 2, 1, -(1 / 2)⟩, ⟨0, -1, 1⟩⟩
      = Option.some (Option.some ⟨F.fin 1, ⟨0, 0, 0⟩⟩) := by
  have hdim : 1 ≤ Max.max (⟨1, 1, [0]⟩ : Texture ℝ).width
      (⟨1, 1, [0]⟩ : Texture ℝ).height := by simp
  have hps : paddedSize (⟨1, 1, [0]⟩ : Texture ℝ) = 1 := by
    simp [paddedSize, ceil_pow2, Nat.clog_one_right]
  have hpm : ∀ X Y : ℕ, X ≤ 1 → Y ≤ 1 →
      (paddedMap (⟨1, 1, [0]⟩ : Texture ℝ)).lookup1x1 X Y = 0 := by
    intro X Y hX hY
    rw [paddedMap_lookup _ _ _ (by rw [hps]; omega) (by rw [hps]; omega)]
    split_ifs with h
    · have h1 : X < 1 := h.1
      have h2 : Y < 1 := h.2
      have hX0 : X = 0 := by omega
      have hY0 : Y = 0 := by omega
      subst hX0
      subst hY0
      simp [Texture.lookup1x1]
    · rfl
  have hl0 : (level0 (⟨1, 1, [0]⟩ : Texture ℝ)).lookup1x1 0 0 = 0 := by
    rw [level0_lookup _ 0 0 (by rw [hps]; omega) (by rw [hps]; omega)]
    rw [hpm 0 0 (by omega) (by omega), hpm 1 0 (by omega) (by omega),
      hpm 1 1 (by omega) (by omega), hpm 0 1 (by omega) (by omega)]
    simp
  have hl0len : (level0 (⟨1, 1, [0]⟩ : Texture ℝ)).buffer.length
      = (level0 (⟨1, 1, [0]⟩ : Texture ℝ)).width
        * (level0 (⟨1, 1, [0]⟩ : Texture ℝ)).height := by
    have h := iterate_mipmap_buffer_length 0 (⟨1, 1, [0]⟩ : Texture ℝ)
    simpa using h
  have hl0q : (level0 (⟨1, 1, [0]⟩ : Texture ℝ)).lookup1x1? 0 0
      = Option.some 0 := by
    rw [Texture.lookup1x1q_eq _ 0 0 hl0len
      (by rw [level0_width, hps]; omega)
      (by rw [level0_height, hps]; omega)]
    rw [hl0]
  have hmlen : (HeightMap.new ((0 : ℝ), (0 : ℝ), (1 : ℝ), (1 : ℝ))
      (⟨1, 1, [0]⟩ : Texture ℝ)).maximum_mipmaps.length = 1 := by
    rw [new_mipmaps_length _ _ hdim]
    simp [Nat.clog_one_right]
  have hget : (HeightMap.new ((0 : ℝ), (0 : ℝ), (1 : ℝ), (1 : ℝ))
      (⟨1, 1, [0]⟩ : Texture ℝ)).maximum_mipmaps.get? 0
      = Option.some (level0 (⟨1, 1, [0]⟩ : Texture ℝ)) := by
    rw [new_mipmaps_get _ _ hdim 0 (by omega)]
    simp
  have htrans : (HeightMap.new ((0 : ℝ), (0 : ℝ), (1 : ℝ), (1 : ℝ))
      (⟨1, 1, [0]⟩ : Texture ℝ)).transform
      = ((0 : ℝ), (0 : ℝ), (1 : ℝ), (1 : ℝ)) := rfl
  have hw0 : (HeightMap.new ((0 : ℝ), (0 : ℝ), (1 : ℝ), (1 : ℝ))
      (⟨1, 1, [0]⟩ : Texture ℝ)).raster_to_world 0
      ((0 : ℕ) : ℝ) ((0 : ℕ) : ℝ) = (0, 0) := by
    unfold HeightMap.raster_to_world
    rw [htrans]
    norm_num
  have hw1 : (HeightMap.new ((0 : ℝ), (0 : ℝ), (1 : ℝ), (1 : ℝ))
      (⟨1, 1, [0]⟩ : Texture ℝ)).raster_to_world 0
      (((0 : ℕ) : ℝ) + 1) (((0 : ℕ) : ℝ) + 1) = (1, 1) := by
    unfold HeightMap.raster_to_world
    rw [htrans]
    norm_num
  have haabb : Aabb.intersects (Aabb.new ⟨0, 0, 0⟩ ⟨1, 0, 1⟩)
      ⟨⟨1 / 2, 1, -(1 / 2)⟩, ⟨0, -1, 1⟩⟩
      = Option.some ⟨F.fin 1, ⟨0, 0, 0⟩⟩ := by
    norm_num [Aabb.intersects, Aabb.slabTmin, Aabb.slabTmax, Aabb.axisTmin,
      Aabb.axisTmax, Aabb.new, Aabb.center, Aabb.hitNormal, F.ofDiv, F.smul,
      F.min, F.max, F.lt, Vec3.normalize, Vec3.integral, Vec3.divVec,
      Vec3.abs, Vec3.dot, Vec3.smul]
  have hpg : (patchGrid (⟨1, 1, [0]⟩ : Texture ℝ)).lookup1x1 0 0
      = (0, 0, 0, 0) := by
    rw [patchGrid_lookup _ 0 0 (by rw [hps]; omega) (by rw [hps]; omega)]
    rw [hpm 0 0 (by omega) (by omega), hpm 1 0 (by omega) (by omega),
      hpm 1 1 (by omega) (by omega), hpm 0 1 (by omega) (by omega)]
  have hpgq : (patchGrid (⟨1, 1, [0]⟩ : Texture ℝ)).lookup1x1? 0 0
      = Option.some (0, 0, 0, 0) := by
    rw [Texture.lookup1x1q_eq _ 0 0
      (by rw [patchGrid_buffer_length, patchGrid_width, patchGrid_height])
      (by rw [patchGrid_width, hps]; omega)
      (by rw [patchGrid_height, hps]; omega)]
    rw [hpg]
  have hwid : (normals (⟨1, 1, [0]⟩ : Texture ℝ) 1 1).width = 1 := rfl
  have hbil : ∀ x y : ℝ, 0 ≤ x →
      (normals (⟨1, 1, [0]⟩ : Texture ℝ) 1 1).bilinear x y = ⟨0, 0, 0⟩ := by
    intro x y hx
    unfold Texture.bilinear
    rw [if_pos (Or.inr (Or.inl (by rw [hwid]; norm_num; linarith)))]
    rfl
  have hnm : (HeightMap.new ((0 : ℝ), (0 : ℝ), (1 : ℝ), (1 : ℝ))
      (⟨1, 1, [0]⟩ : Texture ℝ)).normal_map
      = normals (⟨1, 1, [0]⟩ : Texture ℝ) 1 1 := rfl
  unfold HeightMap.intersects
  rw [if_neg (by rw [HeightMap.new_eq]; simp)]
  rw [hmlen]
  simp only [Nat.sub_self]
  rw [HeightMap.intersectsLoop]
  rw [hget]
  simp only
  rw [hl0q]
  simp only
  rw [hw0, hw1]
  simp only
  rw [haabb]
  simp only
  rw [if_neg (by norm_num [F.lt_fin_fin])]
  rw [dif_pos trivial]
  rw [new_bilinear_patches]
  rw [hpgq]
  simp only
  rw [cex8_patch_eval]
  simp only [F.val]
  unfold HeightMap.world_to_raster
  rw [htrans, hnm]
  rw [hbil _ _ (by norm_num)]

/-- C8 counterexample: the height map built from a 1x1 zero raster, hit by
the ray from (1/2, 1, -1/2) along (0, -1, 1), reports an intersection with
t = 1 whose normal is the zero vector — not a unit vector.  The traversal
discards the patch-level normal (0, 1, 0) and samples the precomputed
normal map instead, whose guarded bilinear lookup returns the default for
a 1x1 map with no written interior cells. -/
theorem intersection_api_counterexample :
    (HeightMap.new (0, 0, 1, 1) (⟨1, 1, [0]⟩ : Texture ℝ)).intersects
        ⟨⟨1 / 2, 1, -(1 / 2)⟩, ⟨0, -1, 1⟩⟩
      = Option.some (Option.some ⟨F.fin 1, ⟨0, 0, 0⟩⟩)
    ∧ Vec3.dot (⟨0, 0, 0⟩ : Vec3) ⟨0, 0, 0⟩ ≠ 1 :=
  ⟨cex8_heightmap_eval, by simp [Vec3.dot]⟩

/-- C8 (amended): every intersection returned by BilinearPatch::intersects
has a finite ray parameter t > 0, is one of the solver's candidates (each
arising from a root with patch parameters u, v in the unit interval and
passing the t > 0 check), and no candidate has a strictly smaller t; its
normal is the normalized tangent cross product, which is unit length
whenever that cross product is nonzero (and the zero vector otherwise).
Every intersection returned by HeightMap::intersects likewise has a finite
ray parameter t > 0; but its normal is a bilinear sample of the
precomputed normal map rather than the patch normal, and need not be unit
length. -/
theorem intersection_api_postcondition :
    (∀ (p : BilinearPatch) (ray : Ray) (i : Intersection),
        p.intersects ray = Option.some i →
          (∃ r, i.t = F.fin r ∧ 0 < r)
          ∧ i ∈ p.candidates ray
          ∧ (∀ j ∈ p.candidates ray, ¬ F.lt j.t i.t)
          ∧ ∃ u v, 0 ≤ u ∧ u ≤ 1 ∧ 0 ≤ v ∧ v ≤ 1
              ∧ i.normal = p.normal u v
              ∧ (0 < Vec3.dot (Vec3.cross (p.tan_u v) (p.tan_v u))
                    (Vec3.cross (p.tan_u v) (p.tan_v u)) →
                  Vec3.dot i.normal i.normal = 1))
    ∧ (∀ (hm : HeightMap) (ray : Ray) (i : Intersection),
        hm.intersects ray = Option.some (Option.some i) →
          ∃ r, i.t = F.fin r ∧ 0 < r) := by
  constructor
  · intro p ray i h
    obtain ⟨hfin, hmin, hmem⟩ := intersects_some_spec p ray i h
    obtain ⟨-, u, v, hu0, hu1, hv0, hv1, hnorm, -⟩ :=
      mem_candidates_spec p ray i hmem
    refine ⟨hfin, hmem, hmin, u, v, hu0, hu1, hv0, hv1, hnorm, ?_⟩
    intro hcross
    rw [hnorm]
    unfold BilinearPatch.normal
    exact Vec3.normalize_unit _ hcross
  · intro hm ray i h
    unfold HeightMap.intersects at h
    split at h
    · simp at h
    · exact heightmap_loop_hit_pos_aux hm ray _ _ i le_rfl h

/-- Witness for intersection_api_postcondition at a concrete patch hit and
a concrete height-map hit. -/
theorem intersection_api_postcondition_witness :
    (∃ r, (⟨F.fin 1, ⟨0, 1, 0⟩⟩ : Intersection).t = F.fin r ∧ 0 < r)
    ∧ (∃ r, (⟨F.fin 1, ⟨0, 0, 0⟩⟩ : Intersection).t = F.fin r ∧ 0 < r) :=
  ⟨(intersection_api_postcondition.1
      (BilinearPatch.new ⟨0, 0, 0⟩ ⟨1, 0, 0⟩ ⟨1, 0, 1⟩ ⟨0, 0, 1⟩)
      ⟨⟨1 / 2, 1, -(1 / 2)⟩, ⟨0, -1, 1⟩⟩ _ cex8_patch_eval).1,
   intersection_api_postcondition.2
      (HeightMap.new (0, 0, 1, 1) (⟨1, 1, [0]⟩ : Texture ℝ))
      ⟨⟨1 / 2, 1, -(1 / 2)⟩, ⟨0, -1, 1⟩⟩ _ cex8_heightmap_eval⟩

/-- Evaluation of BilinearPatch::intersects on the leaf patch of a 1x1
raster of height 1, hit by the ray from (-1/2, 15/16, 0) along (1, -1, 1).
The projected quadratic -v^2 + v/2 - 1/16 has discriminant exactly zero,
so the solver takes its d == 0 branch and returns -b/a = 1/2 — not a root
(the double root is 1/4).  The bogus v = 1/2 still passes every range
check and produces t = 11/24. -/
theorem c2_patch_eval :
    BilinearPatch.intersects
        (BilinearPatch.new ⟨0, 1, 0⟩ ⟨1, 0, 0⟩ ⟨1, 0, 1⟩ ⟨0, 0, 1⟩)
        ⟨⟨-(1 / 2), 15 / 16, 0⟩, ⟨1, -1, 1⟩⟩
      = Option.some ⟨F.fin (11 / 24),
          (BilinearPatch.new ⟨0, 1, 0⟩ ⟨1, 0, 0⟩ ⟨1, 0, 1⟩
            ⟨0, 0, 1⟩).normal (1 / 24) (1 / 2)⟩ := by
  set P := BilinearPatch.new ⟨(0 : ℝ), 1, 0⟩ ⟨1, 0, 0⟩ ⟨1, 0, 1⟩ ⟨0, 0, 1⟩
    with hP
  set R : Ray := ⟨⟨-(1 / 2), 15 / 16, 0⟩, ⟨1, -1, 1⟩⟩ with hR
  have hvars : P.vars R = ⟨0, -1, 1, 0, 1, 0, -(1 / 2), 1 / 16⟩ := by
    simp [BilinearPatch.vars, hP, BilinearPatch.new, hR]
    try norm_num
  have hA : P.quadA R = -1 := by
    unfold BilinearPatch.quadA
    rw [hvars]
    norm_num
  have hB : P.quadB R = 1 / 2 := by
    unfold BilinearPatch.quadB
    rw [hvars]
    norm_num
  have hC : P.quadC R = -(1 / 16) := by
    unfold BilinearPatch.quadC
    rw [hvars]
    norm_num
  have hsol : BilinearPatch.solutions (P.quadA R) (P.quadB R) (P.quadC R)
      = [1 / 2] := by
    rw [hA, hB, hC]
    unfold BilinearPatch.solutions
    rw [if_neg (by norm_num), if_neg (by norm_num)]
    simp only
    rw [if_pos (by norm_num)]
    norm_num
  have hcu : BilinearPatch.compute_u (1 / 2) (P.vars R)
      = F.fin (1 / 24) := by
    rw [hvars]
    unfold BilinearPatch.compute_u
    rw [if_pos (by norm_num [abs_of_pos])]
    norm_num
    rw [F.ofDiv_of_ne _ _ (by norm_num : (-(3 / 2) : ℝ) ≠ 0)]
    simp only [F.fin.injEq]
    norm_num
  have hposn : P.position (1 / 24) (1 / 2) = ⟨1 / 24, 23 / 48, 1 / 2⟩ := by
    apply Vec3.eq_of_comps <;>
      simp [BilinearPatch.position, hP, BilinearPatch.new] <;> norm_num
  have hct : BilinearPatch.compute_t R ⟨1 / 24, 23 / 48, 1 / 2⟩
      = F.fin (11 / 24) := by
    unfold BilinearPatch.compute_t
    rw [hR]
    simp only
    rw [F.ofDiv_of_ne _ _ (by norm_num : (1 : ℝ) ≠ 0),
      F.ofDiv_of_ne _ _ (by norm_num : (-1 : ℝ) ≠ 0),
      F.ofDiv_of_ne _ _ (by norm_num : (1 : ℝ) ≠ 0)]
    rw [F.min_fin_fin, F.min_fin_fin]
    simp only [F.fin.injEq]
    norm_num [min_def]
  have hsolve : P.solve R (1 / 2) (P.vars R)
      = Option.some ⟨F.fin (11 / 24), P.normal (1 / 24) (1 / 2)⟩ := by
    simp only [BilinearPatch.solve, hcu]
    rw [hposn, hct]
    rw [if_pos ⟨(F.lt_fin_fin 0 (11 / 24)).mpr (by norm_num), by norm_num,
      by norm_num⟩]
  unfold BilinearPatch.intersects BilinearPatch.candidates
  rw [hsol]
  rw [List.filter_cons,
    if_pos (by rw [decide_eq_true_eq]; constructor <;> norm_num)]
  rw [List.filter_nil, List.filterMap_cons, hsolve, List.filterMap_nil]
  rw [List.foldl_cons, List.foldl_nil]
  rw [if_pos (by simp [Intersection.none])]
  exact Intersection.to_option_fin _ _

/-- C2: failing input for the no-false-positives property.  The height map
built from a 1x1 raster of height 1 with transform (0, 0, 1, 1) covers the
world rectangle [0,1] x [0,1] in x and z.  The ray from (-1/2, 15/16, 0)
along (1, -1, 1) is reported to hit at t = 11/24, but the hit point has
x = -1/2 + 11/24 = -1/24 < 0, horizontally outside the field rectangle:
the discriminant of the leaf patch quadratic is exactly zero and the
solver's d == 0 branch returns -b/a, which is not a root, yet passes all
subsequent range checks. -/
theorem heightmap_false_positive_failing_input :
    (HeightMap.new (0, 0, 1, 1) (⟨1, 1, [1]⟩ : Texture ℝ)).intersects
        ⟨⟨-(1 / 2), 15 / 16, 0⟩, ⟨1, -1, 1⟩⟩
      = Option.some (Option.some ⟨F.fin (11 / 24), ⟨0, 0, 0⟩⟩)
    ∧ (-(1 / 2) : ℝ) + 11 / 24 * 1 < 0 := by
  refine ⟨?_, by norm_num⟩
  have hdim : 1 ≤ Max.max (⟨1, 1, [1]⟩ : Texture ℝ).width
      (⟨1, 1, [1]⟩ : Texture ℝ).height := by simp
  have hps : paddedSize (⟨1, 1, [1]⟩ : Texture ℝ) = 1 := by
    simp [paddedSize, ceil_pow2, Nat.clog_one_right]
  have hpm : ∀ X Y : ℕ, X ≤ 1 → Y ≤ 1 →
      (paddedMap (⟨1, 1, [1]⟩ : Texture ℝ)).lookup1x1 X Y
        = if X = 0 ∧ Y = 0 then 1 else 0 := by
    intro X Y hX hY
    rw [paddedMap_lookup _ _ _ (by rw [hps]; omega) (by rw [hps]; omega)]
    have hw : ((⟨1, 1, [1]⟩ : Texture ℝ)).width = 1 := rfl
    have hh : ((⟨1, 1, [1]⟩ : Texture ℝ)).height = 1 := rfl
    rw [hw, hh]
    by_cases h : X = 0 ∧ Y = 0
    · obtain ⟨hX0, hY0⟩ := h
      subst hX0
      subst hY0
      rw [if_pos ⟨by omega, by omega⟩, if_pos ⟨rfl, rfl⟩]
      simp [Texture.lookup1x1]
    · rw [if_neg (by omega), if_neg h]
  have hl0 : (level0 (⟨1, 1, [1]⟩ : Texture ℝ)).lookup1x1 0 0 = 1 := by
    rw [level0_lookup _ 0 0 (by rw [hps]; omega) (by rw [hps]; omega)]
    rw [hpm 0 0 (by omega) (by omega), hpm 1 0 (by omega) (by omega),
      hpm 1 1 (by omega) (by omega), hpm 0 1 (by omega) (by omega)]
    norm_num
  have hl0len : (level0 (⟨1, 1, [1]⟩ : Texture ℝ)).buffer.length
      = (level0 (⟨1, 1, [1]⟩ : Texture ℝ)).width
        * (level0 (⟨1, 1, [1]⟩ : Texture ℝ)).height := by
    have h := iterate_mipmap_buffer_length 0 (⟨1, 1, [1]⟩ : Texture ℝ)
    simpa using h
  have hl0q : (level0 (⟨1, 1, [1]⟩ : Texture ℝ)).lookup1x1? 0 0
      = Option.some 1 := by
    rw [Texture.lookup1x1q_eq _ 0 0 hl0len
      (by rw [level0_width, hps]; omega)
      (by rw [level0_height, hps]; omega)]
    rw [hl0]
  have hmlen : (HeightMap.new ((0 : ℝ), (0 : ℝ), (1 : ℝ), (1 : ℝ))
      (⟨1, 1, [1]⟩ : Texture ℝ)).maximum_mipmaps.length = 1 := by
    rw [new_mipmaps_length _ _ hdim]
    simp [Nat.clog_one_right]
  have hget : (HeightMap.new ((0 : ℝ), (0 : ℝ), (1 : ℝ), (1 : ℝ))
      (⟨1, 1, [1]⟩ : Texture ℝ)).maximum_mipmaps.get? 0
      = Option.some (level0 (⟨1, 1, [1]⟩ : Texture ℝ)) := by
    rw [new_mipmaps_get _ _ hdim 0 (by omega)]
    simp
  have htrans : (HeightMap.new ((0 : ℝ), (0 : ℝ), (1 : ℝ), (1 : ℝ))
      (⟨1, 1, [1]⟩ : Texture ℝ)).transform
      = ((0 : ℝ), (0 : ℝ), (1 : ℝ), (1 : ℝ)) := rfl
  have hw0 : (HeightMap.new ((0 : ℝ), (0 : ℝ), (1 : ℝ), (1 : ℝ))
      (⟨1, 1, [1]⟩ : Texture ℝ)).raster_to_world 0
      ((0 : ℕ) : ℝ) ((0 : ℕ) : ℝ) = (0, 0) := by
    unfold HeightMap.raster_to_world
    rw [htrans]
    norm_num
  have hw1 : (HeightMap.new ((0 : ℝ), (0 : ℝ), (1 : ℝ), (1 : ℝ))
      (⟨1, 1, [1]⟩ : Texture ℝ)).raster_to_world 0
      (((0 : ℕ) : ℝ) + 1) (((0 : ℕ) : ℝ) + 1) = (1, 1) := by
    unfold HeightMap.raster_to_world
    rw [htrans]
    norm_num
  have haabb : Aabb.intersects (Aabb.new ⟨0, 0, 0⟩ ⟨1, 1, 1⟩)
      ⟨⟨-(1 / 2), 15 / 16, 0⟩, ⟨1, -1, 1⟩⟩
      = Option.some ⟨F.fin (1 / 2),
          (Aabb.new ⟨0, 0, 0⟩ ⟨1, 1, 1⟩).hitNormal
            ⟨⟨-(1 / 2), 15 / 16, 0⟩, ⟨1, -1, 1⟩⟩ (1 / 2)⟩ := by
    have htmin : Aabb.slabTmin (Aabb.new ⟨0, 0, 0⟩ ⟨1, 1, 1⟩)
        ⟨⟨-(1 / 2), 15 / 16, 0⟩, ⟨1, -1, 1⟩⟩ = F.fin (1 / 2) := by
      norm_num [Aabb.slabTmin, Aabb.axisTmin, Aabb.new, F.ofDiv, F.smul,
        F.lt, F.max, max_def]
    have htmax : Aabb.slabTmax (Aabb.new ⟨0, 0, 0⟩ ⟨1, 1, 1⟩)
        ⟨⟨-(1 / 2), 15 / 16, 0⟩, ⟨1, -1, 1⟩⟩ = F.fin (15 / 16) := by
      norm_num [Aabb.slabTmax, Aabb.axisTmax, Aabb.new, F.ofDiv, F.smul,
        F.lt, F.min, min_def]
    unfold Aabb.intersects
    rw [htmin, htmax]
    rw [if_neg (by norm_num [F.lt_fin_fin])]
    rw [if_neg (by norm_num [F.lt_fin_fin])]
  have hpg : (patchGrid (⟨1, 1, [1]⟩ : Texture ℝ)).lookup1x1 0 0
      = (1, 0, 0, 0) := by
    rw [patchGrid_lookup _ 0 0 (by rw [hps]; omega) (by rw [hps]; omega)]
    rw [hpm 0 0 (by omega) (by omega), hpm 1 0 (by omega) (by omega),
      hpm 1 1 (by omega) (by omega), hpm 0 1 (by omega) (by omega)]
    norm_num
  have hpgq : (patchGrid (⟨1, 1, [1]⟩ : Texture ℝ)).lookup1x1? 0 0
      = Option.some (1, 0, 0, 0) := by
    rw [Texture.lookup1x1q_eq _ 0 0
      (by rw [patchGrid_buffer_length, patchGrid_width, patchGrid_height])
      (by rw [patchGrid_width, hps]; omega)
      (by rw [patchGrid_height, hps]; omega)]
    rw [hpg]
  have hwid : (normals (⟨1, 1, [1]⟩ : Texture ℝ) 1 1).width = 1 := rfl
  have hbil : ∀ x y : ℝ,
      (normals (⟨1, 1, [1]⟩ : Texture ℝ) 1 1).bilinear x y = ⟨0, 0, 0⟩ := by
    intro x y
    unfold Texture.bilinear
    rw [if_pos ?_]
    · rfl
    · rcases lt_or_le x 0 with h | h
      · exact Or.inl h
      · refine Or.inr (Or.inl ?_)
        rw [hwid]
        norm_num
        linarith
  have hnm : (HeightMap.new ((0 : ℝ), (0 : ℝ), (1 : ℝ), (1 : ℝ))
      (⟨1, 1, [1]⟩ : Texture ℝ)).normal_map
      = normals (⟨1, 1, [1]⟩ : Texture ℝ) 1 1 := rfl
  unfold HeightMap.intersects
  rw [if_neg (by rw [HeightMap.new_eq]; simp)]
  rw [hmlen]
  simp only [Nat.sub_self]
  rw [HeightMap.intersectsLoop]
  rw [hget]
  simp only
  rw [hl0q]
  simp only
  rw [hw0, hw1]
  simp only
  rw [haabb]
  simp only
  rw [if_neg (by norm_num [F.lt_fin_fin])]
  rw [dif_pos trivial]
  rw [new_bilinear_patches]
  rw [hpgq]
  simp only
  rw [c2_patch_eval]
  simp only [F.val]
  unfold HeightMap.world_to_raster
  rw [htrans, hnm]
  rw [hbil]

/-- The square root appearing in the discriminant of the reference patch
quadratic (both corner orders give the same discriminant). -/
noncomputable def refS : ℝ := Real.sqrt (1498661665987796834801694601 / 100)

/-- The length normalizer of the reference ray direction:
sqrt(100499^2 + 994937^2). -/
noncomputable def refM : ℝ := Real.sqrt 999999682970

theorem refS_sq : refS * refS = 1498661665987796834801694601 / 100 :=
  Real.mul_self_sqrt (by norm_num)

theorem refS_lb : (3871255178863.564445 : ℝ) < refS := by
  rw [refS]
  rw [show (3871255178863.564445 : ℝ)
      = ((3871255178863.564445 : ℝ)) from rfl]
  refine (Real.lt_sqrt (by norm_num)).mpr ?_
  norm_num

theorem refS_ub : refS < 3871255178863.564446 := by
  rw [refS]
  refine (Real.sqrt_lt' (by norm_num)).mpr ?_
  norm_num

theorem refM_sq : refM * refM = 999999682970 :=
  Real.mul_self_sqrt (by norm_num)

theorem refM_pos : 0 < refM := Real.sqrt_pos.mpr (by norm_num)

theorem refM_ne : refM ≠ 0 := ne_of_gt refM_pos

theorem refM_lb : (999999.841484987 : ℝ) < refM := by
  rw [refM]
  refine (Real.lt_sqrt (by norm_num)).mpr ?_
  norm_num

theorem refM_ub : refM < 999999.841484988 := by
  rw [refM]
  refine (Real.sqrt_lt' (by norm_num)).mpr ?_
  norm_num

/-- The normalized reference ray direction in closed form. -/
theorem refDir_eq : Vec3.normalize ⟨0.100499, 0, -0.994937⟩
    = ⟨100499 / refM, 0, -(994937 / refM)⟩ := by
  unfold Vec3.normalize
  have hdot : Vec3.dot ⟨0.100499, 0, -0.994937⟩ ⟨0.100499, 0, -0.994937⟩
      = 999999682970 / 10 ^ 12 := by
    simp [Vec3.dot]
    norm_num
  rw [hdot, if_pos (by norm_num)]
  have hsq : Real.sqrt (999999682970 / 10 ^ 12) = refM / 10 ^ 6 := by
    rw [show (999999682970 / 10 ^ 12 : ℝ)
        = 999999682970 / (10 ^ 6 : ℝ) ^ 2 from by norm_num]
    rw [Real.sqrt_div (by norm_num) (((10 : ℝ) ^ 6) ^ 2)]
    rw [Real.sqrt_sq (by norm_num : (0 : ℝ) ≤ (10 : ℝ) ^ 6)]
    rw [refM]
  rw [hsq]
  apply Vec3.eq_of_comps <;> simp [Vec3.smul] <;>
    field_simp [refM_ne] <;> norm_num

theorem F.min_nan_right (a : F) : F.min a F.nan = a := by
  cases a <;> rfl

/-- The accepted quadratic root v of the reference patch in the source
test's corner order. -/
noncomputable def refV : ℝ := (197670170072779 / 10 + refS) / 33296635267338

/-- The rejected quadratic root of the reference patch (source order). -/
noncomputable def refVo : ℝ :=
  (56424371665374 / 5) / (197670170072779 / 10 + refS)

/-- The patch parameter u recovered for the accepted root (source
order). -/
noncomputable def refU : ℝ :=
  (994937 * refV - 2984811 / 10) / (5969622 * refV - 2984811)

theorem refV_lb : (0.7099297570565392884 : ℝ) < refV := by
  rw [refV, lt_div_iff₀ (by norm_num : (0 : ℝ) < 33296635267338)]
  linarith [refS_lb]

theorem refV_ub : refV < 0.7099297570565392886 := by
  rw [refV, div_lt_iff₀ (by norm_num : (0 : ℝ) < 33296635267338)]
  linarith [refS_ub]

theorem refBS_pos : 0 < (197670170072779 / 10 : ℝ) + refS := by
  linarith [refS_lb]

theorem refVo_lb : (0.4773984 : ℝ) < refVo := by
  rw [refVo, lt_div_iff₀ refBS_pos]
  linarith [refS_ub]

theorem refVo_ub : refVo < 0.4773985 := by
  rw [refVo, div_lt_iff₀ refBS_pos]
  linarith [refS_lb]

theorem refDenU_pos : 0 < 5969622 * refV - 2984811 := by
  linarith [refV_lb]

theorem refDenU_ne : 5969622 * refV - 2984811 ≠ 0 := ne_of_gt refDenU_pos

theorem refU_lb : (0.325449936845728705 : ℝ) < refU := by
  rw [refU, lt_div_iff₀ refDenU_pos]
  nlinarith [refV_lb, refV_ub]

theorem refU_ub : refU < 0.325449936845728706 := by
  rw [refU, div_lt_iff₀ refDenU_pos]
  nlinarith [refV_lb, refV_ub]

/-- refV is a root of the projected quadratic of the reference patch. -/
theorem refV_root : -16648317633669 * (refV * refV)
    + 197670170072779 / 10 * refV - 28212185832687 / 5 = 0 := by
  have hVK : refV * 33296635267338 = 197670170072779 / 10 + refS := by
    rw [refV]
    field_simp
    ring
  have h2 : (refV * 33296635267338) * (refV * 33296635267338)
      = (197670170072779 / 10 + refS) * (197670170072779 / 10 + refS) := by
    rw [hVK]
  linear_combination (-16648317633669 / 33296635267338 ^ 2 : ℝ) * h2
    + (197670170072779 / 332966352673380 : ℝ) * hVK
    + (-16648317633669 / 33296635267338 ^ 2 : ℝ) * refS_sq

theorem refU_mul : refU * (5969622 * refV - 2984811)
    = 994937 * refV - 2984811 / 10 := by
  rw [refU]
  field_simp [refDenU_ne]
  ring

/-- The y coordinate of the reference patch position at (refU, refV) is
exactly the ray's constant y coordinate 3/10. -/
theorem ref_py : refV + 3 * refU - 6 * (refU * refV) = 3 / 10 := by
  have hmul : (refV + 3 * refU - 6 * (refU * refV) - 3 / 10)
      * (5969622 * refV - 2984811) = 0 := by
    linear_combination (3 - 6 * refV) * refU_mul
  rcases mul_eq_zero.mp hmul with h | h
  · linarith
  · exact absurd h refDenU_ne

/-- The x and z slab parameters agree exactly at the reference hit. -/
theorem ref_txz : (3 * refV + refU - 3 * (refU * refV) - 1) * 994937
    = (10 - (3 * refV + refU)) * 100499 := by
  have hmul : ((3 * refV + refU - 3 * (refU * refV) - 1) * 994937
      - (10 - (3 * refV + refU)) * 100499)
      * (5969622 * refV - 2984811) = 0 := by
    linear_combination (1095436 - 2984811 * refV) * refU_mul - refV_root
  rcases mul_eq_zero.mp hmul with h | h
  · linarith
  · exact absurd h refDenU_ne

/-- The ray parameter of the reference hit. -/
noncomputable def refT : ℝ := (10 - (3 * refV + refU)) * refM / 994937

/-- The reference hit normal (source corner order). -/
noncomputable def refN : Vec3 :=
  Vec3.normalize (Vec3.cross ⟨1 - 3 * refV, 3 - 6 * refV, 1⟩
    ⟨3 - 3 * refU, 1 - 6 * refU, 3⟩)

/-- The den1 branch of BilinearPatch::compute_u. -/
theorem compute_u_den1 (v : ℝ) (vars : Variables)
    (h : |v * vars.a2 + vars.b2|
        < |v * (vars.a2 - vars.a1) + vars.b2 - vars.b1|) :
    BilinearPatch.compute_u v vars
      = F.ofDiv (v * (vars.c1 - vars.c2) + vars.d1 - vars.d2)
          (v * (vars.a2 - vars.a1) + vars.b2 - vars.b1) := by
  unfold BilinearPatch.compute_u
  rw [if_pos h]

/-- The den2 branch of BilinearPatch::compute_u. -/
theorem compute_u_den2 (v : ℝ) (vars : Variables)
    (h : ¬ |v * vars.a2 + vars.b2|
        < |v * (vars.a2 - vars.a1) + vars.b2 - vars.b1|) :
    BilinearPatch.compute_u v vars
      = F.ofDiv (-(v * vars.c2 + vars.d2)) (v * vars.a2 + vars.b2) := by
  unfold BilinearPatch.compute_u
  rw [if_neg h]

/-- BilinearPatch::solve accepts a root through the den2 branch of
compute_u when the range checks pass; the denominators are abstracted by
equation hypotheses so concrete instances can name their reduced forms. -/
theorem solve_den2_accept (p : BilinearPatch) (ray : Ray) (v : ℝ)
    (vars : Variables) (den1 den2 num2 : ℝ)
    (e1 : v * (vars.a2 - vars.a1) + vars.b2 - vars.b1 = den1)
    (e2 : v * vars.a2 + vars.b2 = den2)
    (en : -(v * vars.c2 + vars.d2) = num2)
    (hbr : ¬ |den2| < |den1|) (hden : den2 ≠ 0) (u : ℝ)
    (hu : num2 / den2 = u)
    (hcheck : F.lt (F.fin 0)
        (BilinearPatch.compute_t ray (p.position u v)) ∧ u ≤ 1 ∧ 0 ≤ u) :
    p.solve ray v vars = Option.some
      ⟨BilinearPatch.compute_t ray (p.position u v), p.normal u v⟩ := by
  have hcu : BilinearPatch.compute_u v vars = F.fin u := by
    unfold BilinearPatch.compute_u
    rw [e1, e2, en, if_neg hbr, F.ofDiv_of_ne _ _ hden, hu]
  unfold BilinearPatch.solve
  rw [hcu]
  simp only
  rw [if_pos hcheck]

/-- BilinearPatch::solve rejects a root through the den1 branch of
compute_u when the recovered u is negative. -/
theorem solve_den1_reject (p : BilinearPatch) (ray : Ray) (v : ℝ)
    (vars : Variables) (den1 den2 num1 : ℝ)
    (e1 : v * (vars.a2 - vars.a1) + vars.b2 - vars.b1 = den1)
    (e2 : v * vars.a2 + vars.b2 = den2)
    (en : v * (vars.c1 - vars.c2) + vars.d1 - vars.d2 = num1)
    (hbr : |den2| < |den1|) (hden : den1 ≠ 0)
    (hu : num1 / den1 < 0) :
    p.solve ray v vars = Option.none := by
  have hcu : BilinearPatch.compute_u v vars = F.fin (num1 / den1) := by
    unfold BilinearPatch.compute_u
    rw [e1, e2, en, if_pos hbr, F.ofDiv_of_ne _ _ hden]
  unfold BilinearPatch.solve
  rw [hcu]
  simp only
  rw [if_neg]
  intro hcon
  linarith [hcon.2.2]

theorem refMinv_pos : 0 < (refM)⁻¹ := inv_pos.mpr refM_pos

/-- Full evaluation of BilinearPatch::intersects on the reference patch in
the source test's corner order, against the reference ray in closed form:
the stable quadratic produces the roots refVo (rejected: u < 0) and refV
(accepted with u = refU), giving ray parameter refT and normal refN. -/
theorem ref_patch_eval :
    BilinearPatch.intersects
        (BilinearPatch.new ⟨3, 1, 3⟩ ⟨1, -2, 4⟩ ⟨1, 3, 1⟩ ⟨0, 0, 0⟩)
        ⟨⟨1, 0.3, 10⟩, ⟨100499 / refM, 0, -(994937 / refM)⟩⟩
      = Option.some ⟨F.fin refT, refN⟩ := by
  set P := BilinearPatch.new ⟨(3 : ℝ), 1, 3⟩ ⟨1, -2, 4⟩ ⟨1, 3, 1⟩ ⟨0, 0, 0⟩
    with hP
  set R : Ray := ⟨⟨1, 0.3, 10⟩, ⟨100499 / refM, 0, -(994937 / refM)⟩⟩
    with hR
  have hMM : (1 / refM) * (1 / refM) = 1 / 999999682970 := by
    rw [div_mul_div_comm, one_mul, refM_sq]
  have hvars : P.vars R = ⟨2984811 / refM, 5969622 / refM,
      -(1095436 / refM), -(2984811 / refM), -(3286308 / refM),
      -(994937 / refM), 1999927 / refM, 2984811 / (10 * refM)⟩ := by
    simp [BilinearPatch.vars, hP, BilinearPatch.new, hR,
      Variables.mk.injEq]
    all_goals field_simp
    all_goals try ring
    all_goals norm_num
  have hA : P.quadA R = -16648317633669 / 999999682970 := by
    unfold BilinearPatch.quadA
    rw [hvars]
    simp only
    rw [show (5969622 / refM) * (-(3286308 / refM))
        - (2984811 / refM) * (-(994937 / refM))
        = -16648317633669 * ((1 / refM) * (1 / refM)) from by ring, hMM]
    norm_num
  have hB : P.quadB R = 197670170072779 / 9999996829700 := by
    unfold BilinearPatch.quadB
    rw [hvars]
    simp only
    rw [show (5969622 / refM) * (1999927 / refM)
        - (2984811 / refM) * (2984811 / (10 * refM))
        + (-(2984811 / refM)) * (-(3286308 / refM))
        - (-(1095436 / refM)) * (-(994937 / refM))
        = (197670170072779 / 10) * ((1 / refM) * (1 / refM)) from by ring,
      hMM]
    norm_num
  have hC : P.quadC R = -28212185832687 / 4999998414850 := by
    unfold BilinearPatch.quadC
    rw [hvars]
    simp only
    rw [show (-(2984811 / refM)) * (1999927 / refM)
        - (-(1095436 / refM)) * (2984811 / (10 * refM))
        = (-28212185832687 / 5) * ((1 / refM) * (1 / refM)) from by ring,
      hMM]
    norm_num
  have hsd : Real.sqrt ((197670170072779 / 9999996829700 : ℝ)
      * (197670170072779 / 9999996829700)
      - 4 * (-16648317633669 / 999999682970)
        * (-28212185832687 / 4999998414850)) = refS / 999999682970 := by
    rw [show ((197670170072779 / 9999996829700 : ℝ)
        * (197670170072779 / 9999996829700)
        - 4 * (-16648317633669 / 999999682970)
          * (-28212185832687 / 4999998414850))
        = (1498661665987796834801694601 / 100) / (999999682970 : ℝ) ^ 2
        from by norm_num]
    rw [Real.sqrt_div (by norm_num), Real.sqrt_sq (by norm_num)]
    rw [refS]
  have hq_ne : (-0.5 : ℝ) * (197670170072779 / 9999996829700
      + refS / 999999682970) ≠ 0 := by
    have := refS_lb
    intro hcon
    nlinarith
  have hsol : BilinearPatch.solutions (P.quadA R) (P.quadB R) (P.quadC R)
      = [refVo, refV] := by
    rw [hA, hB, hC]
    unfold BilinearPatch.solutions
    rw [if_neg (by norm_num), if_neg (by norm_num)]
    simp only
    rw [if_neg (by norm_num), if_neg (by norm_num)]
    rw [if_neg (by norm_num :
      ¬((197670170072779 / 9999996829700 : ℝ) < 0))]
    rw [mul_one, hsd]
    have h1 : (-28212185832687 / 4999998414850 : ℝ)
        / (-0.5 * (197670170072779 / 9999996829700 + refS / 999999682970))
        = refVo := by
      rw [refVo, div_eq_div_iff hq_ne (ne_of_gt refBS_pos)]
      ring
    have h2 : (-0.5 : ℝ) * (197670170072779 / 9999996829700
          + refS / 999999682970) / (-16648317633669 / 999999682970)
        = refV := by
      rw [refV, div_eq_div_iff (by norm_num) (by norm_num)]
      ring
    rw [h1, h2]
  -- rejection of the root refVo
  have hden1Vo_neg : (2984811 * refVo - 1889375) / refM < 0 :=
    div_neg_of_neg_of_pos (by nlinarith [refVo_ub]) refM_pos
  have hden2Vo_neg : (5969622 * refVo - 2984811) / refM < 0 :=
    div_neg_of_neg_of_pos (by nlinarith [refVo_ub]) refM_pos
  have hsolveVo : P.solve R refVo (P.vars R) = Option.none := by
    rw [hvars]
    refine solve_den1_reject P R refVo _
      ((2984811 * refVo - 1889375) / refM)
      ((5969622 * refVo - 2984811) / refM)
      ((-2291371 * refVo + 17014459 / 10) / refM)
      (by simp only; ring) (by simp only; ring) (by simp only; ring)
      ?_ (ne_of_lt hden1Vo_neg) ?_
    · rw [abs_of_neg hden2Vo_neg, abs_of_neg hden1Vo_neg]
      have hlt : ((2984811 * refVo - 1889375)
          - (5969622 * refVo - 2984811)) / refM < 0 :=
        div_neg_of_neg_of_pos (by nlinarith [refVo_lb]) refM_pos
      rw [sub_div] at hlt
      linarith [hlt]
    · exact div_neg_of_pos_of_neg
        (div_pos (by nlinarith [refVo_ub]) refM_pos) hden1Vo_neg
  -- acceptance of the root refV
  have hdenU_div_pos : 0 < (5969622 * refV - 2984811) / refM :=
    div_pos refDenU_pos refM_pos
  have hden1V_pos : 0 < (2984811 * refV - 1889375) / refM :=
    div_pos (by nlinarith [refV_lb]) refM_pos
  have hposn : P.position refU refV
      = ⟨3 * refV + refU - 3 * (refU * refV), 3 / 10,
         3 * refV + refU⟩ := by
    refine Vec3.eq_of_comps _ _ ?_ ?_ ?_ <;>
      simp only [BilinearPatch.position, hP, BilinearPatch.new]
    · ring
    · linear_combination ref_py
    · ring
  have hxne : (100499 : ℝ) / refM ≠ 0 := div_ne_zero (by norm_num) refM_ne
  have hzne : -((994937 : ℝ) / refM) ≠ 0 :=
    neg_ne_zero.mpr (div_ne_zero (by norm_num) refM_ne)
  have hT_pos : 0 < refT := by
    rw [refT]
    apply div_pos (mul_pos ?_ refM_pos) (by norm_num)
    nlinarith [refV_ub, refU_ub]
  have hct : BilinearPatch.compute_t R
      ⟨3 * refV + refU - 3 * (refU * refV), 3 / 10, 3 * refV + refU⟩
      = F.fin refT := by
    unfold BilinearPatch.compute_t
    rw [hR]
    simp only
    rw [show (3 / 10 : ℝ) - 0.3 = 0 from by norm_num]
    rw [F.ofDiv_nan 0 rfl]
    rw [F.ofDiv_of_ne _ _ hxne, F.ofDiv_of_ne _ _ hzne]
    rw [F.min_nan_right, F.min_fin_fin]
    have hxz : (3 * refV + refU - 3 * (refU * refV) - 1) / (100499 / refM)
        = (3 * refV + refU - 10) / -(994937 / refM) := by
      rw [div_eq_div_iff hxne hzne]
      linear_combination (-(1 / refM)) * ref_txz
    rw [hxz, min_self]
    have hzT : (3 * refV + refU - 10) / -(994937 / refM) = refT := by
      rw [refT]
      field_simp
      ring
    rw [hzT]
  have htu : P.tan_u refV = ⟨1 - 3 * refV, 3 - 6 * refV, 1⟩ := by
    refine Vec3.eq_of_comps _ _ ?_ ?_ ?_ <;>
      simp only [BilinearPatch.tan_u, hP, BilinearPatch.new] <;> ring
  have htv : P.tan_v refU = ⟨3 - 3 * refU, 1 - 6 * refU, 3⟩ := by
    refine Vec3.eq_of_comps _ _ ?_ ?_ ?_ <;>
      simp only [BilinearPatch.tan_v, hP, BilinearPatch.new] <;> ring
  have hnormal : P.normal refU refV = refN := by
    unfold BilinearPatch.normal
    rw [htu, htv, refN]
  have hsolveV : P.solve R refV (P.vars R) = Option.some
      ⟨F.fin refT, refN⟩ := by
    rw [hvars]
    have h0 := solve_den2_accept P R refV
      ⟨2984811 / refM, 5969622 / refM, -(1095436 / refM),
       -(2984811 / refM), -(3286308 / refM), -(994937 / refM),
       1999927 / refM, 2984811 / (10 * refM)⟩
      ((2984811 * refV - 1889375) / refM)
      ((5969622 * refV - 2984811) / refM)
      ((994937 * refV - 2984811 / 10) / refM)
      (by simp only; ring) (by simp only; ring) (by simp only; ring)
      (by
        rw [abs_of_pos hden1V_pos, abs_of_pos hdenU_div_pos, not_lt]
        have hlt : ((2984811 * refV - 1889375)
            - (5969622 * refV - 2984811)) / refM < 0 :=
          div_neg_of_neg_of_pos (by nlinarith [refV_lb]) refM_pos
        rw [sub_div] at hlt
        linarith)
      (ne_of_gt hdenU_div_pos) refU
      (by
        rw [div_div_div_cancel_right₀]
        · rw [refU]
        · exact refM_ne)
      (by
        refine ⟨?_, by linarith [refU_ub], by linarith [refU_lb]⟩
        rw [hposn, hct]
        exact (F.lt_fin_fin 0 refT).mpr hT_pos)
    rw [h0, hposn, hct, hnormal]
  unfold BilinearPatch.intersects BilinearPatch.candidates
  rw [hsol]
  rw [List.filter_cons, if_pos (by
    rw [decide_eq_true_eq]
    exact ⟨by linarith [refVo_lb], by linarith [refVo_ub]⟩)]
  rw [List.filter_cons, if_pos (by
    rw [decide_eq_true_eq]
    exact ⟨by linarith [refV_lb], by linarith [refV_ub]⟩)]
  rw [List.filter_nil, List.filterMap_cons, hsolveVo]
  rw [List.filterMap_cons, hsolveV, List.filterMap_nil]
  rw [List.foldl_cons, List.foldl_nil]
  rw [if_pos (by simp [Intersection.none])]
  exact Intersection.to_option_fin _ _

/-- C5 (amended): on the reference patch with the corner ARGUMENT ORDER of
the source test — BilinearPatch::new (3,1,3) (1,-2,4) (1,3,1) (0,0,0), so
nw = (3,1,3), ne = (1,-2,4), se = (1,3,1), sw = (0,0,0) — and the ray from
(1, 0.3, 10) along normalize (0.100499, 0, -0.994937), intersects returns
a hit whose ray parameter is within 10^-9 of 7.583153100172977 and whose
normal is within 10^-9 per component of
(-0.39795424262671825, 0.7622455889334387, 0.5105037540771958), exactly
the values asserted by the source test. -/
theorem reference_numeric_case :
    ∃ t n, BilinearPatch.intersects
        (BilinearPatch.new ⟨3, 1, 3⟩ ⟨1, -2, 4⟩ ⟨1, 3, 1⟩ ⟨0, 0, 0⟩)
        ⟨⟨1, 0.3, 10⟩, Vec3.normalize ⟨0.100499, 0, -0.994937⟩⟩
      = Option.some ⟨F.fin t, n⟩
      ∧ |t - 7.583153100172977| < 1 / 1000000000
      ∧ |n.x - (-0.39795424262671825)| < 1 / 1000000000
      ∧ |n.y - 0.7622455889334387| < 1 / 1000000000
      ∧ |n.z - 0.5105037540771958| < 1 / 1000000000 := by
  have hq1 : (7.54476079198465342 : ℝ) < 10 - (3 * refV + refU) := by
    linarith [refV_ub, refU_ub]
  have hq2 : 10 - (3 * refV + refU) < 7.54476079198465343 := by
    linarith [refV_lb, refU_lb]
  have hT1 : 7.583153100172977 - 1 / 1000000000 < refT := by
    rw [refT, lt_div_iff₀ (by norm_num : (0 : ℝ) < 994937)]
    have hp : (7.54476079198465342 : ℝ) * 999999.841484987
        < (10 - (3 * refV + refU)) * refM :=
      mul_lt_mul'' hq1 refM_lb (by norm_num) (by norm_num)
    nlinarith [hp]
  have hT2 : refT < 7.583153100172977 + 1 / 1000000000 := by
    rw [refT, div_lt_iff₀ (by norm_num : (0 : ℝ) < 994937)]
    have hp : (10 - (3 * refV + refU)) * refM
        < 7.54476079198465343 * 999999.841484988 :=
      mul_lt_mul'' hq2 refM_ub (by linarith) (le_of_lt refM_pos)
    nlinarith [hp]
  have hcr : Vec3.cross ⟨1 - 3 * refV, 3 - 6 * refV, 1⟩
      ⟨3 - 3 * refU, 1 - 6 * refU, 3⟩
      = ⟨8 - 18 * refV + 6 * refU, 9 * refV - 3 * refU,
         -8 + 3 * refU + 15 * refV⟩ := by
    refine Vec3.eq_of_comps _ _ ?_ ?_ ?_ <;> simp [Vec3.cross] <;> ring
  have hcx1 : (-2.82603600594334 : ℝ) < 8 - 18 * refV + 6 * refU := by
    linarith [refV_ub, refU_lb]
  have hcx2 : 8 - 18 * refV + 6 * refU < -2.82603600594333 := by
    linarith [refV_lb, refU_ub]
  have hcy1 : (5.41301800297166 : ℝ) < 9 * refV - 3 * refU := by
    linarith [refV_lb, refU_ub]
  have hcy2 : 9 * refV - 3 * refU < 5.41301800297167 := by
    linarith [refV_ub, refU_lb]
  have hcz1 : (3.62529616638527 : ℝ) < -8 + 3 * refU + 15 * refV := by
    linarith [refV_lb, refU_lb]
  have hcz2 : -8 + 3 * refU + 15 * refV < 3.62529616638528 := by
    linarith [refV_ub, refU_ub]
  set cx : ℝ := 8 - 18 * refV + 6 * refU with hcxdef
  set cy : ℝ := 9 * refV - 3 * refU with hcydef
  set cz : ℝ := -8 + 3 * refU + 15 * refV with hczdef
  have hdot : Vec3.dot ⟨cx, cy, cz⟩ ⟨cx, cy, cz⟩
      = cx * cx + cy * cy + cz * cz := rfl
  have hcc1 : (50.430015701391 : ℝ) < cx * cx + cy * cy + cz * cz := by
    nlinarith [hcx1, hcx2, hcy1, hcy2, hcz1, hcz2]
  have hcc2 : cx * cx + cy * cy + cz * cz < 50.430015701392 := by
    nlinarith [hcx1, hcx2, hcy1, hcy2, hcz1, hcz2]
  have hccpos : 0 < Vec3.dot ⟨cx, cy, cz⟩ ⟨cx, cy, cz⟩ := by
    rw [hdot]
    nlinarith [hcc1]
  set W : ℝ := Real.sqrt (Vec3.dot ⟨cx, cy, cz⟩ ⟨cx, cy, cz⟩) with hWdef
  have hW_pos : 0 < W := Real.sqrt_pos.mpr hccpos
  have hW1 : (7.1014094165447 : ℝ) ≤ W := by
    rw [hWdef, hdot]
    refine (Real.le_sqrt (by norm_num) (by linarith)).mpr ?_
    nlinarith [hcc1]
  have hW2 : W ≤ 7.1014094165449 := by
    rw [hWdef, hdot]
    calc Real.sqrt (cx * cx + cy * cy + cz * cz)
        ≤ Real.sqrt ((7.1014094165449 : ℝ) ^ 2) :=
          Real.sqrt_le_sqrt (by nlinarith [hcc2])
      _ = 7.1014094165449 := Real.sqrt_sq (by norm_num)
  have hNeq : refN = ⟨cx * 1 * (1 / W), cy * 1 * (1 / W),
      cz * 1 * (1 / W)⟩ := by
    rw [refN, hcr]
    unfold Vec3.normalize
    rw [if_pos hccpos]
    rfl
  have hnx_hi : cx / W < -0.39795424262671825 + 1 / 1000000000 := by
    rw [div_lt_iff₀ hW_pos]
    have hc : (-0.39795424262671825 + 1 / 1000000000 : ℝ) * 7.1014094165449
        ≤ (-0.39795424262671825 + 1 / 1000000000 : ℝ) * W :=
      mul_le_mul_of_nonpos_left hW2 (by norm_num)
    linarith [hcx2, hc]
  have hnx_lo : -0.39795424262671825 - 1 / 1000000000 < cx / W := by
    rw [lt_div_iff₀ hW_pos]
    have hc : (-0.39795424262671825 - 1 / 1000000000 : ℝ) * W
        ≤ (-0.39795424262671825 - 1 / 1000000000 : ℝ) * 7.1014094165447 :=
      mul_le_mul_of_nonpos_left hW1 (by norm_num)
    linarith [hcx1, hc]
  have hny_hi : cy / W < 0.7622455889334387 + 1 / 1000000000 := by
    rw [div_lt_iff₀ hW_pos]
    have hc : (0.7622455889334387 + 1 / 1000000000 : ℝ) * 7.1014094165447
        ≤ (0.7622455889334387 + 1 / 1000000000 : ℝ) * W :=
      mul_le_mul_of_nonneg_left hW1 (by norm_num)
    linarith [hcy2, hc]
  have hny_lo : 0.7622455889334387 - 1 / 1000000000 < cy / W := by
    rw [lt_div_iff₀ hW_pos]
    have hc : (0.7622455889334387 - 1 / 1000000000 : ℝ) * W
        ≤ (0.7622455889334387 - 1 / 1000000000 : ℝ) * 7.1014094165449 :=
      mul_le_mul_of_nonneg_left hW2 (by norm_num)
    linarith [hcy1, hc]
  have hnz_hi : cz / W < 0.5105037540771958 + 1 / 1000000000 := by
    rw [div_lt_iff₀ hW_pos]
    have hc : (0.5105037540771958 + 1 / 1000000000 : ℝ) * 7.1014094165447
        ≤ (0.5105037540771958 + 1 / 1000000000 : ℝ) * W :=
      mul_le_mul_of_nonneg_left hW1 (by norm_num)
    linarith [hcz2, hc]
  have hnz_lo : 0.5105037540771958 - 1 / 1000000000 < cz / W := by
    rw [lt_div_iff₀ hW_pos]
    have hc : (0.5105037540771958 - 1 / 1000000000 : ℝ) * W
        ≤ (0.5105037540771958 - 1 / 1000000000 : ℝ) * 7.1014094165449 :=
      mul_le_mul_of_nonneg_left hW2 (by norm_num)
    linarith [hcz1, hc]
  refine ⟨refT, refN, ?_, ?_, ?_, ?_, ?_⟩
  · rw [show (⟨⟨1, 0.3, 10⟩, Vec3.normalize ⟨0.100499, 0, -0.994937⟩⟩
        : Ray) = ⟨⟨1, 0.3, 10⟩, ⟨100499 / refM, 0, -(994937 / refM)⟩⟩
      from by rw [refDir_eq]]
    exact ref_patch_eval
  · rw [abs_sub_lt_iff]
    exact ⟨by linarith [hT2], by linarith [hT1]⟩
  · rw [hNeq]
    simp only
    rw [show cx * 1 * (1 / W) = cx / W from by ring, abs_sub_lt_iff]
    exact ⟨by linarith [hnx_hi], by linarith [hnx_lo]⟩
  · rw [hNeq]
    simp only
    rw [show cy * 1 * (1 / W) = cy / W from by ring, abs_sub_lt_iff]
    exact ⟨by linarith [hny_hi], by linarith [hny_lo]⟩
  · rw [hNeq]
    simp only
    rw [show cz * 1 * (1 / W) = cz / W from by ring, abs_sub_lt_iff]
    exact ⟨by linarith [hnz_hi], by linarith [hnz_lo]⟩

/-- The accepted root of the reference patch quadratic in the CLAIM's
(reversed) corner order. -/
noncomputable def refVc : ℝ := 5047475585857 / (135296182600601 / 10 + refS)

/-- The rejected root (claim corner order). -/
noncomputable def refVoc : ℝ :=
  (135296182600601 / 10 + refS) / 33296635267338

/-- The patch parameter u for the accepted root (claim corner order). -/
noncomputable def refUc : ℝ :=
  (-994937 * refVc + 6964559 / 10) / (-5969622 * refVc + 2984811)

theorem refBSc_pos : 0 < (135296182600601 / 10 : ℝ) + refS := by
  linarith [refS_lb]

theorem refVc_lb : (0.29007024294346070 : ℝ) < refVc := by
  rw [refVc, lt_div_iff₀ refBSc_pos]
  linarith [refS_ub]

theorem refVc_ub : refVc < 0.29007024294346072 := by
  rw [refVc, div_lt_iff₀ refBSc_pos]
  linarith [refS_lb]

theorem refVoc_lb : (0.5226015571607283 : ℝ) < refVoc := by
  rw [refVoc, lt_div_iff₀ (by norm_num : (0 : ℝ) < 33296635267338)]
  linarith [refS_lb]

theorem refVoc_ub : refVoc < 0.5226015571607284 := by
  rw [refVoc, div_lt_iff₀ (by norm_num : (0 : ℝ) < 33296635267338)]
  linarith [refS_ub]

theorem refDenUc_pos : 0 < -5969622 * refVc + 2984811 := by
  nlinarith [refVc_ub]

theorem refDenUc_ne : -5969622 * refVc + 2984811 ≠ 0 :=
  ne_of_gt refDenUc_pos

theorem refUc_lb : (0.3254499368457286 : ℝ) < refUc := by
  rw [refUc, lt_div_iff₀ refDenUc_pos]
  nlinarith [refVc_lb, refVc_ub]

theorem refUc_ub : refUc < 0.3254499368457288 := by
  rw [refUc, div_lt_iff₀ refDenUc_pos]
  nlinarith [refVc_lb, refVc_ub]

/-- refVc is a root of the projected quadratic of the claim-order
patch. -/
theorem refVc_root : -16648317633669 * (refVc * refVc)
    + 135296182600601 / 10 * refVc - 5047475585857 / 2 = 0 := by
  have h1 : refVc * (135296182600601 / 10 + refS) = 5047475585857 := by
    rw [refVc]
    field_simp
    rw [show (5047475585857 : ℝ) * 10 * (135296182600601 + refS * 10)
        = 5047475585857 * ((135296182600601 + refS * 10) * 10) from by ring,
      mul_div_cancel_right₀]
    nlinarith [refS_lb]
  have hmul : (-16648317633669 * (refVc * refVc)
      + 135296182600601 / 10 * refVc - 5047475585857 / 2)
      * ((135296182600601 / 10 + refS) * (135296182600601 / 10 + refS))
      = 0 := by
    linear_combination (-16648317633669
        * (refVc * (135296182600601 / 10 + refS) - 5047475585857)
      + 2 * (-16648317633669) * 5047475585857
      + (135296182600601 / 10) * (135296182600601 / 10 + refS)) * h1
      + (-5047475585857 / 2) * refS_sq
  rcases mul_eq_zero.mp hmul with h | h
  · exact h
  · exact absurd h (ne_of_gt (mul_pos refBSc_pos refBSc_pos))

theorem refUc_mul : refUc * (-5969622 * refVc + 2984811)
    = -994937 * refVc + 6964559 / 10 := by
  rw [refUc, div_mul_cancel₀ _ refDenUc_ne]

/-- The y coordinate at the claim-order hit is exactly 3/10. -/
theorem ref_pyc : 1 - refVc - 3 * refUc + 6 * (refUc * refVc) = 3 / 10 := by
  have hmul : (1 - refVc - 3 * refUc + 6 * (refUc * refVc) - 3 / 10)
      * (-5969622 * refVc + 2984811) = 0 := by
    linear_combination (-3 + 6 * refVc) * refUc_mul
  rcases mul_eq_zero.mp hmul with h | h
  · linarith
  · exact absurd h refDenUc_ne

/-- The x and z slab parameters agree exactly at the claim-order hit. -/
theorem ref_txzc : (3 - 3 * refVc - 2 * refUc + 3 * (refUc * refVc) - 1)
      * 994937
    = (10 - (3 - 3 * refVc + refUc)) * 100499 := by
  have hmul : ((3 - 3 * refVc - 2 * refUc + 3 * (refUc * refVc) - 1)
        * 994937 - (10 - (3 - 3 * refVc + refUc)) * 100499)
      * (-5969622 * refVc + 2984811) = 0 := by
    linear_combination (2984811 * refVc - 1889375) * refUc_mul
      - refVc_root
  rcases mul_eq_zero.mp hmul with h | h
  · linarith
  · exact absurd h refDenUc_ne

/-- The ray parameter of the claim-order hit (the same value as refT). -/
noncomputable def refTc : ℝ := (7 + 3 * refVc - refUc) * refM / 994937

/-- The claim-order hit normal. -/
noncomputable def refNc : Vec3 :=
  Vec3.normalize (Vec3.cross ⟨-2 + 3 * refVc, -3 + 6 * refVc, 1⟩
    ⟨-3 + 3 * refUc, -1 + 6 * refUc, -3⟩)

/-- Full evaluation of BilinearPatch::intersects on the reference patch
with the CLAIM's corner assignment (the reversed argument order): the hit
has parameter refTc and normal refNc. -/
theorem refc_patch_eval :
    BilinearPatch.intersects
        (BilinearPatch.new ⟨0, 0, 0⟩ ⟨1, 3, 1⟩ ⟨1, -2, 4⟩ ⟨3, 1, 3⟩)
        ⟨⟨1, 0.3, 10⟩, ⟨100499 / refM, 0, -(994937 / refM)⟩⟩
      = Option.some ⟨F.fin refTc, refNc⟩ := by
  set P := BilinearPatch.new ⟨(0 : ℝ), 0, 0⟩ ⟨1, 3, 1⟩ ⟨1, -2, 4⟩ ⟨3, 1, 3⟩
    with hP
  set R : Ray := ⟨⟨1, 0.3, 10⟩, ⟨100499 / refM, 0, -(994937 / refM)⟩⟩
    with hR
  have hMM : (1 / refM) * (1 / refM) = 1 / 999999682970 := by
    rw [div_mul_div_comm, one_mul, refM_sq]
  have hvars : P.vars R = ⟨-(2984811 / refM), -(5969622 / refM),
      1889375 / refM, 2984811 / refM, 3286308 / refM, 994937 / refM,
      -(1286381 / refM), -(6964559 / (10 * refM))⟩ := by
    simp [BilinearPatch.vars, hP, BilinearPatch.new, hR,
      Variables.mk.injEq]
    all_goals field_simp
    all_goals try ring
    all_goals norm_num
  have hA : P.quadA R = -16648317633669 / 999999682970 := by
    unfold BilinearPatch.quadA
    rw [hvars]
    simp only
    rw [show (-(5969622 / refM)) * (3286308 / refM)
        - (-(2984811 / refM)) * (994937 / refM)
        = -16648317633669 * ((1 / refM) * (1 / refM)) from by ring, hMM]
    norm_num
  have hB : P.quadB R = 135296182600601 / 9999996829700 := by
    unfold BilinearPatch.quadB
    rw [hvars]
    simp only
    rw [show (-(5969622 / refM)) * (-(1286381 / refM))
        - (-(2984811 / refM)) * (-(6964559 / (10 * refM)))
        + (2984811 / refM) * (3286308 / refM)
        - (1889375 / refM) * (994937 / refM)
        = (135296182600601 / 10) * ((1 / refM) * (1 / refM)) from by ring,
      hMM]
    norm_num
  have hC : P.quadC R = -5047475585857 / 1999999365940 := by
    unfold BilinearPatch.quadC
    rw [hvars]
    simp only
    rw [show (2984811 / refM) * (-(1286381 / refM))
        - (1889375 / refM) * (-(6964559 / (10 * refM)))
        = (-5047475585857 / 2) * ((1 / refM) * (1 / refM)) from by ring,
      hMM]
    norm_num
  have hsd : Real.sqrt ((135296182600601 / 9999996829700 : ℝ)
      * (135296182600601 / 9999996829700)
      - 4 * (-16648317633669 / 999999682970)
        * (-5047475585857 / 1999999365940)) = refS / 999999682970 := by
    rw [show ((135296182600601 / 9999996829700 : ℝ)
        * (135296182600601 / 9999996829700)
        - 4 * (-16648317633669 / 999999682970)
          * (-5047475585857 / 1999999365940))
        = (1498661665987796834801694601 / 100) / (999999682970 : ℝ) ^ 2
        from by norm_num]
    rw [Real.sqrt_div (by norm_num), Real.sqrt_sq (by norm_num)]
    rw [refS]
  have hq_ne : (-0.5 : ℝ) * (135296182600601 / 9999996829700
      + refS / 999999682970) ≠ 0 := by
    have := refS_lb
    intro hcon
    nlinarith
  have hsol : BilinearPatch.solutions (P.quadA R) (P.quadB R) (P.quadC R)
      = [refVc, refVoc] := by
    rw [hA, hB, hC]
    unfold BilinearPatch.solutions
    rw [if_neg (by norm_num), if_neg (by norm_num)]
    simp only
    rw [if_neg (by norm_num), if_neg (by norm_num)]
    rw [if_neg (by norm_num :
      ¬((135296182600601 / 9999996829700 : ℝ) < 0))]
    rw [mul_one, hsd]
    have h1 : (-5047475585857 / 1999999365940 : ℝ)
        / (-0.5 * (135296182600601 / 9999996829700 + refS / 999999682970))
        = refVc := by
      rw [refVc, div_eq_div_iff hq_ne (ne_of_gt refBSc_pos)]
      ring
    have h2 : (-0.5 : ℝ) * (135296182600601 / 9999996829700
          + refS / 999999682970) / (-16648317633669 / 999999682970)
        = refVoc := by
      rw [refVoc, div_eq_div_iff (by norm_num) (by norm_num)]
      ring
    rw [h1, h2]
  -- acceptance of refVc
  have hden1c_pos : 0 < (-2984811 * refVc + 1095436) / refM :=
    div_pos (by nlinarith [refVc_ub]) refM_pos
  have hden2c_pos : 0 < (-5969622 * refVc + 2984811) / refM :=
    div_pos refDenUc_pos refM_pos
  have hposnc : P.position refUc refVc
      = ⟨3 - 3 * refVc - 2 * refUc + 3 * (refUc * refVc), 3 / 10,
         3 - 3 * refVc + refUc⟩ := by
    refine Vec3.eq_of_comps _ _ ?_ ?_ ?_ <;>
      simp only [BilinearPatch.position, hP, BilinearPatch.new]
    · ring
    · linear_combination ref_pyc
    · ring
  have hxne : (100499 : ℝ) / refM ≠ 0 := div_ne_zero (by norm_num) refM_ne
  have hzne : -((994937 : ℝ) / refM) ≠ 0 :=
    neg_ne_zero.mpr (div_ne_zero (by norm_num) refM_ne)
  have hTc_pos : 0 < refTc := by
    rw [refTc]
    apply div_pos (mul_pos ?_ refM_pos) (by norm_num)
    nlinarith [refVc_lb, refUc_ub]
  have hct : BilinearPatch.compute_t R
      ⟨3 - 3 * refVc - 2 * refUc + 3 * (refUc * refVc), 3 / 10,
       3 - 3 * refVc + refUc⟩ = F.fin refTc := by
    unfold BilinearPatch.compute_t
    rw [hR]
    simp only
    rw [show (3 / 10 : ℝ) - 0.3 = 0 from by norm_num]
    rw [F.ofDiv_nan 0 rfl]
    rw [F.ofDiv_of_ne _ _ hxne, F.ofDiv_of_ne _ _ hzne]
    rw [F.min_nan_right, F.min_fin_fin]
    have hxz : (3 - 3 * refVc - 2 * refUc + 3 * (refUc * refVc) - 1)
          / (100499 / refM)
        = (3 - 3 * refVc + refUc - 10) / -(994937 / refM) := by
      rw [div_eq_div_iff hxne hzne]
      linear_combination (-(1 / refM)) * ref_txzc
    rw [hxz, min_self]
    have hzT : (3 - 3 * refVc + refUc - 10) / -(994937 / refM)
        = refTc := by
      rw [refTc]
      field_simp
      ring
    rw [hzT]
  have htu : P.tan_u refVc = ⟨-2 + 3 * refVc, -3 + 6 * refVc, 1⟩ := by
    refine Vec3.eq_of_comps _ _ ?_ ?_ ?_ <;>
      simp only [BilinearPatch.tan_u, hP, BilinearPatch.new] <;> ring
  have htv : P.tan_v refUc = ⟨-3 + 3 * refUc, -1 + 6 * refUc, -3⟩ := by
    refine Vec3.eq_of_comps _ _ ?_ ?_ ?_ <;>
      simp only [BilinearPatch.tan_v, hP, BilinearPatch.new] <;> ring
  have hnormal : P.normal refUc refVc = refNc := by
    unfold BilinearPatch.normal
    rw [htu, htv, refNc]
  have hsolveVc : P.solve R refVc (P.vars R) = Option.some
      ⟨F.fin refTc, refNc⟩ := by
    rw [hvars]
    have h0 := solve_den2_accept P R refVc
      ⟨-(2984811 / refM), -(5969622 / refM), 1889375 / refM,
       2984811 / refM, 3286308 / refM, 994937 / refM,
       -(1286381 / refM), -(6964559 / (10 * refM))⟩
      ((-2984811 * refVc + 1095436) / refM)
      ((-5969622 * refVc + 2984811) / refM)
      ((-994937 * refVc + 6964559 / 10) / refM)
      (by simp only; ring) (by simp only; ring) (by simp only; ring)
      (by
        rw [abs_of_pos hden1c_pos, abs_of_pos hden2c_pos, not_lt]
        have hlt : ((-2984811 * refVc + 1095436)
            - (-5969622 * refVc + 2984811)) / refM < 0 :=
          div_neg_of_neg_of_pos (by nlinarith [refVc_ub]) refM_pos
        rw [sub_div] at hlt
        linarith)
      (ne_of_gt hden2c_pos) refUc
      (by
        rw [div_div_div_cancel_right₀]
        · rw [refUc]
        · exact refM_ne)
      (by
        refine ⟨?_, by linarith [refUc_ub], by linarith [refUc_lb]⟩
        rw [hposnc, hct]
        exact (F.lt_fin_fin 0 refTc).mpr hTc_pos)
    rw [h0, hposnc, hct, hnormal]
  -- rejection of refVoc
  have hden1oc_neg : (-2984811 * refVoc + 1095436) / refM < 0 :=
    div_neg_of_neg_of_pos (by nlinarith [refVoc_lb]) refM_pos
  have hden2oc_neg : (-5969622 * refVoc + 2984811) / refM < 0 :=
    div_neg_of_neg_of_pos (by nlinarith [refVoc_lb]) refM_pos
  have hsolveVoc : P.solve R refVoc (P.vars R) = Option.none := by
    rw [hvars]
    refine solve_den1_reject P R refVoc _
      ((-2984811 * refVoc + 1095436) / refM)
      ((-5969622 * refVoc + 2984811) / refM)
      ((2291371 * refVoc - 5899251 / 10) / refM)
      (by simp only; ring) (by simp only; ring) (by simp only; ring)
      ?_ (ne_of_lt hden1oc_neg) ?_
    · rw [abs_of_neg hden2oc_neg, abs_of_neg hden1oc_neg]
      have hlt : ((-2984811 * refVoc + 1095436)
          - (-5969622 * refVoc + 2984811)) / refM < 0 :=
        div_neg_of_neg_of_pos (by nlinarith [refVoc_ub]) refM_pos
      rw [sub_div] at hlt
      linarith
    · exact div_neg_of_pos_of_neg
        (div_pos (by nlinarith [refVoc_lb]) refM_pos) hden1oc_neg
  unfold BilinearPatch.intersects BilinearPatch.candidates
  rw [hsol]
  rw [List.filter_cons, if_pos (by
    rw [decide_eq_true_eq]
    exact ⟨by linarith [refVc_lb], by linarith [refVc_ub]⟩)]
  rw [List.filter_cons, if_pos (by
    rw [decide_eq_true_eq]
    exact ⟨by linarith [refVoc_lb], by linarith [refVoc_ub]⟩)]
  rw [List.filter_nil, List.filterMap_cons, hsolveVc]
  rw [List.filterMap_cons, hsolveVoc, List.filterMap_nil]
  rw [List.foldl_cons, List.foldl_nil]
  rw [if_pos (by simp [Intersection.none])]
  exact Intersection.to_option_fin _ _

/-- C5 counterexample: with the corner list exactly as the claim states it
— nw = (0,0,0), ne = (1,3,1), se = (1,-2,4), sw = (3,1,3) passed in the
constructor's (nw, ne, se, sw) order — the returned hit's normal has a
NEGATIVE y component, contradicting the claimed normal y ≈ +0.762246.
The claim's corner list is the reverse of the source test's argument
order; reversing flips the parametrization (v to 1 - v), which negates
the normal while keeping the same t. -/
theorem reference_numeric_case_counterexample :
    ∃ t n, BilinearPatch.intersects
        (BilinearPatch.new ⟨0, 0, 0⟩ ⟨1, 3, 1⟩ ⟨1, -2, 4⟩ ⟨3, 1, 3⟩)
        ⟨⟨1, 0.3, 10⟩, Vec3.normalize ⟨0.100499, 0, -0.994937⟩⟩
      = Option.some ⟨F.fin t, n⟩ ∧ n.y < 0 := by
  refine ⟨refTc, refNc, ?_, ?_⟩
  · rw [show (⟨⟨1, 0.3, 10⟩, Vec3.normalize ⟨0.100499, 0, -0.994937⟩⟩
        : Ray) = ⟨⟨1, 0.3, 10⟩, ⟨100499 / refM, 0, -(994937 / refM)⟩⟩
      from by rw [refDir_eq]]
    exact refc_patch_eval
  · have hcrc : Vec3.cross ⟨-2 + 3 * refVc, -3 + 6 * refVc, 1⟩
        ⟨-3 + 3 * refUc, -1 + 6 * refUc, -3⟩
        = ⟨10 - 18 * refVc - 6 * refUc, 3 * refUc + 9 * refVc - 9,
           -7 - 3 * refUc + 15 * refVc⟩ := by
      refine Vec3.eq_of_comps _ _ ?_ ?_ ?_ <;> simp [Vec3.cross] <;> ring
    have hcy_neg : 3 * refUc + 9 * refVc - 9 < 0 := by
      linarith [refUc_ub, refVc_ub]
    have hdot_pos : 0 < Vec3.dot
        ⟨10 - 18 * refVc - 6 * refUc, 3 * refUc + 9 * refVc - 9,
         -7 - 3 * refUc + 15 * refVc⟩
        ⟨10 - 18 * refVc - 6 * refUc, 3 * refUc + 9 * refVc - 9,
         -7 - 3 * refUc + 15 * refVc⟩ := by
      simp only [Vec3.dot]
      nlinarith [sq_nonneg (10 - 18 * refVc - 6 * refUc),
        sq_nonneg (-7 - 3 * refUc + 15 * refVc), hcy_neg]
    rw [refNc, hcrc]
    unfold Vec3.normalize
    rw [if_pos hdot_pos]
    simp only [Vec3.smul]
    exact mul_neg_of_neg_of_pos (by linarith [hcy_neg])
      (div_pos one_pos (Real.sqrt_pos.mpr hdot_pos))
